import Mathlib

/-! # Function replacement by trampolines (`tbb_function_replacement.cpp`)

A shallow embedding of the Win64 build of the trampoline machinery:
`IsInDistance`, `MemoryProvider` (`CreateBuffer`, `GetLocation`),
`InsertTrampoline32`, `InsertTrampoline64`, `InsertTrampoline`,
`ReplaceFunctionA` and `ReplaceFunctionW`.

Conventions of the embedding.

* `UINT_PTR` values are natural numbers below `2 ^ 64`; every `UINT_PTR`
  operation of the source is reduced modulo `2 ^ 64` where it can overflow.
  `UINT` and `DWORD` values are reduced modulo `2 ^ 32`.
* Process memory is a map from addresses to bytes.  Page protection and the
  reservation state of pages are maps from page numbers.
* The `FUNCPTR` variable that `storedAddr` points to is 8 bytes of process
  memory at the address `storedAddr` (0 is the null pointer): the statement
  `*storedAddr = ...` stores the little-endian bytes of the location there, and
  every later `*storedAddr` reads them back from the memory of that moment.
* The Win32 calls are a deterministic environment carried by `World`; the
  answers of `VirtualQuery`, `GetModuleHandle` and `GetProcAddress` are
  arbitrary functions stored in the world.  `VirtualProtect` succeeds exactly
  on ranges of committed pages.  `VirtualAlloc` serves a request when its pages
  are free and inside the application address range and the system grants it;
  it rounds the address down to the allocation granularity.  Memory accesses
  do not fault.
* The unsigned-to-signed conversion of a 64-bit value wraps (two's complement),
  as the Microsoft compiler does it.
* The `for(;;)` loop of `CreateBuffer` is bounded by a fuel argument; `none`
  stands for "the loop did not finish within the fuel".
* The constants of `tbb_function_replacement.h` whose values are not part of
  the sources at hand are fields of `Header`.
-/

namespace FunctionReplacement

/-! ## Constants -/

/-- Constants declared in `tbb_function_replacement.h`. -/
structure Header where
  /-- Width of a slot of trampoline memory (`const unsigned`). -/
  MAX_PROBE_SIZE : Nat
  /-- Bound of `IsInDistance` (`const __int64`). -/
  MAX_DISTANCE : Int
  /-- Capacity of `m_pages` (`const ptrdiff_t`). -/
  MAX_NUM_BUFFERS : Nat

/-- Modelled from the spec: the size of the relative jump `e9 xx xx xx xx`
(`SIZE_OF_RELJUMP` of the header), a 1-byte opcode and a 4-byte displacement. -/
def SIZE_OF_RELJUMP : Nat := 5

/-- Modelled from the spec: the size of the indirect jump `ff 25 xx xx xx xx`
(`SIZE_OF_INDJUMP` of the header). -/
def SIZE_OF_INDJUMP : Nat := 6

/-- Page size of the platform (x86-64 Windows). -/
def PAGE_SIZE : Nat := 4096

/-- Value of `MEM_COMMIT` in `windows.h`. -/
def MEM_COMMIT : Nat := 0x1000
/-- Value of `MEM_RESERVE` in `windows.h`. -/
def MEM_RESERVE : Nat := 0x2000
/-- Value of `MEM_FREE` in `windows.h`. -/
def MEM_FREE : Nat := 0x10000
/-- Value of `PAGE_READWRITE` in `windows.h`. -/
def PAGE_READWRITE : Nat := 0x04
/-- Value of `PAGE_EXECUTE_READWRITE` in `windows.h`. -/
def PAGE_EXECUTE_READWRITE : Nat := 0x40
/-- Value of `PAGE_EXECUTE_WRITECOPY` in `windows.h`. -/
def PAGE_EXECUTE_WRITECOPY : Nat := 0x80
/-- Value of `MAX_PATH` in `windows.h`. -/
def MAX_PATH : Nat := 260

/-! ## Address and distance utilities -/

/-- Conversion of an unsigned 64-bit value to `__int64` (two's complement). -/
def toInt64 (x : Nat) : Int :=
  if x % 18446744073709551616 < 9223372036854775808 then ((x % 18446744073709551616 : Nat) : Int)
  else ((x % 18446744073709551616 : Nat) : Int) - 18446744073709551616

/-- Source: `IsInDistance`.  The unsigned difference of the two addresses is
stored in an `__int64` and compared with `dist`. -/
def IsInDistance (addr1 addr2 : Nat) (dist : Int) : Bool :=
  let diff : Int := toInt64 (if addr1 > addr2 then addr1 - addr2 else addr2 - addr1)
  decide (diff < dist)

/-- Sign extension of a 32-bit displacement to a 64-bit address offset. -/
def signExtend32 (d : Nat) : Nat :=
  if d % 4294967296 < 2147483648 then d % 4294967296
  else d % 4294967296 + (18446744073709551616 - 4294967296)

/-! ## Byte memory -/

/-- One byte store. -/
def store (m : Nat → Nat) (a v : Nat) : Nat → Nat :=
  fun x => if x = a then v else m x

/-- Consecutive byte stores starting at address `a` (addresses wrap at `2 ^ 64`). -/
def writeBytes (m : Nat → Nat) (a : Nat) : List Nat → Nat → Nat
  | [] => m
  | b :: bs => writeBytes (store m (a % 18446744073709551616) b) (a + 1) bs

/-- The `n` bytes found at address `a`. -/
def readBytes (m : Nat → Nat) (a n : Nat) : List Nat :=
  (List.range n).map (fun i => m ((a + i) % 18446744073709551616))

/-- Little-endian bytes of a 32-bit value. -/
def le32 (v : Nat) : List Nat :=
  [v % 256, v / 256 % 256, v / 65536 % 256, v / 16777216 % 256]

/-- Little-endian bytes of a 64-bit value. -/
def le64 (v : Nat) : List Nat :=
  le32 (v % 4294967296) ++ le32 (v / 4294967296 % 4294967296)

/-- The 32-bit little-endian value stored at address `a`. -/
def read32 (m : Nat → Nat) (a : Nat) : Nat :=
  m (a % 18446744073709551616) + 256 * m ((a + 1) % 18446744073709551616)
    + 65536 * m ((a + 2) % 18446744073709551616) + 16777216 * m ((a + 3) % 18446744073709551616)

/-- The 64-bit little-endian value stored at address `a`. -/
def read64 (m : Nat → Nat) (a : Nat) : Nat :=
  read32 m a + 4294967296 * read32 m (a + 4)

/-! ## The environment -/

/-- The fields of `MEMORY_BASIC_INFORMATION` that `CreateBuffer` reads. -/
structure MEMORY_BASIC_INFORMATION where
  BaseAddress : Nat
  RegionSize : Nat
  State : Nat

/-- Source: `MemoryProvider::MemoryBuffer`. -/
structure MemoryBuffer where
  /-- base address of the buffer -/
  m_base : Nat
  /-- next free location in the buffer -/
  m_next : Nat
  /-- size of buffer -/
  m_size : Nat

/-- Calls to the environment that are recorded for observation. -/
inductive Event where
  | getModuleHandleA (name : List Nat)
  | getModuleHandleW (name : List Nat)
  | getProcAddress (hModule : Nat) (name : List Nat)
  | flushInstructionCache (addr size : Nat)
  | insertTrampoline32 (inpAddr targetAddr : Nat)
  | insertTrampoline64 (inpAddr targetAddr : Nat)
  deriving DecidableEq

/-- The process state: memory, the operating system's view of it, the static
`memProvider`, the static caches of `ReplaceFunctionA`/`ReplaceFunctionW`, and
the record of observed calls. -/
structure World where
  /-- bytes of the address space -/
  mem : Nat → Nat
  /-- protection of each page, by page number -/
  prot : Nat → Nat
  /-- state of each page (`MEM_FREE`, `MEM_RESERVE`, `MEM_COMMIT`), by page number -/
  state : Nat → Nat
  /-- answer of `VirtualQuery` in a given page state, `none` for a failed call -/
  query : (Nat → Nat) → Nat → Option MEMORY_BASIC_INFORMATION
  /-- whether the system has the resources to serve a `VirtualAlloc` request -/
  allocOk : (Nat → Nat) → Nat → Bool
  /-- the `dwAllocationGranularity` of `GetSystemInfo` -/
  dwAllocationGranularity : Nat
  /-- the `lpMaximumApplicationAddress` of `GetSystemInfo` -/
  lpMaximumApplicationAddress : Nat
  /-- answer of `GetModuleHandleA`, 0 for a module that is not loaded -/
  modulesA : List Nat → Nat
  /-- answer of `GetModuleHandleW`, 0 for a module that is not loaded -/
  modulesW : List Nat → Nat
  /-- answer of `GetProcAddress`, 0 for a symbol that is not exported -/
  exports : Nat → List Nat → Nat
  /-- `memProvider.m_pages[0 .. m_lastBuffer)` -/
  m_pages : List MemoryBuffer
  /-- `cachedName` of `ReplaceFunctionA` -/
  cachedNameA : List Nat
  /-- `cachedHM` of `ReplaceFunctionA` -/
  cachedHMA : Nat
  /-- `cachedName` of `ReplaceFunctionW` -/
  cachedNameW : List Nat
  /-- `cachedHM` of `ReplaceFunctionW` -/
  cachedHMW : Nat
  /-- observed calls, oldest first -/
  log : List Event

/-- Source: `memProvider.m_allocSize`, a `DWORD` that the constructor
`MemoryProvider()` sets to `sysInfo.dwAllocationGranularity` and that is never
written again. -/
def World.m_allocSize (w : World) : Nat :=
  w.dwAllocationGranularity % 4294967296

/-- Page numbers touched by the byte range `[addr, addr + size)`. -/
@[reducible] def inPages (addr size pg : Nat) : Prop :=
  addr / PAGE_SIZE ≤ pg ∧ pg ≤ (addr + size - 1) / PAGE_SIZE

/-- Every page touched by `[addr, addr + size)` is in state `st`. -/
def allPages (state : Nat → Nat) (addr size st : Nat) : Bool :=
  (List.range ((addr + size - 1) / PAGE_SIZE + 1 - addr / PAGE_SIZE)).all
    (fun i => state (addr / PAGE_SIZE + i) == st)

/-- Win32 `VirtualProtect`: fails unless the whole range is committed; on
success sets the protection of every page of the range and yields the old
protection of the first page. -/
def VirtualProtect (w : World) (addr size newProt : Nat) : Option (World × Nat) :=
  if allPages w.state addr size MEM_COMMIT then
    some ({ w with prot := fun pg => if inPages addr size pg then newProt else w.prot pg },
          w.prot (addr / PAGE_SIZE))
  else none

/-- Win32 `VirtualQuery`. -/
def VirtualQuery (w : World) (addr : Nat) : Option MEMORY_BASIC_INFORMATION :=
  w.query w.state addr

/-- Win32 `VirtualAlloc` with `MEM_COMMIT|MEM_RESERVE` at a given address: the
address is rounded down to the allocation granularity; the call fails (yields
0) unless the pages are free, inside the application address range, and the
system grants the request. -/
def VirtualAlloc (w : World) (addr size protect : Nat) : World × Nat :=
  let base := addr / w.dwAllocationGranularity * w.dwAllocationGranularity
  if base ≠ 0 ∧ addr + size ≤ w.lpMaximumApplicationAddress + 1 ∧ 0 < size
      ∧ w.allocOk w.state addr = true
      ∧ allPages w.state base (addr + size - base) MEM_FREE = true then
    ({ w with
        state := fun pg => if inPages base (addr + size - base) pg then MEM_COMMIT else w.state pg
        prot := fun pg => if inPages base (addr + size - base) pg then protect else w.prot pg },
     base)
  else (w, 0)

/-! ## MemoryProvider -/

/-- Source: `MemoryBuffer(void *base, DWORD size)`. -/
def MemoryBuffer.create (base size : Nat) : MemoryBuffer :=
  { m_base := base, m_next := base, m_size := size }

/-- Source: the constructor `MemoryProvider()`: `m_lastBuffer = &m_pages[0]`,
no buffer is registered. -/
def MemoryProvider.init (w : World) : World :=
  { w with m_pages := [] }

/-- Source: the `for(;;)` loop of `CreateBuffer`.  The result is the index of
the new buffer in `m_pages`, or `none` for the null pointer. -/
def CreateBuffer.search (p : Header) (w : World) (addr : Nat) :
    Nat → MEMORY_BASIC_INFORMATION → Option (World × Option Nat)
  | 0, _ => none
  | fuel + 1, memInfo =>
    let newAddr := Nat.land
      ((memInfo.BaseAddress + memInfo.RegionSize + w.m_allocSize) % 18446744073709551616)
      (18446744073709551615 - (w.m_allocSize + 4294967295) % 4294967296)
    if IsInDistance addr newAddr p.MAX_DISTANCE = false then some (w, none)
    else
      match VirtualQuery w newAddr with
      | none => some (w, none)
      | some memInfo' =>
        if memInfo'.State = MEM_FREE ∧ memInfo'.RegionSize ≥ w.m_allocSize then
          let r := VirtualAlloc w newAddr w.m_allocSize PAGE_READWRITE
          if r.2 = 0 then some (r.1, none)
          else
            some ({ r.1 with m_pages := r.1.m_pages ++ [MemoryBuffer.create r.2 w.m_allocSize] },
                  some r.1.m_pages.length)
        else CreateBuffer.search p w addr fuel memInfo'

/-- Source: `MemoryProvider::CreateBuffer`. -/
def CreateBuffer (p : Header) (fuel : Nat) (w : World) (addr : Nat) :
    Option (World × Option Nat) :=
  if w.m_pages.length = p.MAX_NUM_BUFFERS then some (w, none)
  else
    match VirtualQuery w addr with
    | none => some (w, none)
    | some memInfo => CreateBuffer.search p w addr fuel memInfo

/-- Source: the scan loop of `GetLocation` over `m_pages`.  On a hit the result
is the index of the buffer, the location handed out and the updated buffers. -/
def GetLocation.scan (p : Header) (addr : Nat) :
    List MemoryBuffer → Option (Nat × Nat × List MemoryBuffer)
  | [] => none
  | b :: bs =>
    if IsInDistance b.m_next addr p.MAX_DISTANCE then
      if b.m_next < (b.m_base + b.m_size) % 18446744073709551616 then
        some (0, b.m_next,
          { b with m_next := (b.m_next + p.MAX_PROBE_SIZE) % 18446744073709551616 } :: bs)
      else
        match GetLocation.scan p addr bs with
        | none => none
        | some r => some (r.1 + 1, r.2.1, b :: r.2.2)
    else none

/-- The statement `pBuff->m_next += MAX_PROBE_SIZE` on the buffer of index `i`. -/
def advance (p : Header) : Nat → List MemoryBuffer → List MemoryBuffer
  | _, [] => []
  | 0, b :: bs => { b with m_next := (b.m_next + p.MAX_PROBE_SIZE) % 18446744073709551616 } :: bs
  | i + 1, b :: bs => b :: advance p i bs

/-- The field `m_next` of the buffer of index `i`. -/
def nextOf : Nat → List MemoryBuffer → Nat
  | _, [] => 0
  | 0, b :: _ => b.m_next
  | i + 1, _ :: bs => nextOf i bs

/-- Source: `MemoryProvider::GetLocation`, together with the index of the
buffer that served the request (`pBuff - m_pages`); location 0 is failure. -/
def GetLocation.served (p : Header) (fuel : Nat) (w : World) (addr : Nat) :
    Option (World × Nat × Option Nat) :=
  match GetLocation.scan p addr w.m_pages with
  | some r => some ({ w with m_pages := r.2.2 }, r.2.1, some r.1)
  | none =>
    match CreateBuffer p fuel w addr with
    | none => none
    | some (w', none) => some (w', 0, none)
    | some (w', some i) =>
      some ({ w' with m_pages := advance p i w'.m_pages }, nextOf i w'.m_pages, some i)

/-- Source: `MemoryProvider::GetLocation`. -/
def GetLocation (p : Header) (fuel : Nat) (w : World) (addr : Nat) : Option (World × Nat) :=
  match GetLocation.served p fuel w addr with
  | none => none
  | some r => some (r.1, r.2.1)

/-! ## Trampoline generators -/

/-- Subtraction of `UINT_PTR` values. -/
def subPtr (a b : Nat) : Nat :=
  (a % 18446744073709551616 + 18446744073709551616 - b % 18446744073709551616)
    % 18446744073709551616

/-- Source: the block `if ( storedAddr ){ ... }`, textually the same in
`InsertTrampoline32` and `InsertTrampoline64`.  The flag of the result is
`false` when the block leaves the generator with `return 0`.  The location is
stored in the 8 bytes at `storedAddr`; the four later uses of `*storedAddr`
(the argument of `VirtualProtect`, the destination of the first `memcpy`, the
address of the opcode byte and the destination of the second `memcpy`) read
these bytes from the memory as it is then.  `memcpy` reads its source before it
writes. -/
def storeOriginal (p : Header) (fuel : Nat) (w : World)
    (srcAddr opcodesNumber storedAddr : Nat) : Option (World × Bool) :=
  match GetLocation p fuel w srcAddr with
  | none => none
  | some (w1, strdAddr) =>
    if strdAddr = 0 then some (w1, false)
    else
      let w2 : World :=
        { w1 with
          mem :=
            writeBytes w1.mem storedAddr (le64 strdAddr) }
      match VirtualProtect w2 (read64 w2.mem storedAddr) p.MAX_PROBE_SIZE
          PAGE_EXECUTE_READWRITE with
      | none => some (w2, false)
      | some (w3, _) =>
        let m1 := writeBytes w3.mem (read64 w3.mem storedAddr)
          (readBytes w3.mem srcAddr opcodesNumber)
        let offset := subPtr (subPtr srcAddr strdAddr) SIZE_OF_RELJUMP
        let offset32 := offset % 4294967296
        let m2 := store m1 ((read64 m1 storedAddr + opcodesNumber) % 18446744073709551616) 0xE9
        let m3 := writeBytes m2 (read64 m2 storedAddr + opcodesNumber + 1) (le32 offset32)
        some ({ w3 with mem := m3 }, true)

/-- Source: `InsertTrampoline32`.  `storedAddr` is the address of the
caller's `FUNCPTR` variable, 0 for a null pointer. -/
def InsertTrampoline32 (p : Header) (fuel : Nat) (w : World)
    (inpAddr targetAddr opcodesNumber storedAddr : Nat) : Option (World × Nat) :=
  let srcAddr := inpAddr
  let tgtAddr := targetAddr
  if IsInDistance srcAddr tgtAddr p.MAX_DISTANCE = false then some (w, 0)
  else
    match (if storedAddr ≠ 0 then storeOriginal p fuel w srcAddr opcodesNumber storedAddr
           else some (w, true)) with
    | none => none
    | some (w1, false) => some (w1, 0)
    | some (w1, true) =>
      let offset := subPtr (subPtr tgtAddr srcAddr) SIZE_OF_RELJUMP
      let offset32 := offset % 4294967296
      let m1 := store w1.mem (inpAddr % 18446744073709551616) 0xE9
      let m2 := writeBytes m1 (inpAddr + 1) (le32 offset32)
      let m3 := writeBytes m2 (inpAddr + SIZE_OF_RELJUMP)
        (List.replicate (opcodesNumber - SIZE_OF_RELJUMP) 0x90)
      some ({ w1 with mem := m3 }, SIZE_OF_RELJUMP)

/-- Source: `InsertTrampoline64`. -/
def InsertTrampoline64 (p : Header) (fuel : Nat) (w : World)
    (inpAddr targetAddr opcodesNumber storedAddr : Nat) : Option (World × Nat) :=
  let srcAddr := inpAddr
  let tgtAddr := targetAddr
  match GetLocation p fuel w srcAddr with
  | none => none
  | some (w1, location) =>
    if location = 0 then some (w1, 0)
    else
      let w2 : World := { w1 with mem := writeBytes w1.mem location (le64 tgtAddr) }
      match (if storedAddr ≠ 0 then storeOriginal p fuel w2 srcAddr opcodesNumber storedAddr
             else some (w2, true)) with
      | none => none
      | some (w3, false) => some (w3, 0)
      | some (w3, true) =>
        let offset := subPtr (subPtr location srcAddr) SIZE_OF_INDJUMP
        let offset32 := offset % 4294967296
        let m1 := store w3.mem (inpAddr % 18446744073709551616) 0xFF
        let m2 := store m1 ((inpAddr + 1) % 18446744073709551616) 0x25
        let m3 := writeBytes m2 (inpAddr + 2) (le32 offset32)
        let m4 := writeBytes m3 (inpAddr + SIZE_OF_INDJUMP)
          (List.replicate (opcodesNumber - SIZE_OF_INDJUMP) 0x90)
        some ({ w3 with mem := m4 }, SIZE_OF_INDJUMP)

/-- Record one observed call. -/
def record (w : World) (e : Event) : World :=
  { w with log := w.log ++ [e] }

/-- Source: `InsertTrampoline`.  The calls of the two generators and of
`FlushInstructionCache` are recorded in the log. -/
def InsertTrampoline (p : Header) (fuel : Nat) (w : World)
    (inpAddr targetAddr opcodesNumber origFunc : Nat) : Option (World × Bool) :=
  match VirtualProtect w inpAddr p.MAX_PROBE_SIZE PAGE_EXECUTE_WRITECOPY with
  | none => some (w, false)
  | some (w1, origProt) =>
    match InsertTrampoline32 p fuel (record w1 (Event.insertTrampoline32 inpAddr targetAddr))
            inpAddr targetAddr opcodesNumber origFunc with
    | none => none
    | some (w2, probeSize32) =>
      match (if probeSize32 = 0 then
               InsertTrampoline64 p fuel (record w2 (Event.insertTrampoline64 inpAddr targetAddr))
                 inpAddr targetAddr opcodesNumber origFunc
             else some (w2, probeSize32)) with
      | none => none
      | some (w3, probeSize) =>
        let w4 : World :=
          match VirtualProtect w3 inpAddr p.MAX_PROBE_SIZE origProt with
          | some (w', _) => w'
          | none => w3
        if probeSize = 0 then some (w4, false)
        else
          some (record (record w4 (Event.flushInstructionCache inpAddr probeSize))
                  (Event.flushInstructionCache origFunc probeSize), true)

/-! ## Public entry points -/

/-- Modelled from the spec: the result type `FRR_TYPE` of the header, with the
four outcomes success, module not found, function not found, patch failed. -/
inductive FRR_TYPE where
  | FRR_OK
  | FRR_NODLL
  | FRR_NOFUNC
  | FRR_FAILED
  deriving DecidableEq

/-- Source: `ReplaceFunctionA`.  `dllName` is `none` for a null pointer,
otherwise the characters of the string before its terminator. -/
def ReplaceFunctionA (p : Header) (fuel : Nat) (w : World) (dllName : Option (List Nat))
    (funcName : List Nat) (newFunc opcodesNumber origFunc : Nat) : Option (World × FRR_TYPE) :=
  match dllName with
  | none => some (w, FRR_TYPE.FRR_NODLL)
  | some name =>
    if name = [] then some (w, FRR_TYPE.FRR_NODLL)
    else
      let r : World × Bool :=
        if w.cachedHMA = 0 ∨ name.take MAX_PATH ≠ w.cachedNameA.take MAX_PATH then
          let w1 := record w (Event.getModuleHandleA name)
          let hModule := w.modulesA name
          if hModule = 0 then ({ w1 with cachedHMA := 0 }, false)
          else ({ w1 with cachedHMA := hModule, cachedNameA := name.take MAX_PATH }, true)
        else (w, true)
      if r.2 = false then some (r.1, FRR_TYPE.FRR_NODLL)
      else
        let w2 := record r.1 (Event.getProcAddress r.1.cachedHMA funcName)
        let inpFunc := w2.exports w2.cachedHMA funcName
        if inpFunc = 0 then some (w2, FRR_TYPE.FRR_NOFUNC)
        else
          match InsertTrampoline p fuel w2 inpFunc newFunc opcodesNumber origFunc with
          | none => none
          | some (w3, false) => some (w3, FRR_TYPE.FRR_FAILED)
          | some (w3, true) => some (w3, FRR_TYPE.FRR_OK)

/-- Source: `ReplaceFunctionW`. -/
def ReplaceFunctionW (p : Header) (fuel : Nat) (w : World) (dllName : Option (List Nat))
    (funcName : List Nat) (newFunc opcodesNumber origFunc : Nat) : Option (World × FRR_TYPE) :=
  match dllName with
  | none => some (w, FRR_TYPE.FRR_NODLL)
  | some name =>
    if name = [] then some (w, FRR_TYPE.FRR_NODLL)
    else
      let r : World × Bool :=
        if w.cachedHMW = 0 ∨ name.take MAX_PATH ≠ w.cachedNameW.take MAX_PATH then
          let w1 := record w (Event.getModuleHandleW name)
          let hModule := w.modulesW name
          if hModule = 0 then ({ w1 with cachedHMW := 0 }, false)
          else ({ w1 with cachedHMW := hModule, cachedNameW := name.take MAX_PATH }, true)
        else (w, true)
      if r.2 = false then some (r.1, FRR_TYPE.FRR_NODLL)
      else
        let w2 := record r.1 (Event.getProcAddress r.1.cachedHMW funcName)
        let inpFunc := w2.exports w2.cachedHMW funcName
        if inpFunc = 0 then some (w2, FRR_TYPE.FRR_NOFUNC)
        else
          match InsertTrampoline p fuel w2 inpFunc newFunc opcodesNumber origFunc with
          | none => none
          | some (w3, false) => some (w3, FRR_TYPE.FRR_FAILED)
          | some (w3, true) => some (w3, FRR_TYPE.FRR_OK)

/-! ## Well-formedness conditions -/

/-- A buffer as `MemoryBuffer(void*, DWORD)` and `GetLocation` leave it: the
cursor lies between base and end, at a whole number of slots from the base, and
the end of the buffer is a representable address. -/
structure BufferOK (p : Header) (b : MemoryBuffer) : Prop where
  base_le : b.m_base ≤ b.m_next
  next_le : b.m_next ≤ b.m_base + b.m_size
  no_wrap : b.m_base + b.m_size < 18446744073709551616
  next_dvd : p.MAX_PROBE_SIZE ∣ b.m_next - b.m_base
  size_dvd : p.MAX_PROBE_SIZE ∣ b.m_size

/-- The allocation granularity is a power of two that fits a `DWORD`. -/
def GranularityOK (w : World) : Prop :=
  ∃ k, k < 32 ∧ w.dwAllocationGranularity = 2 ^ k

/-- Every registered buffer is well formed. -/
def ProviderOK (p : Header) (w : World) : Prop :=
  ∀ b ∈ w.m_pages, BufferOK p b

/-- The record of a sequence of `GetLocation` calls, one per address of the
list: for every call that handed out a location, the index of the buffer that
served it (`pBuff - m_pages`) and the location, in call order. -/
def GetLocation.trace (p : Header) (fuel : Nat) : World → List Nat → Option (List (Nat × Nat))
  | _, [] => some []
  | w, addr :: rest =>
    match GetLocation.served p fuel w addr with
    | none => none
    | some (w1, _, none) => GetLocation.trace p fuel w1 rest
    | some (w1, s, some i) => (GetLocation.trace p fuel w1 rest).map (fun l => (i, s) :: l)

/-- Address `a` lies in the memory of buffer `b`. -/
def inBuffer (b : MemoryBuffer) (a : Nat) : Prop :=
  b.m_base ≤ a ∧ a < b.m_base + b.m_size

/-- Address `a` lies in a slot that some buffer has already handed out. -/
def handedOut (w : World) (a : Nat) : Prop :=
  ∃ b ∈ w.m_pages, b.m_base ≤ a ∧ a < b.m_next

/-- The header constants fit the code that is generated: a slot holds a 64-bit
address, and a displacement within `MAX_DISTANCE`, corrected by the length of a
jump instruction, is a signed 32-bit number. -/
structure HeaderOK (p : Header) : Prop where
  slot_width : 8 ≤ p.MAX_PROBE_SIZE
  distance : p.MAX_DISTANCE ≤ 2147483643

/-- A process in which the trampoline memory is what `CreateBuffer` makes of
it: the allocation granularity is a power of two and a multiple of the slot
width, application addresses are below `2 ^ 63`, and the registered buffers are
well formed, inside the application address range, on committed pages (as
`VirtualAlloc` with `MEM_COMMIT` leaves them), and pairwise disjoint. -/
structure Sane (p : Header) (w : World) : Prop where
  slot_dvd : p.MAX_PROBE_SIZE ∣ w.m_allocSize
  granularity : GranularityOK w
  user_space : w.lpMaximumApplicationAddress < 9223372036854775807
  buffers_ok : ∀ b ∈ w.m_pages, BufferOK p b
  buffers_in : ∀ b ∈ w.m_pages, b.m_base + b.m_size ≤ w.lpMaximumApplicationAddress + 1
  buffers_used : ∀ b ∈ w.m_pages, ∀ a, inBuffer b a → w.state (a / PAGE_SIZE) = MEM_COMMIT
  buffers_apart : w.m_pages.Pairwise (fun b c => ∀ a, ¬ (inBuffer b a ∧ inBuffer c a))

/-- The code at `[src, src + len)` lies in the application address range and
shares no page with a trampoline buffer. -/
structure PatchSite (w : World) (src len : Nat) : Prop where
  in_space : src + len ≤ w.lpMaximumApplicationAddress + 1
  apart : ∀ b ∈ w.m_pages, ∀ a, inBuffer b a → ¬ inPages src len (a / PAGE_SIZE)

/-- The pages of `[src, src + len)` are committed. -/
def Committed (w : World) (src len : Nat) : Prop :=
  ∀ pg, inPages src len pg → w.state pg = MEM_COMMIT

/-- The caller's `FUNCPTR` variable at address `stored`, as seen from the
patched code `[src, src + len)`: its 8 bytes are committed memory of the
application address range, outside every trampoline buffer and on no page of
the patched code. -/
structure OwnVariable (w : World) (src len stored : Nat) : Prop where
  in_space : stored + 8 ≤ w.lpMaximumApplicationAddress + 1
  committed : ∀ a, stored ≤ a → a < stored + 8 → w.state (a / PAGE_SIZE) = MEM_COMMIT
  apart : ∀ b ∈ w.m_pages, ∀ a, stored ≤ a → a < stored + 8 → ¬ inBuffer b a
  off_site : ∀ a, stored ≤ a → a < stored + 8 → ¬ inPages src len (a / PAGE_SIZE)

/-- The preserved code of a patched function at slot `s`: the slot is the last
one handed out by a registered buffer, it starts with the `n` bytes that were
at `src` in the world `w` before the call, and these are followed by the jump
`E9 d` whose target `(s + n + 5) + signExtend32 d` is `src + n`. -/
def Preserved (p : Header) (w w' : World) (src n s : Nat) : Prop :=
  (∃ b ∈ w'.m_pages, b.m_base ≤ s ∧ b.m_next = s + p.MAX_PROBE_SIZE
      ∧ p.MAX_PROBE_SIZE ∣ s - b.m_base ∧ s + p.MAX_PROBE_SIZE ≤ b.m_base + b.m_size)
    ∧ (∀ i, i < n → w'.mem (s + i) = w.mem (src + i))
    ∧ w'.mem (s + n) = 0xE9
    ∧ (s + n + SIZE_OF_RELJUMP + signExtend32 (read32 w'.mem (s + n + 1)))
        % 18446744073709551616 = src + n

/-! ## Vocabulary of the entry points -/

/-- `ReplaceFunctionA` has to look the module up again: no handle is cached or
the cached name differs from the requested one in its first `MAX_PATH`
characters. -/
def lookupNeededA (w : World) (name : List Nat) : Prop :=
  w.cachedHMA = 0 ∨ name.take MAX_PATH ≠ w.cachedNameA.take MAX_PATH

/-- `ReplaceFunctionW` has to look the module up again. -/
def lookupNeededW (w : World) (name : List Nat) : Prop :=
  w.cachedHMW = 0 ∨ name.take MAX_PATH ≠ w.cachedNameW.take MAX_PATH

instance (w : World) (name : List Nat) : Decidable (lookupNeededA w name) := by
  unfold lookupNeededA; infer_instance

instance (w : World) (name : List Nat) : Decidable (lookupNeededW w name) := by
  unfold lookupNeededW; infer_instance

/-- The module handle that `ReplaceFunctionA` passes to `GetProcAddress`. -/
def resolvedA (w : World) (name : List Nat) : Nat :=
  if lookupNeededA w name then w.modulesA name else w.cachedHMA

/-- The module handle that `ReplaceFunctionW` passes to `GetProcAddress`. -/
def resolvedW (w : World) (name : List Nat) : Nat :=
  if lookupNeededW w name then w.modulesW name else w.cachedHMW

/-- The world in which `ReplaceFunctionA` calls `InsertTrampoline`: the cache
holds the module and both lookups are on record. -/
def atPatchA (w : World) (name funcName : List Nat) : World :=
  record
    (if lookupNeededA w name then
      { record w (Event.getModuleHandleA name) with
          cachedHMA := w.modulesA name, cachedNameA := name.take MAX_PATH }
     else w)
    (Event.getProcAddress (resolvedA w name) funcName)

/-- The world in which `ReplaceFunctionW` calls `InsertTrampoline`. -/
def atPatchW (w : World) (name funcName : List Nat) : World :=
  record
    (if lookupNeededW w name then
      { record w (Event.getModuleHandleW name) with
          cachedHMW := w.modulesW name, cachedNameW := name.take MAX_PATH }
     else w)
    (Event.getProcAddress (resolvedW w name) funcName)

/-- The patch site of a `ReplaceFunctionA` call: the address that
`GetProcAddress` yields for the function in the resolved module (0 when there
is no module name). -/
def patchSiteA (w : World) (dllName : Option (List Nat)) (funcName : List Nat) : Nat :=
  match dllName with
  | none => 0
  | some name => w.exports (resolvedA w name) funcName

/-- The patch site of a `ReplaceFunctionW` call. -/
def patchSiteW (w : World) (dllName : Option (List Nat)) (funcName : List Nat) : Nat :=
  match dllName with
  | none => 0
  | some name => w.exports (resolvedW w name) funcName

/-- The order in which the specification decides the status of a replacement:
no module when the name is missing or the module lookup that is due fails, no
function when the symbol lookup fails, failed or ok with `InsertTrampoline`
(`patched` is its result, `none` when it does not return). -/
def statusOrder (nameMissing lookupFails symbolMissing : Bool) (patched : Option Bool) :
    Option FRR_TYPE :=
  if nameMissing then some FRR_TYPE.FRR_NODLL
  else if lookupFails then some FRR_TYPE.FRR_NODLL
  else if symbolMissing then some FRR_TYPE.FRR_NOFUNC
  else
    match patched with
    | none => none
    | some false => some FRR_TYPE.FRR_FAILED
    | some true => some FRR_TYPE.FRR_OK

/-! ## A concrete process -/

/-- The values of the header constants in the TBB distribution: slots of 32
bytes, distance bound `2 ^ 31 - 1 - 32`, 256 buffers. -/
def tbbHeader : Header :=
  { MAX_PROBE_SIZE := 32, MAX_DISTANCE := 2147483615, MAX_NUM_BUFFERS := 256 }

/-- A small process: one module loaded at `0x10000` (16 committed pages, handle
`0x10000`, name `"m"`) that exports the function `"f"` at `0x10010`; its last
page, at `0x1F000`, is writable data and holds the `FUNCPTR` variables of the
callers; all other pages are free; allocation granularity 64 KiB; no
trampoline buffer yet.  `VirtualQuery` describes the 64 KiB block around the
queried address. -/
def demoWorld : World :=
  { mem := fun a => a % 251
    prot := fun pg => if pg = 31 then PAGE_READWRITE else 0x20
    state := fun pg => if 16 ≤ pg ∧ pg < 32 then MEM_COMMIT else MEM_FREE
    query := fun st a =>
      some { BaseAddress := a / 65536 * 65536, RegionSize := 65536, State := st (a / 4096) }
    allocOk := fun _ _ => true
    dwAllocationGranularity := 65536
    lpMaximumApplicationAddress := 0x7FFFFFFEFFFF
    modulesA := fun n => if n = [109] then 0x10000 else 0
    modulesW := fun n => if n = [109] then 0x10000 else 0
    exports := fun h n => if h = 0x10000 ∧ n = [102] then 0x10010 else 0
    m_pages := []
    cachedNameA := []
    cachedHMA := 0
    cachedNameW := []
    cachedHMW := 0
    log := [] }

/-- The demo process when the system refuses every `VirtualAlloc` request. -/
def demoWorldNoAlloc : World :=
  { demoWorld with allocOk := fun _ _ => false }

/-- A far install with byte preservation in the demo process: patch site
`0x10010`, replacement at `0x7FF000000000`, 5 preserved bytes, `FUNCPTR`
variable at `0x1F000`. -/
def demoFar : World × Nat :=
  (InsertTrampoline64 tbbHeader 4 demoWorld 65552 140668768878592 5 126976).getD (demoWorld, 0)

/-- A near install with byte preservation in the demo process: replacement at
`0x18000`. -/
def demoNear : World × Nat :=
  (InsertTrampoline32 tbbHeader 4 demoWorld 65552 98304 5 126976).getD (demoWorld, 0)

/-- A patch that fails in the demo process because no trampoline memory can be
allocated. -/
def demoFailed : World × Bool :=
  (InsertTrampoline tbbHeader 4 demoWorldNoAlloc 65552 140668768878592 5 126976).getD
    (demoWorld, true)

/-- A replacement of `m!f` with byte preservation in the demo process. -/
def demoReplaced : World × FRR_TYPE :=
  (ReplaceFunctionA tbbHeader 4 demoWorld (some [109]) [102] 98304 5 126976).getD
    (demoWorld, FRR_TYPE.FRR_NODLL)

/-- One `GetLocation` call in the demo process. -/
def demoSlot : World × Nat :=
  (GetLocation tbbHeader 4 demoWorld 65552).getD (demoWorld, 0)

/-! ## Observations on the record of calls and on the provider -/

/-- Whether an observed call is a module lookup (`GetModuleHandleA` or
`GetModuleHandleW`). -/
def Event.isModuleLookup : Event → Bool
  | Event.getModuleHandleA _ => true
  | Event.getModuleHandleW _ => true
  | _ => false

/-- Number of module lookups on record. -/
def moduleLookups (l : List Event) : Nat :=
  l.countP Event.isModuleLookup

/-- Whether an observed call is a call of the far generator
`InsertTrampoline64`. -/
def Event.isFarCall : Event → Bool
  | Event.insertTrampoline64 _ _ => true
  | _ => false

/-- Number of calls of `InsertTrampoline64` on record. -/
def farCalls (l : List Event) : Nat :=
  l.countP Event.isFarCall

/-- Buffer `b` has free capacity: the test `pBuff->m_next < pBuff->m_base +
pBuff->m_size` of `GetLocation`. -/
@[reducible] def hasRoom (b : MemoryBuffer) : Prop :=
  b.m_next < (b.m_base + b.m_size) % 18446744073709551616

/-- Buffer `b` can serve `addr` where it stands in the list `l1 ++ b :: l2` of
registered buffers: it has room, its cursor is within `MAX_DISTANCE` of `addr`,
and so is the cursor of every buffer registered before it. -/
def servesAt (p : Header) (addr : Nat) (l1 : List MemoryBuffer) (b : MemoryBuffer) : Prop :=
  (∀ c ∈ l1, IsInDistance c.m_next addr p.MAX_DISTANCE = true)
    ∧ IsInDistance b.m_next addr p.MAX_DISTANCE = true ∧ hasRoom b

/-- A sequence of `GetLocation` calls, one per address of the list; the result
is the process state after the last call. -/
def GetLocation.calls (p : Header) (fuel : Nat) : World → List Nat → Option World
  | w, [] => some w
  | w, addr :: rest =>
    match GetLocation p fuel w addr with
    | none => none
    | some r => GetLocation.calls p fuel r.1 rest

/-- The calls of `FlushInstructionCache` on record, each as start address and
size, oldest first. -/
def flushes : List Event → List (Nat × Nat)
  | [] => []
  | Event.flushInstructionCache addr size :: l => (addr, size) :: flushes l
  | _ :: l => flushes l

/-- The parts of the process that neither the provider nor a generator nor
`InsertTrampoline` writes: the system constants, the loaded modules and the
caches of the entry points. -/
structure SameEnv (w w1 : World) : Prop where
  lpMax : w1.lpMaximumApplicationAddress = w.lpMaximumApplicationAddress
  granularity : w1.dwAllocationGranularity = w.dwAllocationGranularity
  exports : w1.exports = w.exports
  modulesA : w1.modulesA = w.modulesA
  modulesW : w1.modulesW = w.modulesW
  cachedNameA : w1.cachedNameA = w.cachedNameA
  cachedHMA : w1.cachedHMA = w.cachedHMA
  cachedNameW : w1.cachedNameW = w.cachedNameW
  cachedHMW : w1.cachedHMW = w.cachedHMW

/-! ## Further concrete processes -/

/-- A second replacement in the module `m` after `demoReplaced`, for a
function `g` that the module does not export. -/
def demoReplacedAgain : World × FRR_TYPE :=
  (ReplaceFunctionA tbbHeader 4 demoReplaced.1 (some [109]) [103] 98304 5 126984).getD
    (demoWorld, FRR_TYPE.FRR_NODLL)

/-- The demo process with the registry of `memProvider` full: 256 buffers of
64 KiB each from `0x30000` on, every slot of every buffer handed out. -/
def demoWorldFull : World :=
  { demoWorld with
    state := fun pg =>
      if (16 ≤ pg ∧ pg < 32) ∨ (48 ≤ pg ∧ pg < 4144) then MEM_COMMIT else MEM_FREE
    m_pages := (List.range 256).map (fun i =>
      { m_base := 196608 + 65536 * i, m_next := 196608 + 65536 * i + 65536, m_size := 65536 }) }

/-- The demo process after `GetLocation(0x7FF000000010)` and then
`GetLocation(0x10010)` on the empty provider: buffer 0 at `0x7FF000020000` and
buffer 1 at `0x30000`, one slot handed out from each. -/
def demoWorldTwo : World :=
  { demoWorld with
    state := fun pg =>
      if (16 ≤ pg ∧ pg < 32) ∨ (48 ≤ pg ∧ pg < 64) ∨ (34342961184 ≤ pg ∧ pg < 34342961200)
      then MEM_COMMIT else MEM_FREE
    m_pages :=
      [{ m_base := 140668769009664, m_next := 140668769009696, m_size := 65536 },
       { m_base := 196608, m_next := 196640, m_size := 65536 }] }

/-- The demo process with one buffer at `0x30000` that has handed out one
slot. -/
def demoWorldOne : World :=
  { demoWorld with
    state := fun pg => if (16 ≤ pg ∧ pg < 32) ∨ (48 ≤ pg ∧ pg < 64) then MEM_COMMIT else MEM_FREE
    m_pages := [{ m_base := 196608, m_next := 196640, m_size := 65536 }] }

/-- The demo process after `GetLocation` was called for `0x10010`,
`0x7FF000000010` and `0x10010` again. -/
def demoAfterCalls : World :=
  (GetLocation.calls tbbHeader 4 demoWorld [65552, 140668768878608, 65552]).getD demoWorld

/-- A near install in the demo process that preserves 8 bytes. -/
def demoNearPadded : World × Nat :=
  (InsertTrampoline32 tbbHeader 4 demoWorld 65552 98304 8 126976).getD (demoWorld, 0)

/-- The distance test is exact when the unsigned difference fits an `__int64`. -/
theorem IsInDistance_exact (a b : Nat) (d : Int)
    (h : a - b < 9223372036854775808 ∧ b - a < 9223372036854775808) :
    IsInDistance a b d = true ↔ ((a : Int) - b < d ∧ (b : Int) - a < d) := by
  unfold IsInDistance toInt64
  simp only [decide_eq_true_eq]
  split_ifs <;> omega

/-- The distance test does not depend on the order of the addresses. -/
theorem IsInDistance_comm (a b : Nat) (d : Int) : IsInDistance a b d = IsInDistance b a d := by
  unfold IsInDistance
  rcases Nat.lt_trichotomy a b with h | h | h
  · have h1 : ¬ a > b := by omega
    simp [h1, h]
  · subst h; rfl
  · have h1 : ¬ b > a := by omega
    simp [h1, h]

/-! ### The environment calls -/

theorem VirtualAlloc_fail (w : World) (a sz pr : Nat) (h : (VirtualAlloc w a sz pr).2 = 0) :
    (VirtualAlloc w a sz pr).1 = w := by
  unfold VirtualAlloc at h ⊢
  simp only at h ⊢
  split_ifs at h ⊢ with hc
  · exact absurd h hc.1
  · rfl

theorem VirtualAlloc_ok (w : World) (a sz pr : Nat) (h : (VirtualAlloc w a sz pr).2 ≠ 0) :
    VirtualAlloc w a sz pr =
        ({ w with
            state := fun pg =>
              if inPages (a / w.dwAllocationGranularity * w.dwAllocationGranularity)
                  (a + sz - a / w.dwAllocationGranularity * w.dwAllocationGranularity) pg
              then MEM_COMMIT else w.state pg
            prot := fun pg =>
              if inPages (a / w.dwAllocationGranularity * w.dwAllocationGranularity)
                  (a + sz - a / w.dwAllocationGranularity * w.dwAllocationGranularity) pg
              then pr else w.prot pg },
         a / w.dwAllocationGranularity * w.dwAllocationGranularity)
      ∧ a / w.dwAllocationGranularity * w.dwAllocationGranularity ≠ 0
      ∧ a + sz ≤ w.lpMaximumApplicationAddress + 1 ∧ 0 < sz
      ∧ allPages w.state (a / w.dwAllocationGranularity * w.dwAllocationGranularity)
          (a + sz - a / w.dwAllocationGranularity * w.dwAllocationGranularity) MEM_FREE = true := by
  unfold VirtualAlloc at h ⊢
  simp only at h ⊢
  split_ifs at h ⊢ with hc
  · exact ⟨rfl, hc.1, hc.2.1, hc.2.2.1, hc.2.2.2.2⟩
  · exact absurd rfl h

theorem allPages_iff (state : Nat → Nat) (addr size st : Nat) :
    allPages state addr size st = true ↔ ∀ pg, inPages addr size pg → state pg = st := by
  unfold allPages inPages
  simp only [List.all_eq_true, List.mem_range, beq_iff_eq]
  constructor
  · intro h pg hpg
    have := h (pg - addr / PAGE_SIZE) (by omega)
    rwa [Nat.add_sub_cancel' hpg.1] at this
  · intro h i hi
    exact h _ ⟨by omega, by omega⟩

/-! ### The buffers of the provider -/

theorem nextOf_append (l1 : List MemoryBuffer) (b : MemoryBuffer) (l2 : List MemoryBuffer) :
    nextOf l1.length (l1 ++ b :: l2) = b.m_next := by
  induction l1 with
  | nil => rfl
  | cons a l ih => simpa [nextOf] using ih

theorem advance_append (p : Header) (l1 : List MemoryBuffer) (b : MemoryBuffer)
    (l2 : List MemoryBuffer) :
    advance p l1.length (l1 ++ b :: l2)
      = l1 ++ { b with m_next := (b.m_next + p.MAX_PROBE_SIZE) % 18446744073709551616 } :: l2 := by
  induction l1 with
  | nil => rfl
  | cons a l ih => simpa [advance] using ih

theorem scan_some (p : Header) (addr : Nat) :
    ∀ (l : List MemoryBuffer) (r : Nat × Nat × List MemoryBuffer),
      GetLocation.scan p addr l = some r →
      ∃ l1 b l2, l = l1 ++ b :: l2 ∧ r.1 = l1.length ∧ r.2.1 = b.m_next
        ∧ r.2.2 = l1 ++ { b with m_next := (b.m_next + p.MAX_PROBE_SIZE) % 18446744073709551616 } :: l2
        ∧ IsInDistance b.m_next addr p.MAX_DISTANCE = true
        ∧ b.m_next < (b.m_base + b.m_size) % 18446744073709551616 := by
  intro l
  induction l with
  | nil => intro r h; simp [GetLocation.scan] at h
  | cons b bs ih =>
    intro r h
    unfold GetLocation.scan at h
    split_ifs at h with hd hr
    · cases h
      exact ⟨[], b, bs, rfl, rfl, rfl, rfl, hd, hr⟩
    · cases hs : GetLocation.scan p addr bs with
      | none => simp [hs] at h
      | some r' =>
        simp only [hs, Option.some.injEq] at h
        obtain ⟨l1, b', l2, h1, h2, h3, h4, h5, h6⟩ := ih r' hs
        subst h
        exact ⟨b :: l1, b', l2, by simp [h1], by simp [h2], h3, by simp [h4], h5, h6⟩

theorem search_cases (p : Header) (w : World) (addr : Nat) :
    ∀ (fuel : Nat) (mi : MEMORY_BASIC_INFORMATION) (r : World × Option Nat),
      CreateBuffer.search p w addr fuel mi = some r →
      r = (w, none) ∨
      ∃ newAddr, IsInDistance addr newAddr p.MAX_DISTANCE = true
        ∧ (∃ x, newAddr = Nat.land x (18446744073709551615 - (w.m_allocSize + 4294967295) % 4294967296))
        ∧ (VirtualAlloc w newAddr w.m_allocSize PAGE_READWRITE).2 ≠ 0
        ∧ r = ({ (VirtualAlloc w newAddr w.m_allocSize PAGE_READWRITE).1 with
                  m_pages := w.m_pages ++
                    [MemoryBuffer.create (VirtualAlloc w newAddr w.m_allocSize PAGE_READWRITE).2
                      w.m_allocSize] },
               some w.m_pages.length) := by
  intro fuel
  induction fuel with
  | zero => intro mi r h; simp [CreateBuffer.search] at h
  | succ n ih =>
    intro mi r h
    unfold CreateBuffer.search at h
    simp only at h
    generalize hN : Nat.land
      ((mi.BaseAddress + mi.RegionSize + w.m_allocSize) % 18446744073709551616)
      (18446744073709551615 - (w.m_allocSize + 4294967295) % 4294967296) = newAddr at h
    by_cases hd : IsInDistance addr newAddr p.MAX_DISTANCE = false
    · rw [if_pos hd] at h
      left; exact (Option.some.inj h).symm
    · rw [if_neg hd] at h
      cases hq : VirtualQuery w newAddr with
      | none =>
        rw [hq] at h
        left; exact (Option.some.inj h).symm
      | some mi' =>
        rw [hq] at h
        simp only at h
        by_cases hf : mi'.State = MEM_FREE ∧ mi'.RegionSize ≥ w.m_allocSize
        · rw [if_pos hf] at h
          by_cases hz : (VirtualAlloc w newAddr w.m_allocSize PAGE_READWRITE).2 = 0
          · rw [if_pos hz, VirtualAlloc_fail _ _ _ _ hz] at h
            left; exact (Option.some.inj h).symm
          · rw [if_neg hz] at h
            right
            refine ⟨newAddr, by simpa using hd, ⟨_, hN.symm⟩, hz, ?_⟩
            rw [← Option.some.inj h, (VirtualAlloc_ok _ _ _ _ hz).1]
        · rw [if_neg hf] at h
          exact ih _ _ h

theorem land_mask_mod (x k : Nat) (hk : k ≤ 64) :
    Nat.land x (18446744073709551616 - 2 ^ k) % 2 ^ k = 0 := by
  have h1 : (18446744073709551616 - 2 ^ k) % 2 ^ k = 0 := by
    obtain ⟨c, hc⟩ : 2 ^ k ∣ 18446744073709551616 := by
      have : (18446744073709551616 : Nat) = 2 ^ 64 := by norm_num
      rw [this]
      exact pow_dvd_pow 2 hk
    have hpos : 0 < 2 ^ k := Nat.two_pow_pos k
    have : 18446744073709551616 - 2 ^ k = 2 ^ k * (c - 1) := by
      rw [Nat.mul_sub, ← hc]; simp
    rw [this]
    exact Nat.mul_mod_right _ _
  show (x &&& (18446744073709551616 - 2 ^ k)) % 2 ^ k = 0
  rw [← Nat.and_pow_two_sub_one_eq_mod, Nat.and_assoc, Nat.and_pow_two_sub_one_eq_mod, h1,
    Nat.and_zero]

theorem granularity_facts (w : World) (hG : GranularityOK w) :
    w.m_allocSize = w.dwAllocationGranularity ∧ 0 < w.dwAllocationGranularity
      ∧ w.dwAllocationGranularity < 4294967296
      ∧ ∀ x, Nat.land x (18446744073709551615 - (w.m_allocSize + 4294967295) % 4294967296)
          / w.dwAllocationGranularity * w.dwAllocationGranularity
          = Nat.land x (18446744073709551615 - (w.m_allocSize + 4294967295) % 4294967296) := by
  obtain ⟨k, hk, hG⟩ := hG
  have hpos : 0 < 2 ^ k := Nat.two_pow_pos k
  have hlt : 2 ^ k < 4294967296 := by
    have : (4294967296 : Nat) = 2 ^ 32 := by norm_num
    rw [this]
    exact Nat.pow_lt_pow_right (by decide) hk
  have hA : w.m_allocSize = w.dwAllocationGranularity := by
    unfold World.m_allocSize
    rw [hG]; exact Nat.mod_eq_of_lt hlt
  refine ⟨hA, hG ▸ hpos, hG ▸ hlt, ?_⟩
  intro x
  rw [hA, hG]
  have hm : 18446744073709551615 - (2 ^ k + 4294967295) % 4294967296
      = 18446744073709551616 - 2 ^ k := by omega
  rw [hm]
  exact Nat.div_mul_cancel (Nat.dvd_of_mod_eq_zero (land_mask_mod x k (by omega)))

theorem served_cases (p : Header) (fuel : Nat) (w : World) (addr : Nat)
    (r : World × Nat × Option Nat) (h : GetLocation.served p fuel w addr = some r) :
    (GetLocation.scan p addr w.m_pages = none ∧ r = (w, 0, none)) ∨
    (∃ l1 b l2, w.m_pages = l1 ++ b :: l2
        ∧ IsInDistance b.m_next addr p.MAX_DISTANCE = true
        ∧ b.m_next < (b.m_base + b.m_size) % 18446744073709551616
        ∧ r = ({ w with m_pages :=
                  l1 ++ { b with m_next := (b.m_next + p.MAX_PROBE_SIZE) % 18446744073709551616 }
                    :: l2 },
               b.m_next, some l1.length)) ∨
    (∃ newAddr, GetLocation.scan p addr w.m_pages = none
        ∧ w.m_pages.length ≠ p.MAX_NUM_BUFFERS
        ∧ IsInDistance addr newAddr p.MAX_DISTANCE = true
        ∧ (∃ x, newAddr = Nat.land x (18446744073709551615 - (w.m_allocSize + 4294967295) % 4294967296))
        ∧ (VirtualAlloc w newAddr w.m_allocSize PAGE_READWRITE).2 ≠ 0
        ∧ r = ({ (VirtualAlloc w newAddr w.m_allocSize PAGE_READWRITE).1 with
                  m_pages := w.m_pages ++
                    [{ m_base := (VirtualAlloc w newAddr w.m_allocSize PAGE_READWRITE).2
                       m_next := ((VirtualAlloc w newAddr w.m_allocSize PAGE_READWRITE).2
                                  + p.MAX_PROBE_SIZE) % 18446744073709551616
                       m_size := w.m_allocSize }] },
               (VirtualAlloc w newAddr w.m_allocSize PAGE_READWRITE).2,
               some w.m_pages.length)) := by
  unfold GetLocation.served at h
  cases hs : GetLocation.scan p addr w.m_pages with
  | some r' =>
    rw [hs] at h
    obtain ⟨l1, b, l2, h1, h2, h3, h4, h5, h6⟩ := scan_some p addr _ _ hs
    right; left
    refine ⟨l1, b, l2, h1, h5, h6, ?_⟩
    rw [← Option.some.inj h, h2, h3, h4]
  | none =>
    rw [hs] at h
    simp only at h
    unfold CreateBuffer at h
    by_cases hfull : w.m_pages.length = p.MAX_NUM_BUFFERS
    · rw [if_pos hfull] at h
      left; exact ⟨rfl, (Option.some.inj h).symm⟩
    · rw [if_neg hfull] at h
      cases hq : VirtualQuery w addr with
      | none =>
        rw [hq] at h
        left; exact ⟨rfl, (Option.some.inj h).symm⟩
      | some mi =>
        rw [hq] at h
        simp only at h
        cases hc : CreateBuffer.search p w addr fuel mi with
        | none => rw [hc] at h; simp at h
        | some rc =>
          rw [hc] at h
          rcases search_cases p w addr fuel mi rc hc with hrc | ⟨newAddr, hd, hx, hz, hrc⟩
          · subst hrc
            left; exact ⟨rfl, (Option.some.inj h).symm⟩
          · subst hrc
            right; right
            refine ⟨newAddr, rfl, hfull, hd, hx, hz, ?_⟩
            simp only at h
            have e1 := advance_append p w.m_pages
              (MemoryBuffer.create (VirtualAlloc w newAddr w.m_allocSize PAGE_READWRITE).2
                w.m_allocSize) []
            have e2 := nextOf_append w.m_pages
              (MemoryBuffer.create (VirtualAlloc w newAddr w.m_allocSize PAGE_READWRITE).2
                w.m_allocSize) []
            rw [e1, e2] at h
            rw [← Option.some.inj h]
            rfl

/-! ### The concrete process -/

theorem some_getD_of_isSome {α : Type} (o : Option α) (d : α) (h : o.isSome = true) :
    o = some (o.getD d) := by
  cases o with
  | none => simp at h
  | some x => rfl

theorem tbbHeader_ok : HeaderOK tbbHeader := ⟨by decide, by decide⟩

theorem demoWorld_granularity : GranularityOK demoWorld := ⟨16, by decide, by decide⟩

theorem demoWorld_sane : Sane tbbHeader demoWorld := by
  constructor
  · exact ⟨2048, by decide⟩
  · exact demoWorld_granularity
  · decide
  · intro b hb; simp [demoWorld] at hb
  · intro b hb; simp [demoWorld] at hb
  · intro b hb; simp [demoWorld] at hb
  · exact List.Pairwise.nil

theorem demoWorld_site : PatchSite demoWorld 65552 32 := by
  constructor
  · decide
  · intro b hb; simp [demoWorld] at hb

theorem demoWorld_committed : Committed demoWorld 65552 32 := by
  intro pg hpg
  unfold inPages PAGE_SIZE at hpg
  have : pg = 16 := by omega
  subst this
  decide

theorem demoWorld_variable : OwnVariable demoWorld 65552 32 126976 := by
  constructor
  · decide
  · intro a h1 h2
    have : a / PAGE_SIZE = 31 := by unfold PAGE_SIZE; omega
    rw [this]
    decide
  · intro b hb; simp [demoWorld] at hb
  · intro a h1 h2 hpg
    unfold inPages PAGE_SIZE at hpg
    omega

/-- C7: a location that `GetLocation(addr)` returns, from a registered buffer
or from a buffer that `CreateBuffer` has just created, passes
`IsInDistance(location, addr, MAX_DISTANCE)`. -/
theorem GetLocation_within_distance (p : Header) (fuel : Nat) (w w' : World) (addr s : Nat)
    (hG : GranularityOK w)
    (h : GetLocation p fuel w addr = some (w', s)) (hs : s ≠ 0) :
    IsInDistance s addr p.MAX_DISTANCE = true := by
  unfold GetLocation at h
  cases hr : GetLocation.served p fuel w addr with
  | none => rw [hr] at h; simp at h
  | some r =>
    rw [hr] at h
    simp only [Option.some.injEq, Prod.mk.injEq] at h
    rcases served_cases p fuel w addr r hr with ⟨_, h0⟩ | ⟨l1, b, l2, _, hd, _, hb⟩
        | ⟨newAddr, _, _, hd, ⟨x, hx⟩, hz, hb⟩
    · subst h0
      exact absurd h.2.symm hs
    · subst hb
      rw [← h.2]; exact hd
    · subst hb
      rw [← h.2, (VirtualAlloc_ok _ _ _ _ hz).1]
      simp only
      rw [hx, (granularity_facts w hG).2.2.2 x, ← hx, IsInDistance_comm]
      exact hd

/-- Witness of `GetLocation_within_distance`: the first location handed out in
the demo process. -/
theorem GetLocation_within_distance_witness :
    IsInDistance demoSlot.2 65552 tbbHeader.MAX_DISTANCE = true :=
  GetLocation_within_distance tbbHeader 4 demoWorld demoSlot.1 65552 demoSlot.2
    ⟨16, by decide, by decide⟩
    (some_getD_of_isSome (GetLocation tbbHeader 4 demoWorld 65552) (demoWorld, 0) (by decide))
    (by decide)

theorem nextOf_update (b b' : MemoryBuffer) (l2 : List MemoryBuffer) :
    ∀ (l1 : List MemoryBuffer) (k : Nat), k ≠ l1.length →
      nextOf k (l1 ++ b :: l2) = nextOf k (l1 ++ b' :: l2) := by
  intro l1
  induction l1 with
  | nil =>
    intro k hk
    cases k with
    | zero => exact absurd rfl hk
    | succ k => rfl
  | cons a l ih =>
    intro k hk
    cases k with
    | zero => rfl
    | succ k =>
      simp only [List.cons_append, nextOf]
      exact ih k (by simpa using hk)

theorem nextOf_append_left (b : MemoryBuffer) :
    ∀ (l : List MemoryBuffer) (k : Nat), k < l.length → nextOf k (l ++ [b]) = nextOf k l := by
  intro l
  induction l with
  | nil => intro k hk; simp at hk
  | cons a l ih =>
    intro k hk
    cases k with
    | zero => rfl
    | succ k =>
      simp only [List.cons_append, nextOf]
      exact ih k (by simpa using hk)

theorem BufferOK_advance (p : Header) (b : MemoryBuffer) (hb : BufferOK p b)
    (hroom : b.m_next < (b.m_base + b.m_size) % 18446744073709551616) :
    b.m_next + p.MAX_PROBE_SIZE ≤ b.m_base + b.m_size
      ∧ (b.m_next + p.MAX_PROBE_SIZE) % 18446744073709551616 = b.m_next + p.MAX_PROBE_SIZE
      ∧ BufferOK p { b with m_next := (b.m_next + p.MAX_PROBE_SIZE) % 18446744073709551616 } := by
  obtain ⟨h1, h2, h3, ⟨c, hc⟩, ⟨d, hd⟩⟩ := hb
  rw [Nat.mod_eq_of_lt h3] at hroom
  have hcd : c + 1 ≤ d := by
    by_contra hlt
    have : p.MAX_PROBE_SIZE * d ≤ p.MAX_PROBE_SIZE * c := Nat.mul_le_mul_left _ (by omega)
    omega
  have hm : p.MAX_PROBE_SIZE * (c + 1) ≤ p.MAX_PROBE_SIZE * d := Nat.mul_le_mul_left _ hcd
  rw [Nat.mul_succ] at hm
  have hle : b.m_next + p.MAX_PROBE_SIZE ≤ b.m_base + b.m_size := by omega
  have hmod : (b.m_next + p.MAX_PROBE_SIZE) % 18446744073709551616
      = b.m_next + p.MAX_PROBE_SIZE := Nat.mod_eq_of_lt (by omega)
  refine ⟨hle, hmod, ?_⟩
  constructor
  · show b.m_base ≤ (b.m_next + p.MAX_PROBE_SIZE) % 18446744073709551616
    omega
  · show (b.m_next + p.MAX_PROBE_SIZE) % 18446744073709551616 ≤ b.m_base + b.m_size
    omega
  · exact h3
  · show p.MAX_PROBE_SIZE ∣ (b.m_next + p.MAX_PROBE_SIZE) % 18446744073709551616 - b.m_base
    rw [hmod]
    exact ⟨c + 1, by rw [Nat.mul_succ]; omega⟩
  · exact ⟨d, hd⟩

theorem BufferOK_fresh (p : Header) (w : World) (newAddr : Nat)
    (hdvd : p.MAX_PROBE_SIZE ∣ w.m_allocSize)
    (hmax : w.lpMaximumApplicationAddress + 1 < 18446744073709551616)
    (hz : (VirtualAlloc w newAddr w.m_allocSize PAGE_READWRITE).2 ≠ 0) :
    (VirtualAlloc w newAddr w.m_allocSize PAGE_READWRITE).2 + p.MAX_PROBE_SIZE
        ≤ (VirtualAlloc w newAddr w.m_allocSize PAGE_READWRITE).2 + w.m_allocSize
      ∧ ((VirtualAlloc w newAddr w.m_allocSize PAGE_READWRITE).2 + p.MAX_PROBE_SIZE)
          % 18446744073709551616
          = (VirtualAlloc w newAddr w.m_allocSize PAGE_READWRITE).2 + p.MAX_PROBE_SIZE
      ∧ BufferOK p
          { m_base := (VirtualAlloc w newAddr w.m_allocSize PAGE_READWRITE).2
            m_next := ((VirtualAlloc w newAddr w.m_allocSize PAGE_READWRITE).2
                        + p.MAX_PROBE_SIZE) % 18446744073709551616
            m_size := w.m_allocSize } := by
  obtain ⟨he, _, hle, hpos, _⟩ := VirtualAlloc_ok _ _ _ _ hz
  rw [he]
  simp only
  have hb : newAddr / w.dwAllocationGranularity * w.dwAllocationGranularity ≤ newAddr :=
    Nat.div_mul_le_self _ _
  have hps : p.MAX_PROBE_SIZE ≤ w.m_allocSize := Nat.le_of_dvd hpos hdvd
  have hmod : (newAddr / w.dwAllocationGranularity * w.dwAllocationGranularity
      + p.MAX_PROBE_SIZE) % 18446744073709551616
      = newAddr / w.dwAllocationGranularity * w.dwAllocationGranularity + p.MAX_PROBE_SIZE :=
    Nat.mod_eq_of_lt (by omega)
  refine ⟨by omega, hmod, ?_⟩
  constructor
  · dsimp only; omega
  · dsimp only; omega
  · dsimp only; omega
  · dsimp only
    rw [hmod]
    exact ⟨1, by omega⟩
  · exact hdvd

/-- One call of `GetLocation` on a well-formed provider: the provider stays
well formed, no buffer is removed, no cursor moves backwards, and the buffer
that served the call has its cursor one slot after the location. -/
theorem served_step (p : Header) (fuel : Nat) (w w1 : World) (addr s : Nat) (oi : Option Nat)
    (hdvd : p.MAX_PROBE_SIZE ∣ w.m_allocSize)
    (hmax : w.lpMaximumApplicationAddress + 1 < 18446744073709551616)
    (hok : ProviderOK p w)
    (h : GetLocation.served p fuel w addr = some (w1, s, oi)) :
    ProviderOK p w1
      ∧ w1.dwAllocationGranularity = w.dwAllocationGranularity
      ∧ w1.lpMaximumApplicationAddress = w.lpMaximumApplicationAddress
      ∧ w.m_pages.length ≤ w1.m_pages.length
      ∧ (∀ k, k < w.m_pages.length → nextOf k w.m_pages ≤ nextOf k w1.m_pages)
      ∧ (∀ i, oi = some i → i < w1.m_pages.length
          ∧ nextOf i w1.m_pages = s + p.MAX_PROBE_SIZE
          ∧ (i < w.m_pages.length → nextOf i w.m_pages = s)) := by
  rcases served_cases p fuel w addr _ h with ⟨_, h0⟩ | ⟨l1, b, l2, hl, _, hroom, hb⟩
      | ⟨newAddr, _, _, _, _, hz, hb⟩
  · simp only [Prod.mk.injEq] at h0
    obtain ⟨rfl, rfl, rfl⟩ := h0
    exact ⟨hok, rfl, rfl, le_refl _, fun _ _ => le_refl _, fun i hi => by simp at hi⟩
  · simp only [Prod.mk.injEq] at hb
    obtain ⟨rfl, rfl, rfl⟩ := hb
    have hbok : BufferOK p b := hok b (by rw [hl]; simp)
    obtain ⟨_, hmod, hb'⟩ := BufferOK_advance p b hbok hroom
    refine ⟨?_, rfl, rfl, by simp [hl], ?_, ?_⟩
    · intro x hx
      simp only [List.mem_append, List.mem_cons] at hx
      rcases hx with hx | rfl | hx
      · exact hok x (by rw [hl]; simp [hx])
      · exact hb'
      · exact hok x (by rw [hl]; simp [hx])
    · intro k _
      simp only [hl]
      by_cases hk : k = l1.length
      · subst hk
        rw [nextOf_append, nextOf_append]
        show b.m_next ≤ (b.m_next + p.MAX_PROBE_SIZE) % 18446744073709551616
        omega
      · rw [nextOf_update b _ l2 l1 k hk]
    · intro i hi
      simp only [Option.some.injEq] at hi
      subst hi
      refine ⟨by simp, ?_, fun _ => by rw [hl, nextOf_append]⟩
      simp only
      rw [nextOf_append]
      exact hmod
  · simp only [Prod.mk.injEq] at hb
    obtain ⟨rfl, rfl, rfl⟩ := hb
    obtain ⟨_, hmod, hb'⟩ := BufferOK_fresh p w newAddr hdvd hmax hz
    have he := (VirtualAlloc_ok _ _ _ _ hz).1
    refine ⟨?_, by rw [he], by rw [he], by simp, ?_, ?_⟩
    · intro x hx
      simp only [List.mem_append, List.mem_singleton] at hx
      rcases hx with hx | rfl
      · exact hok x hx
      · exact hb'
    · intro k hk
      simp only
      rw [nextOf_append_left _ _ k hk]
    · intro i hi
      simp only [Option.some.injEq] at hi
      subst hi
      refine ⟨by simp, ?_, fun hlt => absurd hlt (lt_irrefl _)⟩
      simp only
      rw [nextOf_append]
      exact hmod

theorem m_allocSize_congr (w w1 : World)
    (h : w1.dwAllocationGranularity = w.dwAllocationGranularity) :
    w1.m_allocSize = w.m_allocSize := by
  unfold World.m_allocSize; rw [h]

/-- Locations handed out later from a buffer lie at or after its cursor. -/
theorem trace_lower_bound (p : Header) (fuel : Nat) :
    ∀ (addrs : List Nat) (w : World) (l : List (Nat × Nat)),
      p.MAX_PROBE_SIZE ∣ w.m_allocSize →
      w.lpMaximumApplicationAddress + 1 < 18446744073709551616 →
      ProviderOK p w →
      GetLocation.trace p fuel w addrs = some l →
      ∀ x ∈ l, x.1 < w.m_pages.length → nextOf x.1 w.m_pages ≤ x.2 := by
  intro addrs
  induction addrs with
  | nil =>
    intro w l _ _ _ h x hx
    simp only [GetLocation.trace, Option.some.injEq] at h
    subst h
    simp at hx
  | cons a rest ih =>
    intro w l hdvd hmax hok h x hx hlt
    unfold GetLocation.trace at h
    cases hs : GetLocation.served p fuel w a with
    | none => rw [hs] at h; simp at h
    | some r =>
      obtain ⟨w1, s, oi⟩ := r
      rw [hs] at h
      obtain ⟨hok1, hg, hm, hlen, hmono, hserved⟩ := served_step p fuel w w1 a s oi hdvd hmax hok hs
      have hdvd1 : p.MAX_PROBE_SIZE ∣ w1.m_allocSize := by rw [m_allocSize_congr w w1 hg]; exact hdvd
      have hmax1 : w1.lpMaximumApplicationAddress + 1 < 18446744073709551616 := by rw [hm]; exact hmax
      cases oi with
      | none =>
        simp only at h
        exact le_trans (hmono _ hlt) (ih w1 l hdvd1 hmax1 hok1 h x hx (by omega))
      | some i =>
        simp only [Option.map_eq_some'] at h
        obtain ⟨l', hl', rfl⟩ := h
        simp only [List.mem_cons] at hx
        rcases hx with rfl | hx
        · exact le_of_eq ((hserved i rfl).2.2 hlt)
        · exact le_trans (hmono _ hlt) (ih w1 l' hdvd1 hmax1 hok1 hl' x hx (by omega))

/-- C8: in any sequence of `GetLocation` calls, two locations handed out from
the same buffer are in strictly increasing order of call and at least
`MAX_PROBE_SIZE` apart, so the slots `[s, s + MAX_PROBE_SIZE)` do not overlap. -/
theorem GetLocation_slots_increase (p : Header) (fuel : Nat) (addrs : List Nat) :
    ∀ (w : World) (l : List (Nat × Nat)),
      0 < p.MAX_PROBE_SIZE →
      p.MAX_PROBE_SIZE ∣ w.m_allocSize →
      w.lpMaximumApplicationAddress + 1 < 18446744073709551616 →
      ProviderOK p w →
      GetLocation.trace p fuel w addrs = some l →
      l.Pairwise (fun x y => x.1 = y.1 → x.2 < y.2 ∧ x.2 + p.MAX_PROBE_SIZE ≤ y.2) := by
  induction addrs with
  | nil =>
    intro w l _ _ _ _ h
    simp only [GetLocation.trace, Option.some.injEq] at h
    subst h
    exact List.Pairwise.nil
  | cons a rest ih =>
    intro w l hp hdvd hmax hok h
    unfold GetLocation.trace at h
    cases hs : GetLocation.served p fuel w a with
    | none => rw [hs] at h; simp at h
    | some r =>
      obtain ⟨w1, s, oi⟩ := r
      rw [hs] at h
      obtain ⟨hok1, hg, hm, _, _, hserved⟩ := served_step p fuel w w1 a s oi hdvd hmax hok hs
      have hdvd1 : p.MAX_PROBE_SIZE ∣ w1.m_allocSize := by rw [m_allocSize_congr w w1 hg]; exact hdvd
      have hmax1 : w1.lpMaximumApplicationAddress + 1 < 18446744073709551616 := by rw [hm]; exact hmax
      cases oi with
      | none =>
        simp only at h
        exact ih w1 l hp hdvd1 hmax1 hok1 h
      | some i =>
        simp only [Option.map_eq_some'] at h
        obtain ⟨l', hl', rfl⟩ := h
        refine List.Pairwise.cons ?_ (ih w1 l' hp hdvd1 hmax1 hok1 hl')
        intro y hy hiy
        have hb := trace_lower_bound p fuel rest w1 l' hdvd1 hmax1 hok1 hl' y hy
          (by rw [← hiy]; exact (hserved i rfl).1)
        rw [← hiy, (hserved i rfl).2.1] at hb
        simp only at hb ⊢
        omega

/-- Witness of `GetLocation_slots_increase`: three calls in the demo process
are served by buffer 0 at `0x30000`, `0x30020` and `0x30040`. -/
theorem GetLocation_slots_increase_witness :
    List.Pairwise (fun x y : Nat × Nat => x.1 = y.1 → x.2 < y.2 ∧ x.2 + 32 ≤ y.2)
      [(0, 196608), (0, 196640), (0, 196672)] :=
  GetLocation_slots_increase tbbHeader 4 [65552, 65552, 65552] demoWorld
    [(0, 196608), (0, 196640), (0, 196672)] (by decide) ⟨2048, by decide⟩ (by decide)
    (fun b hb => absurd hb (List.not_mem_nil b)) (by decide)

/-! ### Byte memory -/

theorem writeBytes_eq :
    ∀ (bs : List Nat) (m : Nat → Nat) (a x : Nat), a + bs.length ≤ 18446744073709551616 →
      writeBytes m a bs x = if a ≤ x ∧ x < a + bs.length then bs.getD (x - a) 0 else m x := by
  intro bs
  induction bs with
  | nil =>
    intro m a x _
    have : ¬ (a ≤ x ∧ x < a + ([] : List Nat).length) := by simp
    rw [if_neg this]; rfl
  | cons b bs ih =>
    intro m a x h
    simp only [List.length_cons] at h
    unfold writeBytes
    rw [ih _ _ _ (by omega)]
    have ha : a % 18446744073709551616 = a := Nat.mod_eq_of_lt (by omega)
    rw [ha]
    by_cases hx : x = a
    · subst hx
      have h1 : ¬ (x + 1 ≤ x ∧ x < x + 1 + bs.length) := by omega
      have h2 : x ≤ x ∧ x < x + (b :: bs).length := by simp
      rw [if_neg h1, if_pos h2]
      simp [store]
    · by_cases hr : a + 1 ≤ x ∧ x < a + 1 + bs.length
      · have h2 : a ≤ x ∧ x < a + (b :: bs).length := by simp only [List.length_cons]; omega
        rw [if_pos hr, if_pos h2]
        have : x - a = (x - (a + 1)) + 1 := by omega
        rw [this, List.getD_cons_succ]
      · have h2 : ¬ (a ≤ x ∧ x < a + (b :: bs).length) := by
          simp only [List.length_cons]; omega
        rw [if_neg hr, if_neg h2]
        simp [store, hx]

theorem writeBytes_outside (bs : List Nat) (m : Nat → Nat) (a x : Nat)
    (h : a + bs.length ≤ 18446744073709551616) (hx : x < a ∨ a + bs.length ≤ x) :
    writeBytes m a bs x = m x := by
  rw [writeBytes_eq bs m a x h, if_neg (by omega)]

theorem le32_length (v : Nat) : (le32 v).length = 4 := rfl

theorem le64_length (v : Nat) : (le64 v).length = 8 := rfl

theorem readBytes_length (m : Nat → Nat) (a n : Nat) : (readBytes m a n).length = n := by
  simp [readBytes]

theorem read32_congr (m m' : Nat → Nat) (a : Nat) (ha : a + 4 ≤ 18446744073709551616)
    (h : ∀ x, a ≤ x → x < a + 4 → m' x = m x) : read32 m' a = read32 m a := by
  unfold read32
  rw [Nat.mod_eq_of_lt (show a < 18446744073709551616 by omega),
    Nat.mod_eq_of_lt (show a + 1 < 18446744073709551616 by omega),
    Nat.mod_eq_of_lt (show a + 2 < 18446744073709551616 by omega),
    Nat.mod_eq_of_lt (show a + 3 < 18446744073709551616 by omega),
    h a (by omega) (by omega), h (a + 1) (by omega) (by omega),
    h (a + 2) (by omega) (by omega), h (a + 3) (by omega) (by omega)]

theorem read32_writeBytes (m : Nat → Nat) (a v : Nat) (ha : a + 4 ≤ 18446744073709551616)
    (hv : v < 4294967296) : read32 (writeBytes m a (le32 v)) a = v := by
  unfold read32
  rw [Nat.mod_eq_of_lt (show a < 18446744073709551616 by omega),
    Nat.mod_eq_of_lt (show a + 1 < 18446744073709551616 by omega),
    Nat.mod_eq_of_lt (show a + 2 < 18446744073709551616 by omega),
    Nat.mod_eq_of_lt (show a + 3 < 18446744073709551616 by omega)]
  rw [writeBytes_eq _ _ _ _ (by rw [le32_length]; omega),
    writeBytes_eq _ _ _ _ (by rw [le32_length]; omega),
    writeBytes_eq _ _ _ _ (by rw [le32_length]; omega),
    writeBytes_eq _ _ _ _ (by rw [le32_length]; omega)]
  simp only [le32_length]
  rw [if_pos (by omega), if_pos (by omega), if_pos (by omega), if_pos (by omega)]
  have e0 : a - a = 0 := by omega
  have e1 : a + 1 - a = 1 := by omega
  have e2 : a + 2 - a = 2 := by omega
  have e3 : a + 3 - a = 3 := by omega
  rw [e0, e1, e2, e3]
  simp only [le32, List.getD_cons_zero, List.getD_cons_succ]
  omega

theorem read64_congr (m m' : Nat → Nat) (a : Nat) (ha : a + 8 ≤ 18446744073709551616)
    (h : ∀ x, a ≤ x → x < a + 8 → m' x = m x) : read64 m' a = read64 m a := by
  unfold read64
  rw [read32_congr m m' a (by omega) (fun x h1 h2 => h x h1 (by omega)),
    read32_congr m m' (a + 4) (by omega) (fun x h1 h2 => h x (by omega) (by omega))]

theorem read64_writeBytes (m : Nat → Nat) (a v : Nat) (ha : a + 8 ≤ 18446744073709551616)
    (hv : v < 18446744073709551616) : read64 (writeBytes m a (le64 v)) a = v := by
  have hlow : read32 (writeBytes m a (le64 v)) a = v % 4294967296 := by
    rw [← read32_writeBytes m a (v % 4294967296) (by omega) (Nat.mod_lt _ (by decide))]
    apply read32_congr _ _ _ (by omega)
    intro x h1 h2
    rw [writeBytes_eq _ _ _ _ (by rw [le64_length]; omega),
      writeBytes_eq _ _ _ _ (by rw [le32_length]; omega)]
    simp only [le64_length, le32_length]
    rw [if_pos (by omega), if_pos (by omega)]
    unfold le64
    rw [List.getD_append _ _ _ _ (by rw [le32_length]; omega)]
  have hhigh : read32 (writeBytes m a (le64 v)) (a + 4) = v / 4294967296 % 4294967296 := by
    rw [← read32_writeBytes m (a + 4) (v / 4294967296 % 4294967296) (by omega)
      (Nat.mod_lt _ (by decide))]
    apply read32_congr _ _ _ (by omega)
    intro x h1 h2
    rw [writeBytes_eq _ _ _ _ (by rw [le64_length]; omega),
      writeBytes_eq _ _ _ _ (by rw [le32_length]; omega)]
    simp only [le64_length, le32_length]
    rw [if_pos (by omega), if_pos (by omega)]
    unfold le64
    rw [List.getD_append_right _ _ _ _ (by rw [le32_length]; omega), le32_length]
    congr 1
  unfold read64
  rw [hlow, hhigh]
  omega

/-- A byte that a run of stores does not reach keeps its value, wherever the
run lies in the address space. -/
theorem writeBytes_miss :
    ∀ (bs : List Nat) (m : Nat → Nat) (a x : Nat),
      (∀ j, j < bs.length → (a + j) % 18446744073709551616 ≠ x) →
      writeBytes m a bs x = m x := by
  intro bs
  induction bs with
  | nil => intro m a x _; rfl
  | cons b bs ih =>
    intro m a x h
    unfold writeBytes
    rw [ih _ _ _ (fun j hj => by
      have := h (j + 1) (by simp only [List.length_cons]; omega)
      rw [show a + 1 + j = a + (j + 1) by omega]
      exact this)]
    have h0 := h 0 (by simp)
    simp only [Nat.add_zero] at h0
    simp [store, Ne.symm h0]

/-- The byte that a run of stores leaves at its offset `i`. -/
theorem writeBytes_hit :
    ∀ (bs : List Nat) (m : Nat → Nat) (a i : Nat), bs.length ≤ 18446744073709551616 →
      i < bs.length → writeBytes m a bs ((a + i) % 18446744073709551616) = bs.getD i 0 := by
  intro bs
  induction bs with
  | nil => intro m a i _ hi; simp at hi
  | cons b bs ih =>
    intro m a i hlen hi
    simp only [List.length_cons] at hlen hi
    unfold writeBytes
    cases i with
    | zero =>
      rw [writeBytes_miss bs _ (a + 1) _ (fun j hj => by omega)]
      simp [store]
    | succ k =>
      rw [show a + (k + 1) = a + 1 + k by omega, ih _ (a + 1) k (by omega) (by omega)]
      simp

/-- A 64-bit value stored at any address is read back from that address. -/
theorem read64_writeBytes_any (m : Nat → Nat) (a v : Nat) (hv : v < 18446744073709551616) :
    read64 (writeBytes m a (le64 v)) a = v := by
  have h := fun i hi => writeBytes_hit (le64 v) m a i (by rw [le64_length]; decide) hi
  have h0 := h 0 (by rw [le64_length]; decide)
  have h1 := h 1 (by rw [le64_length]; decide)
  have h2 := h 2 (by rw [le64_length]; decide)
  have h3 := h 3 (by rw [le64_length]; decide)
  have h4 := h 4 (by rw [le64_length]; decide)
  have h5 := h 5 (by rw [le64_length]; decide)
  have h6 := h 6 (by rw [le64_length]; decide)
  have h7 := h 7 (by rw [le64_length]; decide)
  simp only [Nat.add_zero] at h0
  unfold read64 read32
  rw [show a + 4 + 1 = a + 5 by omega, show a + 4 + 2 = a + 6 by omega,
    show a + 4 + 3 = a + 7 by omega, h0, h1, h2, h3, h4, h5, h6, h7]
  simp only [le64, le32, List.cons_append, List.nil_append, List.getD_cons_zero,
    List.getD_cons_succ]
  omega

/-- A displacement that `subPtr` computes and that fits 32 signed bits leads
from the end of the jump instruction back to the target. -/
theorem jump_target (x y k n : Nat) (hx : x + n < 9223372036854775808)
    (hy : y + n < 9223372036854775808) (hk : k < 4294967296)
    (hlo : (x : Int) + k - 2147483648 ≤ y) (hhi : (y : Int) < x + k + 2147483648) :
    (x + n + k + signExtend32 (subPtr (subPtr y x) k % 4294967296)) % 18446744073709551616
      = y + n := by
  unfold signExtend32 subPtr
  split_ifs <;> omega

/-! ### `GetLocation` in a sane process -/

theorem inPages_of_mem (x len a : Nat) (h1 : x ≤ a) (h2 : a < x + len) :
    inPages x len (a / PAGE_SIZE) := by
  unfold inPages PAGE_SIZE
  constructor <;> omega

/-- `GetLocation` touches nothing but the provider and, through `VirtualAlloc`,
the state and protection of pages. -/
theorem served_frame (p : Header) (fuel : Nat) (w w1 : World) (addr s : Nat) (oi : Option Nat)
    (h : GetLocation.served p fuel w addr = some (w1, s, oi)) :
    w1.mem = w.mem ∧ w1.log = w.log
      ∧ w1.lpMaximumApplicationAddress = w.lpMaximumApplicationAddress
      ∧ w1.dwAllocationGranularity = w.dwAllocationGranularity
      ∧ w1.exports = w.exports ∧ w1.modulesA = w.modulesA ∧ w1.modulesW = w.modulesW
      ∧ w1.cachedNameA = w.cachedNameA ∧ w1.cachedHMA = w.cachedHMA
      ∧ w1.cachedNameW = w.cachedNameW ∧ w1.cachedHMW = w.cachedHMW := by
  rcases served_cases p fuel w addr _ h with ⟨_, h0⟩ | ⟨l1, b, l2, _, _, _, hb⟩
      | ⟨newAddr, _, _, _, _, hz, hb⟩
  · simp only [Prod.mk.injEq] at h0
    obtain ⟨rfl, _, _⟩ := h0
    simp
  · simp only [Prod.mk.injEq] at hb
    obtain ⟨rfl, _, _⟩ := hb
    simp
  · simp only [Prod.mk.injEq] at hb
    obtain ⟨rfl, _, _⟩ := hb
    rw [(VirtualAlloc_ok _ _ _ _ hz).1]
    simp

theorem served_sane (p : Header) (fuel : Nat) (w w1 : World) (addr s : Nat) (oi : Option Nat)
    (hs : Sane p w) (h : GetLocation.served p fuel w addr = some (w1, s, oi)) :
    Sane p w1
      ∧ (∀ pg, w.state pg ≠ MEM_FREE → w1.state pg = w.state pg ∧ w1.prot pg = w.prot pg)
      ∧ (∀ a, handedOut w a → handedOut w1 a)
      ∧ (∀ b1 ∈ w1.m_pages, ∀ a, inBuffer b1 a →
          (∃ b ∈ w.m_pages, inBuffer b a) ∨ w.state (a / PAGE_SIZE) = MEM_FREE)
      ∧ (s ≠ 0 → IsInDistance s addr p.MAX_DISTANCE = true
          ∧ s + p.MAX_PROBE_SIZE ≤ w.lpMaximumApplicationAddress + 1
          ∧ (∃ b ∈ w1.m_pages, b.m_base ≤ s ∧ b.m_next = s + p.MAX_PROBE_SIZE
              ∧ p.MAX_PROBE_SIZE ∣ s - b.m_base ∧ s + p.MAX_PROBE_SIZE ≤ b.m_base + b.m_size)
          ∧ ∀ a, s ≤ a → a < s + p.MAX_PROBE_SIZE → ¬ handedOut w a) := by
  rcases served_cases p fuel w addr _ h with ⟨_, h0⟩ | ⟨l1, b, l2, hl, hd, hroom, hb⟩
      | ⟨newAddr, _, _, hd, ⟨x, hx⟩, hz, hb⟩
  · simp only [Prod.mk.injEq] at h0
    obtain ⟨rfl, rfl, _⟩ := h0
    exact ⟨hs, fun _ _ => ⟨rfl, rfl⟩, fun _ ha => ha, fun b1 hb1 a ha => Or.inl ⟨b1, hb1, ha⟩,
      fun h0 => absurd rfl h0⟩
  · simp only [Prod.mk.injEq] at hb
    obtain ⟨rfl, rfl, _⟩ := hb
    have hbm : b ∈ w.m_pages := by rw [hl]; simp
    have hbok : BufferOK p b := hs.buffers_ok b hbm
    obtain ⟨hle, hmod, hb'⟩ := BufferOK_advance p b hbok hroom
    have hap := hs.buffers_apart
    rw [hl, List.pairwise_append, List.pairwise_cons] at hap
    obtain ⟨hap1, ⟨hapb, hap2⟩, hap12⟩ := hap
    have hmem' : ({ b with m_next := (b.m_next + p.MAX_PROBE_SIZE) % 18446744073709551616 }
        : MemoryBuffer) ∈ l1 ++ { b with
          m_next := (b.m_next + p.MAX_PROBE_SIZE) % 18446744073709551616 } :: l2 := by simp
    refine ⟨?_, fun _ _ => ⟨rfl, rfl⟩, ?_, ?_, ?_⟩
    · constructor
      · exact hs.slot_dvd
      · exact hs.granularity
      · exact hs.user_space
      · intro c hc
        simp only [List.mem_append, List.mem_cons] at hc
        rcases hc with hc | rfl | hc
        · exact hs.buffers_ok c (by rw [hl]; simp [hc])
        · exact hb'
        · exact hs.buffers_ok c (by rw [hl]; simp [hc])
      · intro c hc
        simp only [List.mem_append, List.mem_cons] at hc
        rcases hc with hc | rfl | hc
        · exact hs.buffers_in c (by rw [hl]; simp [hc])
        · exact hs.buffers_in b hbm
        · exact hs.buffers_in c (by rw [hl]; simp [hc])
      · intro c hc
        simp only [List.mem_append, List.mem_cons] at hc
        rcases hc with hc | rfl | hc
        · exact hs.buffers_used c (by rw [hl]; simp [hc])
        · exact hs.buffers_used b hbm
        · exact hs.buffers_used c (by rw [hl]; simp [hc])
      · show List.Pairwise _ (l1 ++ _ :: l2)
        rw [List.pairwise_append, List.pairwise_cons]
        refine ⟨hap1, ⟨fun c hc => hapb c hc, hap2⟩, ?_⟩
        intro c hc d hd'
        simp only [List.mem_cons] at hd'
        rcases hd' with rfl | hd'
        · exact hap12 c hc b (by simp)
        · exact hap12 c hc d (by simp [hd'])
    · rintro a ⟨c, hc, hca⟩
      rw [hl] at hc
      simp only [List.mem_append, List.mem_cons] at hc
      rcases hc with hc | rfl | hc
      · exact ⟨c, by simp [hc], hca⟩
      · exact ⟨_, hmem', hca.1, by dsimp only; omega⟩
      · exact ⟨c, by simp [hc], hca⟩
    · intro c hc a ha
      left
      simp only [List.mem_append, List.mem_cons] at hc
      rcases hc with hc | rfl | hc
      · exact ⟨c, by rw [hl]; simp [hc], ha⟩
      · exact ⟨b, hbm, ha⟩
      · exact ⟨c, by rw [hl]; simp [hc], ha⟩
    · intro _
      have hin := hs.buffers_in b hbm
      refine ⟨hd, by omega, ⟨_, hmem', hbok.base_le, hmod, hbok.next_dvd, hle⟩, ?_⟩
      intro a ha1 ha2
      have hab : inBuffer b a := ⟨le_trans hbok.base_le ha1, by omega⟩
      rintro ⟨c, hc, hca⟩
      have hcok := hs.buffers_ok c hc
      have hca' : inBuffer c a := ⟨hca.1, lt_of_lt_of_le hca.2 hcok.next_le⟩
      rw [hl] at hc
      simp only [List.mem_append, List.mem_cons] at hc
      rcases hc with hc | rfl | hc
      · exact hap12 c hc b (by simp) a ⟨hca', hab⟩
      · omega
      · exact hapb c hc a ⟨hab, hca'⟩
  · simp only [Prod.mk.injEq] at hb
    obtain ⟨rfl, rfl, _⟩ := hb
    obtain ⟨he, hnz, hle, hpos, hfree⟩ := VirtualAlloc_ok _ _ _ _ hz
    obtain ⟨hle', hmod, hb'⟩ := BufferOK_fresh p w newAddr hs.slot_dvd (by have := hs.user_space; omega) hz
    rw [he] at hle' hmod hb' ⊢
    simp only at hle' hmod hb' ⊢
    rw [allPages_iff] at hfree
    have hbase : newAddr / w.dwAllocationGranularity * w.dwAllocationGranularity ≤ newAddr :=
      Nat.div_mul_le_self _ _
    have hbn : newAddr / w.dwAllocationGranularity * w.dwAllocationGranularity = newAddr := by
      rw [hx]; exact (granularity_facts w hs.granularity).2.2.2 x
    generalize newAddr / w.dwAllocationGranularity * w.dwAllocationGranularity = base at *
    have hnew : ∀ a, base ≤ a → a < base + w.m_allocSize →
        inPages base (newAddr + w.m_allocSize - base) (a / PAGE_SIZE) :=
      fun a h1 h2 => inPages_of_mem _ _ _ h1 (by omega)
    have hmem' : MemoryBuffer.mk base ((base + p.MAX_PROBE_SIZE) % 18446744073709551616)
        w.m_allocSize ∈ w.m_pages ++ [MemoryBuffer.mk base
          ((base + p.MAX_PROBE_SIZE) % 18446744073709551616) w.m_allocSize] := by simp
    refine ⟨?_, ?_, ?_, ?_, ?_⟩
    · constructor
      · exact hs.slot_dvd
      · exact hs.granularity
      · exact hs.user_space
      · intro c hc
        simp only [List.mem_append, List.mem_singleton] at hc
        rcases hc with hc | rfl
        · exact hs.buffers_ok c hc
        · exact hb'
      · intro c hc
        simp only [List.mem_append, List.mem_singleton] at hc
        rcases hc with hc | rfl
        · exact hs.buffers_in c hc
        · show base + w.m_allocSize ≤ w.lpMaximumApplicationAddress + 1
          omega
      · intro c hc a ha
        simp only [List.mem_append, List.mem_singleton] at hc
        show (if _ then MEM_COMMIT else w.state (a / PAGE_SIZE)) = MEM_COMMIT
        split_ifs
        · rfl
        · rcases hc with hc | rfl
          · exact hs.buffers_used c hc a ha
          · exact absurd (hnew a ha.1 ha.2) ‹_›
      · show List.Pairwise _ (w.m_pages ++ [_])
        rw [List.pairwise_append]
        refine ⟨hs.buffers_apart, List.pairwise_singleton _ _, ?_⟩
        intro c hc d hd' a ha
        simp only [List.mem_singleton] at hd'
        subst hd'
        exact absurd ((hs.buffers_used c hc a ha.1).symm.trans (hfree _ (hnew a ha.2.1 ha.2.2)))
          (by decide)
    · intro pg hpg
      have : ¬ inPages base (newAddr + w.m_allocSize - base) pg := fun hin => hpg (hfree pg hin)
      simp [this]
    · rintro a ⟨c, hc, hca⟩
      exact ⟨c, by simp [hc], hca⟩
    · intro c hc a ha
      simp only [List.mem_append, List.mem_singleton] at hc
      rcases hc with hc | rfl
      · exact Or.inl ⟨c, hc, ha⟩
      · exact Or.inr (hfree _ (hnew a ha.1 ha.2))
    · intro _
      refine ⟨?_, by omega, ⟨_, hmem', le_refl _, hmod, ⟨0, by simp⟩, hle'⟩, ?_⟩
      · rw [hbn, IsInDistance_comm]; exact hd
      · intro a ha1 ha2
        rintro ⟨c, hc, hca⟩
        have hcok := hs.buffers_ok c hc
        exact absurd ((hs.buffers_used c hc a
          ⟨hca.1, lt_of_lt_of_le hca.2 hcok.next_le⟩).symm.trans
            (hfree _ (hnew a ha1 (by omega)))) (by decide)

/-! ### Worlds that agree on the fields an invariant reads -/

theorem Sane_congr (p : Header) (w w1 : World) (h1 : w1.m_pages = w.m_pages)
    (h2 : w1.state = w.state) (h3 : w1.dwAllocationGranularity = w.dwAllocationGranularity)
    (h4 : w1.lpMaximumApplicationAddress = w.lpMaximumApplicationAddress) (hs : Sane p w) :
    Sane p w1 := by
  constructor
  · rw [m_allocSize_congr w w1 h3]; exact hs.slot_dvd
  · unfold GranularityOK; rw [h3]; exact hs.granularity
  · rw [h4]; exact hs.user_space
  · rw [h1]; exact hs.buffers_ok
  · rw [h1, h4]; exact hs.buffers_in
  · rw [h1, h2]; exact hs.buffers_used
  · rw [h1]; exact hs.buffers_apart

theorem PatchSite_congr (w w1 : World) (src len : Nat) (h1 : w1.m_pages = w.m_pages)
    (h4 : w1.lpMaximumApplicationAddress = w.lpMaximumApplicationAddress)
    (hp : PatchSite w src len) : PatchSite w1 src len := by
  constructor
  · rw [h4]; exact hp.in_space
  · rw [h1]; exact hp.apart

theorem Committed_congr (w w1 : World) (src len : Nat) (h2 : w1.state = w.state)
    (hc : Committed w src len) : Committed w1 src len := by
  unfold Committed; rw [h2]; exact hc

theorem handedOut_congr (w w1 : World) (a : Nat) (h1 : w1.m_pages = w.m_pages) :
    handedOut w1 a ↔ handedOut w a := by
  unfold handedOut; rw [h1]

theorem VirtualProtect_some (w w1 : World) (a sz pr old : Nat)
    (h : VirtualProtect w a sz pr = some (w1, old)) :
    w1 = { w with prot := fun pg => if inPages a sz pg then pr else w.prot pg }
      ∧ old = w.prot (a / PAGE_SIZE) ∧ Committed w a sz := by
  unfold VirtualProtect at h
  split_ifs at h with hc
  simp only [Option.some.injEq, Prod.mk.injEq] at h
  exact ⟨h.1.symm, h.2.symm, (allPages_iff _ _ _ _).1 hc⟩

theorem VirtualProtect_none (w : World) (a sz pr : Nat)
    (h : VirtualProtect w a sz pr = none) : ¬ Committed w a sz := by
  unfold VirtualProtect at h
  split_ifs at h with hc
  intro hcm
  exact hc ((allPages_iff _ _ _ _).2 hcm)

theorem VirtualProtect_of_committed (w : World) (a sz pr : Nat) (hc : Committed w a sz) :
    VirtualProtect w a sz pr =
      some ({ w with prot := fun pg => if inPages a sz pg then pr else w.prot pg },
            w.prot (a / PAGE_SIZE)) := by
  unfold VirtualProtect
  rw [if_pos ((allPages_iff _ _ _ _).2 hc)]

theorem inPages_witness (x len pg : Nat) (hlen : 0 < len) (h : inPages x len pg) :
    ∃ a, x ≤ a ∧ a < x + len ∧ a / PAGE_SIZE = pg := by
  unfold inPages PAGE_SIZE at *
  by_cases hx : pg = x / 4096
  · exact ⟨x, le_refl _, by omega, hx.symm⟩
  · exact ⟨pg * 4096, by omega, by omega, by omega⟩

theorem GetLocation_some (p : Header) (fuel : Nat) (w w1 : World) (addr s : Nat)
    (h : GetLocation p fuel w addr = some (w1, s)) :
    ∃ oi, GetLocation.served p fuel w addr = some (w1, s, oi) := by
  unfold GetLocation at h
  cases hr : GetLocation.served p fuel w addr with
  | none => rw [hr] at h; simp at h
  | some r =>
    obtain ⟨a, b, c⟩ := r
    rw [hr] at h
    simp only [Option.some.injEq, Prod.mk.injEq] at h
    exact ⟨c, by rw [h.1, h.2]⟩

/-- One call of `GetLocation` in a sane process, seen from a patch site. -/
theorem GetLocation_site (p : Header) (fuel : Nat) (w w1 : World) (src len addr s : Nat)
    (hs : Sane p w) (hp : PatchSite w src len) (hc : Committed w src len)
    (h : GetLocation p fuel w addr = some (w1, s)) :
    Sane p w1 ∧ PatchSite w1 src len ∧ Committed w1 src len
      ∧ w1.mem = w.mem ∧ w1.log = w.log
      ∧ (∀ pg, inPages src len pg → w1.prot pg = w.prot pg)
      ∧ (∀ a, handedOut w a → handedOut w1 a)
      ∧ (s ≠ 0 → IsInDistance s addr p.MAX_DISTANCE = true
          ∧ s + p.MAX_PROBE_SIZE ≤ w.lpMaximumApplicationAddress + 1
          ∧ (∃ b ∈ w1.m_pages, b.m_base ≤ s ∧ b.m_next = s + p.MAX_PROBE_SIZE
              ∧ p.MAX_PROBE_SIZE ∣ s - b.m_base ∧ s + p.MAX_PROBE_SIZE ≤ b.m_base + b.m_size)
          ∧ ∀ a, s ≤ a → a < s + p.MAX_PROBE_SIZE → ¬ handedOut w a) := by
  obtain ⟨oi, hsv⟩ := GetLocation_some p fuel w w1 addr s h
  obtain ⟨hm, hl, hmax, _⟩ := served_frame p fuel w w1 addr s oi hsv
  obtain ⟨hs1, hst, hho, hbuf, hslot⟩ := served_sane p fuel w w1 addr s oi hs hsv
  have hfree : MEM_COMMIT ≠ MEM_FREE := by decide
  refine ⟨hs1, ?_, ?_, hm, hl, ?_, hho, hslot⟩
  · constructor
    · rw [hmax]; exact hp.in_space
    · intro b1 hb1 a ha hpg
      rcases hbuf b1 hb1 a ha with ⟨b, hb, hab⟩ | hfr
      · exact hp.apart b hb a hab hpg
      · rw [hc _ hpg] at hfr; exact hfree hfr
  · intro pg hpg
    rw [(hst pg (by rw [hc pg hpg]; exact hfree)).1]
    exact hc pg hpg
  · intro pg hpg
    exact (hst pg (by rw [hc pg hpg]; exact hfree)).2

theorem OwnVariable_congr (w w1 : World) (src len stored : Nat) (h1 : w1.m_pages = w.m_pages)
    (h2 : w1.state = w.state)
    (h4 : w1.lpMaximumApplicationAddress = w.lpMaximumApplicationAddress)
    (hv : OwnVariable w src len stored) : OwnVariable w1 src len stored := by
  constructor
  · rw [h4]; exact hv.in_space
  · rw [h2]; exact hv.committed
  · rw [h1]; exact hv.apart
  · exact hv.off_site

/-- The caller's variable stays what it is over a call of `GetLocation`: a new
buffer is made of free pages, and the variable lies on committed ones. -/
theorem GetLocation_variable (p : Header) (fuel : Nat) (w w1 : World)
    (src len addr s stored : Nat) (hs : Sane p w) (hv : OwnVariable w src len stored)
    (h : GetLocation p fuel w addr = some (w1, s)) : OwnVariable w1 src len stored := by
  obtain ⟨oi, hsv⟩ := GetLocation_some p fuel w w1 addr s h
  obtain ⟨_, _, hmax, _⟩ := served_frame p fuel w w1 addr s oi hsv
  obtain ⟨_, hst, _, hbuf, _⟩ := served_sane p fuel w w1 addr s oi hs hsv
  have hfree : MEM_COMMIT ≠ MEM_FREE := by decide
  constructor
  · rw [hmax]; exact hv.in_space
  · intro a h1 h2
    rw [(hst _ (by rw [hv.committed a h1 h2]; exact hfree)).1]
    exact hv.committed a h1 h2
  · intro b1 hb1 a h1 h2 hin
    rcases hbuf b1 hb1 a hin with ⟨b, hb, hab⟩ | hfr
    · exact hv.apart b hb a h1 h2 hab
    · rw [hv.committed a h1 h2] at hfr; exact hfree hfr
  · exact hv.off_site

/-- The slots of a sane process lie on committed pages. -/
theorem slot_committed (p : Header) (w : World) (b : MemoryBuffer) (s : Nat)
    (hh : HeaderOK p) (hs : Sane p w) (hb : b ∈ w.m_pages) (h1 : b.m_base ≤ s)
    (h2 : s + p.MAX_PROBE_SIZE ≤ b.m_base + b.m_size) : Committed w s p.MAX_PROBE_SIZE := by
  intro pg hpg
  have hpos : 0 < p.MAX_PROBE_SIZE := by have := hh.slot_width; omega
  obtain ⟨a, ha1, ha2, ha3⟩ := inPages_witness s _ pg hpos hpg
  rw [← ha3]
  exact hs.buffers_used b hb a ⟨by omega, by omega⟩

theorem readBytes_getD (m : Nat → Nat) (a n i : Nat) (hi : i < n) :
    (readBytes m a n).getD i 0 = m ((a + i) % 18446744073709551616) := by
  unfold readBytes
  rw [List.getD_eq_getElem?_getD, List.getElem?_map, List.getElem?_range hi]
  rfl

/-- The bytes that the block `if ( storedAddr ){ ... }` leaves in memory: the
copy of the original bytes, the opcode `E9` and the displacement, and nothing
outside `[s, s + n + 5)`. -/
theorem stored_image (m : Nat → Nat) (src s n v : Nat)
    (hs : s + n + 5 ≤ 18446744073709551616) (hsrc : src + n ≤ 18446744073709551616)
    (hv : v < 4294967296) :
    (∀ a, a < s ∨ s + n + 5 ≤ a →
        writeBytes (store (writeBytes m s (readBytes m src n))
          ((s + n) % 18446744073709551616) 0xE9) (s + n + 1) (le32 v) a = m a)
      ∧ (∀ i, i < n →
        writeBytes (store (writeBytes m s (readBytes m src n))
          ((s + n) % 18446744073709551616) 0xE9) (s + n + 1) (le32 v) (s + i) = m (src + i))
      ∧ writeBytes (store (writeBytes m s (readBytes m src n))
          ((s + n) % 18446744073709551616) 0xE9) (s + n + 1) (le32 v) (s + n) = 0xE9
      ∧ read32 (writeBytes (store (writeBytes m s (readBytes m src n))
          ((s + n) % 18446744073709551616) 0xE9) (s + n + 1) (le32 v)) (s + n + 1) = v := by
  have hmod : (s + n) % 18446744073709551616 = s + n := Nat.mod_eq_of_lt (by omega)
  rw [hmod]
  refine ⟨?_, ?_, ?_, read32_writeBytes _ _ _ (by omega) hv⟩
  · intro a ha
    rw [writeBytes_outside _ _ _ _ (by rw [le32_length]; omega) (by rw [le32_length]; omega)]
    unfold store
    rw [if_neg (by omega)]
    exact writeBytes_outside _ _ _ _ (by rw [readBytes_length]; omega)
      (by rw [readBytes_length]; omega)
  · intro i hi
    rw [writeBytes_outside _ _ _ _ (by rw [le32_length]; omega) (by omega)]
    unfold store
    rw [if_neg (by omega), writeBytes_eq _ _ _ _ (by rw [readBytes_length]; omega),
      readBytes_length, if_pos (by omega), Nat.add_sub_cancel_left, readBytes_getD _ _ _ _ hi,
      Nat.mod_eq_of_lt (by omega)]
  · rw [writeBytes_outside _ _ _ _ (by rw [le32_length]; omega) (by omega)]
    simp [store]

/-- The three ways the block `if ( storedAddr ){ ... }` ends: without a
location; with the location in the variable and a refusal of `VirtualProtect`;
or with the location in the variable, the pages of the slot executable, and the
copy, the opcode and the displacement written where `*storedAddr` points at
each step. -/
theorem storeOriginal_cases (p : Header) (fuel : Nat) (w w1 : World)
    (src n stored : Nat) (flag : Bool)
    (h : storeOriginal p fuel w src n stored = some (w1, flag)) :
    ∃ wg s, GetLocation p fuel w src = some (wg, s)
      ∧ ((s = 0 ∧ flag = false ∧ w1 = wg)
        ∨ (s ≠ 0 ∧ flag = false
            ∧ ¬ Committed wg (read64 (writeBytes wg.mem stored (le64 s)) stored)
                p.MAX_PROBE_SIZE
            ∧ w1 = { wg with
                      mem :=
                        writeBytes wg.mem stored (le64 s) })
        ∨ (s ≠ 0 ∧ flag = true
            ∧ ∃ m0 m1 m2, m0 = writeBytes wg.mem stored (le64 s)
              ∧ m1 = writeBytes m0 (read64 m0 stored) (readBytes m0 src n)
              ∧ m2 = store m1 ((read64 m1 stored + n) % 18446744073709551616) 0xE9
              ∧ Committed wg (read64 m0 stored) p.MAX_PROBE_SIZE
              ∧ w1 = { wg with
                        mem :=
                          writeBytes m2 (read64 m2 stored + n + 1)
                            (le32 (subPtr (subPtr src s) SIZE_OF_RELJUMP % 4294967296))
                        prot := fun pg =>
                          if inPages (read64 m0 stored) p.MAX_PROBE_SIZE pg
                          then PAGE_EXECUTE_READWRITE else wg.prot pg })) := by
  unfold storeOriginal at h
  cases hg : GetLocation p fuel w src with
  | none => rw [hg] at h; simp at h
  | some r =>
    obtain ⟨wg, s⟩ := r
    rw [hg] at h
    simp only at h
    refine ⟨wg, s, rfl, ?_⟩
    by_cases hz : s = 0
    · rw [if_pos hz] at h
      simp only [Option.some.injEq, Prod.mk.injEq] at h
      exact Or.inl ⟨hz, h.2.symm, h.1.symm⟩
    · rw [if_neg hz] at h
      right
      cases hv : VirtualProtect { wg with mem := writeBytes wg.mem stored (le64 s) }
          (read64 (writeBytes wg.mem stored (le64 s)) stored) p.MAX_PROBE_SIZE
          PAGE_EXECUTE_READWRITE with
      | none =>
        rw [hv] at h
        simp only [Option.some.injEq, Prod.mk.injEq] at h
        have hnc := VirtualProtect_none _ _ _ _ hv
        exact Or.inl ⟨hz, h.2.symm, hnc, h.1.symm⟩
      | some r3 =>
        obtain ⟨w3, old⟩ := r3
        rw [hv] at h
        obtain ⟨rfl, _, hcm⟩ := VirtualProtect_some _ _ _ _ _ _ hv
        simp only [Option.some.injEq, Prod.mk.injEq] at h
        exact Or.inr ⟨hz, h.2.symm, _, _, _, rfl, rfl, rfl, hcm, h.1.symm⟩

theorem storeOriginal_effect (p : Header) (fuel : Nat) (w w1 : World)
    (src len n stored : Nat) (flag : Bool)
    (hh : HeaderOK p) (hs : Sane p w) (hp : PatchSite w src len) (hc : Committed w src len)
    (h : storeOriginal p fuel w src n stored = some (w1, flag)) :
    Sane p w1 ∧ PatchSite w1 src len ∧ Committed w1 src len
      ∧ w1.log = w.log
      ∧ (∀ pg, inPages src len pg → w1.prot pg = w.prot pg)
      ∧ (∀ a, handedOut w a → handedOut w1 a)
      ∧ (flag = false → w1.mem = w.mem)
      ∧ (flag = true →
          ∃ s, s ≠ 0
          ∧ IsInDistance s src p.MAX_DISTANCE = true
          ∧ s + p.MAX_PROBE_SIZE ≤ w.lpMaximumApplicationAddress + 1
          ∧ (∃ b ∈ w1.m_pages, b.m_base ≤ s ∧ b.m_next = s + p.MAX_PROBE_SIZE
              ∧ p.MAX_PROBE_SIZE ∣ s - b.m_base ∧ s + p.MAX_PROBE_SIZE ≤ b.m_base + b.m_size)
          ∧ (∀ a, s ≤ a → a < s + p.MAX_PROBE_SIZE → ¬ handedOut w a)
          ∧ (n + SIZE_OF_RELJUMP ≤ p.MAX_PROBE_SIZE → n ≤ len →
              OwnVariable w src len stored →
              read64 w1.mem stored = s
              ∧ (∀ a, handedOut w a ∨ inPages src len (a / PAGE_SIZE) → w1.mem a = w.mem a)
              ∧ (∀ a, a < stored ∨ stored + 8 ≤ a → a < s ∨ s + n + 5 ≤ a →
                  w1.mem a = w.mem a)
              ∧ (∀ i, i < n → w1.mem (s + i) = w.mem (src + i))
              ∧ w1.mem (s + n) = 0xE9
              ∧ read32 w1.mem (s + n + 1)
                  = subPtr (subPtr src s) SIZE_OF_RELJUMP % 4294967296)) := by
  obtain ⟨wg, s, hg, hcase⟩ := storeOriginal_cases p fuel w w1 src n stored flag h
  obtain ⟨hs1, hp1, hc1, hm, hl, hpr, hho, hslot⟩ :=
    GetLocation_site p fuel w wg src len src s hs hp hc hg
  have hmax := hs.user_space
  have hpos : 0 < p.MAX_PROBE_SIZE := by have := hh.slot_width; omega
  rcases hcase with ⟨hz, rfl, rfl⟩ | ⟨hz, rfl, hnc, rfl⟩
      | ⟨hz, rfl, m0, m1, m2, hm0, hm1, hm2, _, rfl⟩
  · exact ⟨hs1, hp1, hc1, hl, hpr, hho, fun _ => hm, fun hf => by simp at hf⟩
  · exfalso
    obtain ⟨_, hin, ⟨b, hb, hb1, _, _, hb4⟩, _⟩ := hslot hz
    rw [read64_writeBytes_any _ _ _ (by omega)] at hnc
    exact hnc (slot_committed p wg b s hh hs1 hb hb1 hb4)
  · obtain ⟨hd, hin, ⟨b, hb, hb1, hb2, hb3, hb4⟩, hfresh⟩ := hslot hz
    have e0 : read64 m0 stored = s := by
      rw [hm0]; exact read64_writeBytes_any _ _ _ (by omega)
    rw [e0] at hm1
    have hslotbuf : ∀ a, s ≤ a → a < s + p.MAX_PROBE_SIZE → inBuffer b a :=
      fun a h1 h2 => ⟨le_trans hb1 h1, by omega⟩
    refine ⟨Sane_congr p wg _ rfl rfl rfl rfl hs1, PatchSite_congr wg _ src len rfl rfl hp1,
      Committed_congr wg _ src len rfl hc1, hl, ?_, hho, fun hf => by simp at hf, ?_⟩
    · intro pg hpg
      have : ¬ inPages s p.MAX_PROBE_SIZE pg := by
        intro hin'
        obtain ⟨a, ha1, ha2, ha3⟩ := inPages_witness s _ pg hpos hin'
        exact hp1.apart b hb a (hslotbuf a ha1 ha2) (by rw [ha3]; exact hpg)
      show (if inPages (read64 m0 stored) p.MAX_PROBE_SIZE pg then _ else wg.prot pg) = _
      rw [e0, if_neg this]
      exact hpr pg hpg
    · intro _
      refine ⟨s, hz, hd, hin, ⟨b, hb, hb1, hb2, hb3, hb4⟩, hfresh, ?_⟩
      intro hfit hn hv
      have hfit' : n + 5 ≤ p.MAX_PROBE_SIZE := hfit
      have hv1 := GetLocation_variable p fuel w wg src len src s stored hs hv hg
      have hvs := hv.in_space
      have hsp := hp.in_space
      have hdis : stored + 8 ≤ s ∨ s + p.MAX_PROBE_SIZE ≤ stored := by
        by_contra hcon
        by_cases hle : stored ≤ s
        · exact hv1.apart b hb s hle (by omega) (hslotbuf s (le_refl _) (by omega))
        · exact hv1.apart b hb stored (le_refl _) (by omega)
            (hslotbuf stored (by omega) (by omega))
      have e1 : read64 m1 stored = s := by
        rw [← e0, hm1]
        exact read64_congr _ _ stored (by omega) (fun x h1 h2 =>
          writeBytes_outside _ _ _ _ (by rw [readBytes_length]; omega)
            (by rw [readBytes_length]; omega))
      rw [e1] at hm2
      have e2 : read64 m2 stored = s := by
        rw [← e1, hm2]
        apply read64_congr _ _ stored (by omega)
        intro x h1 h2
        unfold store
        rw [if_neg (by rw [Nat.mod_eq_of_lt (by omega)]; omega)]
      show read64 (writeBytes m2 (read64 m2 stored + n + 1) _) stored = s
        ∧ (∀ a, handedOut w a ∨ inPages src len (a / PAGE_SIZE) →
            writeBytes m2 (read64 m2 stored + n + 1) _ a = w.mem a)
        ∧ (∀ a, a < stored ∨ stored + 8 ≤ a → a < s ∨ s + n + 5 ≤ a →
            writeBytes m2 (read64 m2 stored + n + 1) _ a = w.mem a)
        ∧ (∀ i, i < n → writeBytes m2 (read64 m2 stored + n + 1) _ (s + i) = w.mem (src + i))
        ∧ writeBytes m2 (read64 m2 stored + n + 1) _ (s + n) = 0xE9
        ∧ read32 (writeBytes m2 (read64 m2 stored + n + 1) _) (s + n + 1) = _
      rw [e2]
      subst hm2 hm1
      obtain ⟨hout, hcopy, hop, hdisp⟩ := stored_image m0 src s n
        (subPtr (subPtr src s) SIZE_OF_RELJUMP % 4294967296) (by omega)
        (by omega) (Nat.mod_lt _ (by decide))
      have hvar : ∀ a, a < stored ∨ stored + 8 ≤ a → m0 a = w.mem a := by
        intro a ha
        rw [hm0, writeBytes_outside _ _ _ _ (by rw [le64_length]; omega)
          (by rw [le64_length]; omega), hm]
      have hsite : ∀ a, inPages src len (a / PAGE_SIZE) → a < stored ∨ stored + 8 ≤ a := by
        intro a ha
        by_contra hcon
        exact hv.off_site a (by omega) (by omega) ha
      refine ⟨?_, ?_, ?_, ?_, hop, hdisp⟩
      · exact (read64_congr m0 _ stored (by omega) (fun x h1 h2 => hout x (by omega))).trans e0
      · intro a ha
        have hnot : a < s ∨ s + n + 5 ≤ a := by
          by_contra hcon
          have h1 : s ≤ a := by omega
          have h2 : a < s + p.MAX_PROBE_SIZE := by omega
          rcases ha with ha | ha
          · exact hfresh a h1 h2 ha
          · exact hp1.apart b hb a (hslotbuf a h1 h2) ha
        rw [hout a hnot]
        apply hvar
        rcases ha with ha | ha
        · obtain ⟨c, hc', hc1', hc2'⟩ := ha
          have hcok := (hs.buffers_ok c hc').next_le
          by_contra hcon
          exact hv.apart c hc' a (by omega) (by omega) ⟨hc1', by omega⟩
        · exact hsite a ha
      · intro a ha hsl
        rw [hout a hsl]
        exact hvar a ha
      · intro i hi
        rw [hcopy i hi]
        exact hvar _ (hsite _ (inPages_of_mem src len _ (by omega) (by omega)))

/-! ### The generators -/

/-- The bytes that `InsertTrampoline32` leaves at the patch site. -/
theorem near_image (m : Nat → Nat) (src n v : Nat)
    (hs : src + 5 ≤ 18446744073709551616) (hn : src + n ≤ 18446744073709551616)
    (hv : v < 4294967296) :
    (∀ a, a < src ∨ (src + 5 ≤ a ∧ src + n ≤ a) →
        writeBytes (writeBytes (store m (src % 18446744073709551616) 0xE9) (src + 1) (le32 v))
          (src + SIZE_OF_RELJUMP) (List.replicate (n - SIZE_OF_RELJUMP) 0x90) a = m a)
      ∧ writeBytes (writeBytes (store m (src % 18446744073709551616) 0xE9) (src + 1) (le32 v))
          (src + SIZE_OF_RELJUMP) (List.replicate (n - SIZE_OF_RELJUMP) 0x90) src = 0xE9
      ∧ read32 (writeBytes (writeBytes (store m (src % 18446744073709551616) 0xE9) (src + 1)
          (le32 v)) (src + SIZE_OF_RELJUMP) (List.replicate (n - SIZE_OF_RELJUMP) 0x90))
          (src + 1) = v
      ∧ (∀ i, SIZE_OF_RELJUMP ≤ i → i < n →
        writeBytes (writeBytes (store m (src % 18446744073709551616) 0xE9) (src + 1) (le32 v))
          (src + SIZE_OF_RELJUMP) (List.replicate (n - SIZE_OF_RELJUMP) 0x90) (src + i) = 0x90) := by
  have hmod : src % 18446744073709551616 = src := Nat.mod_eq_of_lt (by omega)
  rw [hmod]
  unfold SIZE_OF_RELJUMP
  have hlen : (List.replicate (n - 5) 144).length = n - 5 := List.length_replicate _ _
  refine ⟨?_, ?_, ?_, ?_⟩
  · intro a ha
    rw [writeBytes_outside _ _ _ _ (by rw [hlen]; omega) (by rw [hlen]; omega),
      writeBytes_outside _ _ _ _ (by rw [le32_length]; omega) (by rw [le32_length]; omega)]
    unfold store
    rw [if_neg (by omega)]
  · rw [writeBytes_outside _ _ _ _ (by rw [hlen]; omega) (by omega),
      writeBytes_outside _ _ _ _ (by rw [le32_length]; omega) (by omega)]
    simp [store]
  · rw [read32_congr _ _ (src + 1) (by omega)
      (fun x h1 h2 => writeBytes_outside _ _ _ _ (by rw [hlen]; omega) (by omega))]
    exact read32_writeBytes _ _ _ (by omega) hv
  · intro i h1 h2
    rw [writeBytes_eq _ _ _ _ (by rw [hlen]; omega), hlen, if_pos (by omega),
      List.getD_eq_getElem?_getD, List.getElem?_replicate, if_pos (by omega)]
    rfl

/-- The bytes that `InsertTrampoline64` leaves at the patch site. -/
theorem far_image (m : Nat → Nat) (src n v : Nat)
    (hs : src + 6 ≤ 18446744073709551616) (hn : src + n ≤ 18446744073709551616)
    (hv : v < 4294967296) :
    (∀ a, a < src ∨ (src + 6 ≤ a ∧ src + n ≤ a) →
        writeBytes (writeBytes (store (store m (src % 18446744073709551616) 0xFF)
          ((src + 1) % 18446744073709551616) 0x25) (src + 2) (le32 v))
          (src + SIZE_OF_INDJUMP) (List.replicate (n - SIZE_OF_INDJUMP) 0x90) a = m a)
      ∧ writeBytes (writeBytes (store (store m (src % 18446744073709551616) 0xFF)
          ((src + 1) % 18446744073709551616) 0x25) (src + 2) (le32 v))
          (src + SIZE_OF_INDJUMP) (List.replicate (n - SIZE_OF_INDJUMP) 0x90) src = 0xFF
      ∧ writeBytes (writeBytes (store (store m (src % 18446744073709551616) 0xFF)
          ((src + 1) % 18446744073709551616) 0x25) (src + 2) (le32 v))
          (src + SIZE_OF_INDJUMP) (List.replicate (n - SIZE_OF_INDJUMP) 0x90) (src + 1) = 0x25
      ∧ read32 (writeBytes (writeBytes (store (store m (src % 18446744073709551616) 0xFF)
          ((src + 1) % 18446744073709551616) 0x25) (src + 2) (le32 v))
          (src + SIZE_OF_INDJUMP) (List.replicate (n - SIZE_OF_INDJUMP) 0x90)) (src + 2) = v
      ∧ (∀ i, SIZE_OF_INDJUMP ≤ i → i < n →
        writeBytes (writeBytes (store (store m (src % 18446744073709551616) 0xFF)
          ((src + 1) % 18446744073709551616) 0x25) (src + 2) (le32 v))
          (src + SIZE_OF_INDJUMP) (List.replicate (n - SIZE_OF_INDJUMP) 0x90) (src + i) = 0x90) := by
  have hmod : src % 18446744073709551616 = src := Nat.mod_eq_of_lt (by omega)
  have hmod1 : (src + 1) % 18446744073709551616 = src + 1 := Nat.mod_eq_of_lt (by omega)
  rw [hmod, hmod1]
  unfold SIZE_OF_INDJUMP
  have hlen : (List.replicate (n - 6) 144).length = n - 6 := List.length_replicate _ _
  refine ⟨?_, ?_, ?_, ?_, ?_⟩
  · intro a ha
    rw [writeBytes_outside _ _ _ _ (by rw [hlen]; omega) (by rw [hlen]; omega),
      writeBytes_outside _ _ _ _ (by rw [le32_length]; omega) (by rw [le32_length]; omega)]
    unfold store
    rw [if_neg (by omega), if_neg (by omega)]
  · rw [writeBytes_outside _ _ _ _ (by rw [hlen]; omega) (by omega),
      writeBytes_outside _ _ _ _ (by rw [le32_length]; omega) (by omega)]
    simp [store]
  · rw [writeBytes_outside _ _ _ _ (by rw [hlen]; omega) (by omega),
      writeBytes_outside _ _ _ _ (by rw [le32_length]; omega) (by omega)]
    simp [store]
  · rw [read32_congr _ _ (src + 2) (by omega)
      (fun x h1 h2 => writeBytes_outside _ _ _ _ (by rw [hlen]; omega) (by omega))]
    exact read32_writeBytes _ _ _ (by omega) hv
  · intro i h1 h2
    rw [writeBytes_eq _ _ _ _ (by rw [hlen]; omega), hlen, if_pos (by omega),
      List.getD_eq_getElem?_getD, List.getElem?_replicate, if_pos (by omega)]
    rfl

theorem outside_site (w : World) (src len a : Nat) (b : MemoryBuffer) (hp : PatchSite w src len)
    (hb : b ∈ w.m_pages) (ha : inBuffer b a) : a < src ∨ src + len ≤ a := by
  by_contra hcon
  exact hp.apart b hb a ha (inPages_of_mem src len a (by omega) (by omega))

theorem handedOut_outside (p : Header) (w : World) (src len a : Nat) (hs : Sane p w)
    (hp : PatchSite w src len) (ha : handedOut w a) :
    (a < src ∨ src + len ≤ a) ∧ ¬ inPages src len (a / PAGE_SIZE) := by
  obtain ⟨b, hb, h1, h2⟩ := ha
  have hin : inBuffer b a := ⟨h1, lt_of_lt_of_le h2 (hs.buffers_ok b hb).next_le⟩
  exact ⟨outside_site w src len a b hp hb hin, hp.apart b hb a hin⟩

/-- The optional block `if ( storedAddr ){ ... }` of the two generators. -/
theorem preserve_stage (p : Header) (fuel : Nat) (w w1 : World)
    (src len n stored : Nat) (flag : Bool)
    (hh : HeaderOK p) (hs : Sane p w) (hp : PatchSite w src len) (hc : Committed w src len)
    (h : (if stored ≠ 0 then storeOriginal p fuel w src n stored else some (w, true))
          = some (w1, flag)) :
    Sane p w1 ∧ PatchSite w1 src len ∧ Committed w1 src len
      ∧ w1.log = w.log
      ∧ (∀ pg, inPages src len pg → w1.prot pg = w.prot pg)
      ∧ (∀ a, handedOut w a → handedOut w1 a)
      ∧ (flag = false → w1.mem = w.mem)
      ∧ (stored = 0 → w1.mem = w.mem)
      ∧ (flag = true → stored ≠ 0 →
          ∃ s, s ≠ 0
          ∧ IsInDistance s src p.MAX_DISTANCE = true
          ∧ s + p.MAX_PROBE_SIZE ≤ w.lpMaximumApplicationAddress + 1
          ∧ (∃ b ∈ w1.m_pages, b.m_base ≤ s ∧ b.m_next = s + p.MAX_PROBE_SIZE
              ∧ p.MAX_PROBE_SIZE ∣ s - b.m_base ∧ s + p.MAX_PROBE_SIZE ≤ b.m_base + b.m_size)
          ∧ (∀ a, s ≤ a → a < s + p.MAX_PROBE_SIZE → ¬ handedOut w a)
          ∧ (n + SIZE_OF_RELJUMP ≤ p.MAX_PROBE_SIZE → n ≤ len →
              OwnVariable w src len stored →
              read64 w1.mem stored = s
              ∧ (∀ a, handedOut w a ∨ inPages src len (a / PAGE_SIZE) → w1.mem a = w.mem a)
              ∧ (∀ a, a < stored ∨ stored + 8 ≤ a → a < s ∨ s + n + 5 ≤ a →
                  w1.mem a = w.mem a)
              ∧ (∀ i, i < n → w1.mem (s + i) = w.mem (src + i))
              ∧ w1.mem (s + n) = 0xE9
              ∧ read32 w1.mem (s + n + 1)
                  = subPtr (subPtr src s) SIZE_OF_RELJUMP % 4294967296)) := by
  by_cases hst : stored ≠ 0
  · rw [if_pos hst] at h
    obtain ⟨a1, a2, a3, a4, a5, a6, a7, a8⟩ :=
      storeOriginal_effect p fuel w w1 src len n stored flag hh hs hp hc h
    exact ⟨a1, a2, a3, a4, a5, a6, a7, fun h0 => absurd h0 hst, fun hf _ => a8 hf⟩
  · rw [if_neg hst] at h
    simp only [Option.some.injEq, Prod.mk.injEq] at h
    obtain ⟨rfl, rfl⟩ := h
    exact ⟨hs, hp, hc, rfl, fun _ _ => rfl, fun _ ha => ha, fun _ => rfl, fun _ => rfl,
      fun _ h0 => absurd h0 hst⟩

/-- The preserved code survives writes that stay inside the patch site. -/
theorem preserved_of_stage (p : Header) (w w1 : World) (m : Nat → Nat) (src len n s : Nat)
    (hh : HeaderOK p) (hs : Sane p w) (hp : PatchSite w src len) (hp1 : PatchSite w1 src len)
    (hfit : n + SIZE_OF_RELJUMP ≤ p.MAX_PROBE_SIZE) (hn : n ≤ len)
    (hd : IsInDistance s src p.MAX_DISTANCE = true)
    (hin : s + p.MAX_PROBE_SIZE ≤ w.lpMaximumApplicationAddress + 1)
    (hb : ∃ b ∈ w1.m_pages, b.m_base ≤ s ∧ b.m_next = s + p.MAX_PROBE_SIZE
              ∧ p.MAX_PROBE_SIZE ∣ s - b.m_base ∧ s + p.MAX_PROBE_SIZE ≤ b.m_base + b.m_size)
    (hcopy : ∀ i, i < n → w1.mem (s + i) = w.mem (src + i))
    (hop : w1.mem (s + n) = 0xE9)
    (hdisp : read32 w1.mem (s + n + 1) = subPtr (subPtr src s) SIZE_OF_RELJUMP % 4294967296)
    (hm : ∀ a, a < src ∨ src + len ≤ a → m a = w1.mem a) :
    Preserved p w { w1 with mem := m } src n s := by
  obtain ⟨b, hbm, hb1, hb2, hb3, hb4⟩ := hb
  have hmax := hs.user_space
  have hsp := hp.in_space
  have hfit' : n + 5 ≤ p.MAX_PROBE_SIZE := hfit
  have hslot : ∀ a, s ≤ a → a < s + p.MAX_PROBE_SIZE → m a = w1.mem a := fun a h1 h2 =>
    hm a (outside_site w1 src len a b hp1 hbm ⟨le_trans hb1 h1, by omega⟩)
  refine ⟨⟨b, hbm, hb1, hb2, hb3, hb4⟩, ?_, ?_, ?_⟩
  · intro i hi
    show m (s + i) = _
    rw [hslot _ (by omega) (by omega)]
    exact hcopy i hi
  · show m (s + n) = _
    rw [hslot _ (by omega) (by omega)]
    exact hop
  · show (s + n + SIZE_OF_RELJUMP + signExtend32 (read32 m (s + n + 1))) % _ = _
    rw [read32_congr w1.mem m (s + n + 1) (by omega)
      (fun x h1 h2 => hslot x (by omega) (by omega)), hdisp]
    have hx := (IsInDistance_exact s src p.MAX_DISTANCE (by omega)).1 hd
    have hmd := hh.distance
    exact jump_target s src SIZE_OF_RELJUMP n (by omega) (by omega) (by decide)
      (by unfold SIZE_OF_RELJUMP; omega) (by unfold SIZE_OF_RELJUMP; omega)

theorem InsertTrampoline32_effect (p : Header) (fuel : Nat) (w w' : World)
    (src tgt n stored len sz : Nat)
    (hh : HeaderOK p) (hs : Sane p w) (hp : PatchSite w src len) (hc : Committed w src len)
    (h : InsertTrampoline32 p fuel w src tgt n stored = some (w', sz)) :
    Sane p w' ∧ PatchSite w' src len ∧ Committed w' src len ∧ w'.log = w.log
      ∧ (∀ pg, inPages src len pg → w'.prot pg = w.prot pg)
      ∧ (∀ a, handedOut w a → handedOut w' a)
      ∧ (sz = 0 → w'.mem = w.mem)
      ∧ (sz ≠ 0 → sz = SIZE_OF_RELJUMP ∧ IsInDistance src tgt p.MAX_DISTANCE = true
          ∧ (SIZE_OF_RELJUMP ≤ len → n ≤ len →
              (stored ≠ 0 → n + SIZE_OF_RELJUMP ≤ p.MAX_PROBE_SIZE) →
              (stored ≠ 0 → OwnVariable w src len stored) →
              w'.mem src = 0xE9
              ∧ read32 w'.mem (src + 1) = subPtr (subPtr tgt src) SIZE_OF_RELJUMP % 4294967296
              ∧ (∀ i, SIZE_OF_RELJUMP ≤ i → i < n → w'.mem (src + i) = 0x90)
              ∧ (∀ a, handedOut w a → w'.mem a = w.mem a)
              ∧ (∀ a, a < src ∨ (src + SIZE_OF_RELJUMP ≤ a ∧ src + n ≤ a) →
                  inPages src len (a / PAGE_SIZE) → w'.mem a = w.mem a)
              ∧ (stored ≠ 0 → Preserved p w w' src n (read64 w'.mem stored))
              ∧ (∀ a, a < src ∨ (src + SIZE_OF_RELJUMP ≤ a ∧ src + n ≤ a) →
                  (stored ≠ 0 → (a < stored ∨ stored + 8 ≤ a)
                    ∧ (a < read64 w'.mem stored ∨ read64 w'.mem stored + n + 5 ≤ a)) →
                  w'.mem a = w.mem a))) := by
  unfold InsertTrampoline32 at h
  simp only at h
  by_cases hd : IsInDistance src tgt p.MAX_DISTANCE = false
  · rw [if_pos hd] at h
    simp only [Option.some.injEq, Prod.mk.injEq] at h
    obtain ⟨rfl, rfl⟩ := h
    exact ⟨hs, hp, hc, rfl, fun _ _ => rfl, fun _ ha => ha, fun _ => rfl,
      fun h0 => absurd rfl h0⟩
  · rw [if_neg hd] at h
    cases hr : (if stored ≠ 0 then storeOriginal p fuel w src n stored else some (w, true)) with
    | none => rw [hr] at h; simp at h
    | some r =>
      obtain ⟨w1, flag⟩ := r
      rw [hr] at h
      obtain ⟨a1, a2, a3, a4, a5, a6, a7, a7', a8⟩ :=
        preserve_stage p fuel w w1 src len n stored flag hh hs hp hc hr
      cases flag with
      | false =>
        simp only [Option.some.injEq, Prod.mk.injEq] at h
        obtain ⟨rfl, rfl⟩ := h
        exact ⟨a1, a2, a3, a4, a5, a6, fun _ => a7 rfl, fun h0 => absurd rfl h0⟩
      | true =>
        simp only [Option.some.injEq, Prod.mk.injEq] at h
        obtain ⟨rfl, rfl⟩ := h
        refine ⟨Sane_congr p w1 _ rfl rfl rfl rfl a1, PatchSite_congr w1 _ src len rfl rfl a2,
          Committed_congr w1 _ src len rfl a3, a4, a5, a6, fun h0 => absurd h0 (by decide), ?_⟩
        intro _
        refine ⟨rfl, by simpa using hd, ?_⟩
        intro h5 hn hfit hv
        have hmax := hs.user_space
        have hsp := hp.in_space
        have h5' : 5 ≤ len := h5
        obtain ⟨i1, i2, i3, i4⟩ := near_image w1.mem src n
          (subPtr (subPtr tgt src) SIZE_OF_RELJUMP % 4294967296) (by omega) (by omega)
          (Nat.mod_lt _ (by decide))
        have hout : ∀ a, a < src ∨ src + len ≤ a →
            writeBytes (writeBytes (store w1.mem (src % 18446744073709551616) 0xE9) (src + 1)
              (le32 (subPtr (subPtr tgt src) SIZE_OF_RELJUMP % 4294967296)))
              (src + SIZE_OF_RELJUMP) (List.replicate (n - SIZE_OF_RELJUMP) 0x90) a = w1.mem a :=
          fun a ha => i1 a (by omega)
        have hkeep : stored ≠ 0 →
            read64 (writeBytes (writeBytes (store w1.mem (src % 18446744073709551616) 0xE9)
              (src + 1) (le32 (subPtr (subPtr tgt src) SIZE_OF_RELJUMP % 4294967296)))
              (src + SIZE_OF_RELJUMP) (List.replicate (n - SIZE_OF_RELJUMP) 0x90)) stored
              = read64 w1.mem stored := by
          intro hst
          have hvs := (hv hst).in_space
          apply read64_congr _ _ stored (by omega)
          intro x h1 h2
          apply hout
          by_contra hcon
          exact (hv hst).off_site x h1 h2 (inPages_of_mem src len x (by omega) (by omega))
        have hfr : ∀ a, handedOut w a ∨ inPages src len (a / PAGE_SIZE) → w1.mem a = w.mem a := by
          intro a ha
          by_cases hst : stored = 0
          · rw [a7' hst]
          · obtain ⟨s, _, _, _, _, _, b5⟩ := a8 rfl hst
            exact (b5 (hfit hst) hn (hv hst)).2.1 a ha
        refine ⟨i2, i3, i4, ?_, ?_, ?_, ?_⟩
        · intro a ha
          show writeBytes _ _ _ a = _
          rw [hout a (handedOut_outside p w src len a hs hp ha).1]
          exact hfr a (Or.inl ha)
        · intro a ha hpg
          show writeBytes _ _ _ a = _
          rw [i1 a ha]
          exact hfr a (Or.inr hpg)
        · intro hst
          obtain ⟨s, b1, b2, b3, b4, _, b5⟩ := a8 rfl hst
          obtain ⟨e, _, _, b6, b7, b8⟩ := b5 (hfit hst) hn (hv hst)
          show Preserved p w _ src n (read64 (writeBytes _ _ _) stored)
          rw [hkeep hst, e]
          exact preserved_of_stage p w w1 _ src len n s hh hs hp a2
            (hfit hst) hn b2 b3 b4 b6 b7 b8 hout
        · intro a ha hvar
          show writeBytes _ _ _ a = _
          rw [i1 a ha]
          by_cases hst : stored = 0
          · rw [a7' hst]
          · obtain ⟨s, _, _, _, _, _, b5⟩ := a8 rfl hst
            obtain ⟨e, _, fr, _⟩ := b5 (hfit hst) hn (hv hst)
            have h2 : a < s ∨ s + n + 5 ≤ a := by
              have := (hvar hst).2
              rw [← e, ← hkeep hst]
              exact this
            exact fr a (hvar hst).1 h2

theorem InsertTrampoline64_effect (p : Header) (fuel : Nat) (w w' : World)
    (src tgt n stored len sz : Nat)
    (hh : HeaderOK p) (hs : Sane p w) (hp : PatchSite w src len) (hc : Committed w src len)
    (h : InsertTrampoline64 p fuel w src tgt n stored = some (w', sz)) :
    Sane p w' ∧ PatchSite w' src len ∧ Committed w' src len ∧ w'.log = w.log
      ∧ (∀ pg, inPages src len pg → w'.prot pg = w.prot pg)
      ∧ (∀ a, handedOut w a → handedOut w' a)
      ∧ (sz = 0 → ∀ a, handedOut w a ∨ inPages src len (a / PAGE_SIZE) → w'.mem a = w.mem a)
      ∧ (sz ≠ 0 → sz = SIZE_OF_INDJUMP
          ∧ (SIZE_OF_INDJUMP ≤ len → n ≤ len →
              (stored ≠ 0 → n + SIZE_OF_RELJUMP ≤ p.MAX_PROBE_SIZE) →
              (stored ≠ 0 → OwnVariable w src len stored) →
              tgt < 18446744073709551616 →
              w'.mem src = 0xFF ∧ w'.mem (src + 1) = 0x25
              ∧ (∃ location, location ≠ 0
                  ∧ (∃ w1, GetLocation p fuel w src = some (w1, location))
                  ∧ IsInDistance location src p.MAX_DISTANCE = true
                  ∧ location + p.MAX_PROBE_SIZE ≤ w.lpMaximumApplicationAddress + 1
                  ∧ (∀ a, location ≤ a → a < location + p.MAX_PROBE_SIZE →
                      ¬ handedOut w a ∧ handedOut w' a)
                  ∧ (stored ≠ 0 → location + p.MAX_PROBE_SIZE ≤ read64 w'.mem stored
                      ∨ read64 w'.mem stored + p.MAX_PROBE_SIZE ≤ location)
                  ∧ read32 w'.mem (src + 2)
                      = subPtr (subPtr location src) SIZE_OF_INDJUMP % 4294967296
                  ∧ read64 w'.mem location = tgt
                  ∧ (∀ a, a < src ∨ (src + SIZE_OF_INDJUMP ≤ a ∧ src + n ≤ a) →
                      a < location ∨ location + 8 ≤ a →
                      (stored ≠ 0 → (a < stored ∨ stored + 8 ≤ a)
                        ∧ (a < read64 w'.mem stored ∨ read64 w'.mem stored + n + 5 ≤ a)) →
                      w'.mem a = w.mem a))
              ∧ (∀ i, SIZE_OF_INDJUMP ≤ i → i < n → w'.mem (src + i) = 0x90)
              ∧ (∀ a, handedOut w a → w'.mem a = w.mem a)
              ∧ (∀ a, a < src ∨ (src + SIZE_OF_INDJUMP ≤ a ∧ src + n ≤ a) →
                  inPages src len (a / PAGE_SIZE) → w'.mem a = w.mem a)
              ∧ (stored ≠ 0 → Preserved p w w' src n (read64 w'.mem stored)))) := by
  unfold InsertTrampoline64 at h
  simp only at h
  cases hg : GetLocation p fuel w src with
  | none => rw [hg] at h; simp at h
  | some r =>
    obtain ⟨w1, location⟩ := r
    rw [hg] at h
    simp only at h
    obtain ⟨hs1, hp1, hc1, hm1, hl1, hpr1, hho1, hslot1⟩ :=
      GetLocation_site p fuel w w1 src len src location hs hp hc hg
    by_cases hz : location = 0
    · rw [if_pos hz] at h
      simp only [Option.some.injEq, Prod.mk.injEq] at h
      obtain ⟨rfl, rfl⟩ := h
      exact ⟨hs1, hp1, hc1, hl1, hpr1, hho1, fun _ a _ => by rw [hm1], fun h0 => absurd rfl h0⟩
    · rw [if_neg hz] at h
      obtain ⟨hd, hin, ⟨b, hb, hb1, hb2, hb3, hb4⟩, hfresh⟩ := hslot1 hz
      have hmax := hs.user_space
      have hsp := hp.in_space
      have h8 := hh.slot_width
      -- the world after `*locPtr = tgtAddr`
      have hloc : ∀ a, a < location ∨ location + 8 ≤ a →
          writeBytes w1.mem location (le64 tgt) a = w.mem a := by
        intro a ha
        rw [writeBytes_outside _ _ _ _ (by rw [le64_length]; omega) (by rw [le64_length]; omega),
          hm1]
      have hslotbuf : ∀ a, location ≤ a → a < location + p.MAX_PROBE_SIZE → inBuffer b a :=
        fun a h1 h2 => ⟨le_trans hb1 h1, by omega⟩
      have hslotho : ∀ a, location ≤ a → a < location + p.MAX_PROBE_SIZE → handedOut w1 a :=
        fun a h1 h2 => ⟨b, hb, le_trans hb1 h1, by omega⟩
      have hlocsite : ∀ a, inPages src len (a / PAGE_SIZE) →
          writeBytes w1.mem location (le64 tgt) a = w.mem a := by
        intro a ha
        apply hloc
        by_contra hcon
        exact hp1.apart b hb a (hslotbuf a (by omega) (by omega)) ha
      have hlocho : ∀ a, handedOut w a → writeBytes w1.mem location (le64 tgt) a = w.mem a := by
        intro a ha
        apply hloc
        by_contra hcon
        exact hfresh a (by omega) (by omega) ha
      cases hr : (if stored ≠ 0 then
          storeOriginal p fuel { w1 with mem := writeBytes w1.mem location (le64 tgt) }
            src n stored
          else some ({ w1 with mem := writeBytes w1.mem location (le64 tgt) }, true)) with
      | none => rw [hr] at h; simp at h
      | some r =>
        obtain ⟨w3, flag⟩ := r
        rw [hr] at h
        obtain ⟨a1, a2, a3, a4, a5, a6, a7, a7', a8⟩ :=
          preserve_stage p fuel { w1 with mem := writeBytes w1.mem location (le64 tgt) } w3
            src len n stored flag hh (Sane_congr p w1 _ rfl rfl rfl rfl hs1)
            (PatchSite_congr w1 _ src len rfl rfl hp1) (Committed_congr w1 _ src len rfl hc1) hr
        have hho3 : ∀ a, handedOut w a → handedOut w3 a := fun a ha => a6 a (hho1 a ha)
        have hprot3 : ∀ pg, inPages src len pg → w3.prot pg = w.prot pg := fun pg hpg =>
          (a5 pg hpg).trans (hpr1 pg hpg)
        cases flag with
        | false =>
          simp only [Option.some.injEq, Prod.mk.injEq] at h
          obtain ⟨rfl, rfl⟩ := h
          refine ⟨a1, a2, a3, a4.trans hl1, hprot3, hho3, ?_, fun h0 => absurd rfl h0⟩
          intro _ a ha
          rw [a7 rfl]
          rcases ha with ha | ha
          · exact hlocho a ha
          · exact hlocsite a ha
        | true =>
          simp only [Option.some.injEq, Prod.mk.injEq] at h
          obtain ⟨rfl, rfl⟩ := h
          refine ⟨Sane_congr p w3 _ rfl rfl rfl rfl a1, PatchSite_congr w3 _ src len rfl rfl a2,
            Committed_congr w3 _ src len rfl a3, a4.trans hl1, hprot3, hho3,
            fun h0 => absurd h0 (by decide), ?_⟩
          intro _
          refine ⟨rfl, ?_⟩
          intro h6 hn hfit hv htgt
          have h6' : 6 ≤ len := h6
          have hv2 : stored ≠ 0 →
              OwnVariable { w1 with mem := writeBytes w1.mem location (le64 tgt) }
                src len stored := fun hst =>
            OwnVariable_congr w1 _ src len stored rfl rfl rfl
              (GetLocation_variable p fuel w w1 src len src location stored hs (hv hst) hg)
          have hfr : ∀ a, handedOut w1 a ∨ inPages src len (a / PAGE_SIZE) →
              w3.mem a = writeBytes w1.mem location (le64 tgt) a := by
            intro a ha
            by_cases hst : stored = 0
            · rw [a7' hst]
            · obtain ⟨s, _, _, _, _, _, b5⟩ := a8 rfl hst
              exact (b5 (hfit hst) hn (hv2 hst)).2.1 a ha
          have hmem3 : ∀ a, handedOut w a → w3.mem a = w.mem a := fun a ha =>
            (hfr a (Or.inl (hho1 a ha))).trans (hlocho a ha)
          have hsite3 : ∀ a, inPages src len (a / PAGE_SIZE) → w3.mem a = w.mem a := fun a ha =>
            (hfr a (Or.inr ha)).trans (hlocsite a ha)
          obtain ⟨i1, i2, i3, i4, i5⟩ := far_image w3.mem src n
            (subPtr (subPtr location src) SIZE_OF_INDJUMP % 4294967296) (by omega) (by omega)
            (Nat.mod_lt _ (by decide))
          have hout : ∀ a, a < src ∨ src + len ≤ a →
              writeBytes (writeBytes (store (store w3.mem (src % 18446744073709551616) 0xFF)
                ((src + 1) % 18446744073709551616) 0x25) (src + 2)
                (le32 (subPtr (subPtr location src) SIZE_OF_INDJUMP % 4294967296)))
                (src + SIZE_OF_INDJUMP) (List.replicate (n - SIZE_OF_INDJUMP) 0x90) a
                = w3.mem a :=
            fun a ha => i1 a (by omega)
          have hkeep : stored ≠ 0 →
              read64 (writeBytes (writeBytes (store (store w3.mem (src % 18446744073709551616)
                0xFF) ((src + 1) % 18446744073709551616) 0x25) (src + 2)
                (le32 (subPtr (subPtr location src) SIZE_OF_INDJUMP % 4294967296)))
                (src + SIZE_OF_INDJUMP) (List.replicate (n - SIZE_OF_INDJUMP) 0x90)) stored
                = read64 w3.mem stored := by
            intro hst
            have hvs := (hv hst).in_space
            apply read64_congr _ _ stored (by omega)
            intro x h1 h2
            apply hout
            by_contra hcon
            exact (hv hst).off_site x h1 h2 (inPages_of_mem src len x (by omega) (by omega))
          refine ⟨i2, i3, ⟨location, hz, ⟨w1, rfl⟩, hd, hin, ?_, ?_, i4, ?_, ?_⟩, i5, ?_, ?_, ?_⟩
          · intro a h1 h2
            exact ⟨hfresh a h1 h2, a6 a (hslotho a h1 h2)⟩
          · intro hst
            obtain ⟨s, b1, b2, b3, b4, bfresh, b5⟩ := a8 rfl hst
            obtain ⟨e, _⟩ := b5 (hfit hst) hn (hv2 hst)
            show location + p.MAX_PROBE_SIZE ≤ read64 (writeBytes _ _ _) stored
              ∨ read64 (writeBytes _ _ _) stored + p.MAX_PROBE_SIZE ≤ location
            rw [hkeep hst, e]
            by_contra hcon
            exact bfresh (max location s) (by omega) (by omega)
              (hslotho _ (by omega) (by omega))
          · rw [read64_congr w3.mem _ location (by omega)
              (fun x h1 h2 => hout x (outside_site w1 src len x b hp1 hb
                (hslotbuf x h1 (by omega)))),
              read64_congr _ w3.mem location (by omega)
              (fun x h1 h2 => hfr x (Or.inl (hslotho x h1 (by omega))))]
            exact read64_writeBytes _ _ _ (by omega) htgt
          · intro a ha hl hvar
            show writeBytes _ _ _ a = _
            rw [i1 a ha]
            by_cases hst : stored = 0
            · rw [a7' hst]
              exact hloc a hl
            · obtain ⟨s, _, _, _, _, _, b5⟩ := a8 rfl hst
              obtain ⟨e, _, fr, _⟩ := b5 (hfit hst) hn (hv2 hst)
              have h2 : a < s ∨ s + n + 5 ≤ a := by
                have := (hvar hst).2
                rw [← e, ← hkeep hst]
                exact this
              rw [fr a (hvar hst).1 h2]
              exact hloc a hl
          · intro a ha
            show writeBytes _ _ _ a = _
            rw [hout a (handedOut_outside p w src len a hs hp ha).1]
            exact hmem3 a ha
          · intro a ha hpg
            show writeBytes _ _ _ a = _
            rw [i1 a ha]
            exact hsite3 a hpg
          · intro hst
            obtain ⟨s, b1, b2, b3, b4, _, b5⟩ := a8 rfl hst
            obtain ⟨e, _, _, b6, b7, b8⟩ := b5 (hfit hst) hn (hv2 hst)
            show Preserved p w _ src n (read64 (writeBytes _ _ _) stored)
            rw [hkeep hst, e]
            have hpre := preserved_of_stage p
              { w1 with mem := writeBytes w1.mem location (le64 tgt) } w3 _ src len n
              s hh (Sane_congr p w1 _ rfl rfl rfl rfl hs1)
              (PatchSite_congr w1 _ src len rfl rfl hp1) a2
              (hfit hst) hn b2 b3 b4 b6 b7 b8 hout
            obtain ⟨q1, q2, q3, q4⟩ := hpre
            refine ⟨q1, ?_, q3, q4⟩
            intro i hi
            rw [q2 i hi]
            exact hlocsite (src + i) (inPages_of_mem src len _ (by omega) (by omega))

/-! ### Pages that are not free keep their state -/

theorem GetLocation_state (p : Header) (fuel : Nat) (w w1 : World) (addr s : Nat)
    (h : GetLocation p fuel w addr = some (w1, s)) :
    ∀ pg, w.state pg ≠ MEM_FREE → w1.state pg = w.state pg := by
  obtain ⟨oi, hsv⟩ := GetLocation_some p fuel w w1 addr s h
  rcases served_cases p fuel w addr _ hsv with ⟨_, h0⟩ | ⟨l1, b, l2, _, _, _, hb⟩
      | ⟨newAddr, _, _, _, _, hz, hb⟩
  · simp only [Prod.mk.injEq] at h0
    obtain ⟨rfl, _, _⟩ := h0
    exact fun _ _ => rfl
  · simp only [Prod.mk.injEq] at hb
    obtain ⟨rfl, _, _⟩ := hb
    exact fun _ _ => rfl
  · simp only [Prod.mk.injEq] at hb
    obtain ⟨rfl, _, _⟩ := hb
    obtain ⟨he, _, _, _, hfree⟩ := VirtualAlloc_ok _ _ _ _ hz
    rw [allPages_iff] at hfree
    intro pg hpg
    rw [he]
    show (if _ then MEM_COMMIT else w.state pg) = _
    rw [if_neg (fun hin => hpg (hfree pg hin))]

theorem storeOriginal_state (p : Header) (fuel : Nat) (w w1 : World)
    (src n stored : Nat) (flag : Bool)
    (h : storeOriginal p fuel w src n stored = some (w1, flag)) :
    ∀ pg, w.state pg ≠ MEM_FREE → w1.state pg = w.state pg := by
  obtain ⟨wg, s, hg, hcase⟩ := storeOriginal_cases p fuel w w1 src n stored flag h
  have hst := GetLocation_state p fuel w wg src s hg
  rcases hcase with ⟨_, _, rfl⟩ | ⟨_, _, _, rfl⟩ | ⟨_, _, m0, m1, m2, _, _, _, _, rfl⟩
  · exact hst
  · exact hst
  · exact hst

theorem preserve_stage_state (p : Header) (fuel : Nat) (w w1 : World)
    (src n stored : Nat) (flag : Bool)
    (h : (if stored ≠ 0 then storeOriginal p fuel w src n stored else some (w, true))
          = some (w1, flag)) :
    ∀ pg, w.state pg ≠ MEM_FREE → w1.state pg = w.state pg := by
  by_cases hst : stored ≠ 0
  · rw [if_pos hst] at h
    exact storeOriginal_state p fuel w w1 src n stored flag h
  · rw [if_neg hst] at h
    simp only [Option.some.injEq, Prod.mk.injEq] at h
    obtain ⟨rfl, _⟩ := h
    exact fun _ _ => rfl

theorem InsertTrampoline32_state (p : Header) (fuel : Nat) (w w' : World)
    (src tgt n stored sz : Nat)
    (h : InsertTrampoline32 p fuel w src tgt n stored = some (w', sz)) :
    ∀ pg, w.state pg ≠ MEM_FREE → w'.state pg = w.state pg := by
  unfold InsertTrampoline32 at h
  simp only at h
  by_cases hd : IsInDistance src tgt p.MAX_DISTANCE = false
  · rw [if_pos hd] at h
    simp only [Option.some.injEq, Prod.mk.injEq] at h
    obtain ⟨rfl, _⟩ := h
    exact fun _ _ => rfl
  · rw [if_neg hd] at h
    cases hr : (if stored ≠ 0 then storeOriginal p fuel w src n stored else some (w, true)) with
    | none => rw [hr] at h; simp at h
    | some r =>
      obtain ⟨w1, flag⟩ := r
      rw [hr] at h
      have hst := preserve_stage_state p fuel w w1 src n stored flag hr
      cases flag with
      | false =>
        simp only [Option.some.injEq, Prod.mk.injEq] at h
        obtain ⟨rfl, _⟩ := h
        exact hst
      | true =>
        simp only [Option.some.injEq, Prod.mk.injEq] at h
        obtain ⟨rfl, _⟩ := h
        exact hst

theorem InsertTrampoline64_state (p : Header) (fuel : Nat) (w w' : World)
    (src tgt n stored sz : Nat)
    (h : InsertTrampoline64 p fuel w src tgt n stored = some (w', sz)) :
    ∀ pg, w.state pg ≠ MEM_FREE → w'.state pg = w.state pg := by
  unfold InsertTrampoline64 at h
  simp only at h
  cases hg : GetLocation p fuel w src with
  | none => rw [hg] at h; simp at h
  | some r =>
    obtain ⟨w1, location⟩ := r
    rw [hg] at h
    simp only at h
    have hst1 := GetLocation_state p fuel w w1 src location hg
    by_cases hz : location = 0
    · rw [if_pos hz] at h
      simp only [Option.some.injEq, Prod.mk.injEq] at h
      obtain ⟨rfl, _⟩ := h
      exact hst1
    · rw [if_neg hz] at h
      cases hr : (if stored ≠ 0 then
          storeOriginal p fuel { w1 with mem := writeBytes w1.mem location (le64 tgt) }
            src n stored
          else some ({ w1 with mem := writeBytes w1.mem location (le64 tgt) }, true)) with
      | none => rw [hr] at h; simp at h
      | some r =>
        obtain ⟨w3, flag⟩ := r
        rw [hr] at h
        have hst3 := preserve_stage_state p fuel _ w3 src n stored flag hr
        have hst : ∀ pg, w.state pg ≠ MEM_FREE → w3.state pg = w.state pg := by
          intro pg hpg
          have e1 := hst1 pg hpg
          have e3 := hst3 pg (by show w1.state pg ≠ MEM_FREE; rw [e1]; exact hpg)
          exact e3.trans e1
        cases flag with
        | false =>
          simp only [Option.some.injEq, Prod.mk.injEq] at h
          obtain ⟨rfl, _⟩ := h
          exact hst
        | true =>
          simp only [Option.some.injEq, Prod.mk.injEq] at h
          obtain ⟨rfl, _⟩ := h
          exact hst

/-! ### The orchestrator -/

theorem inPages_first (src len : Nat) (hlen : 0 < len) : inPages src len (src / PAGE_SIZE) := by
  unfold inPages PAGE_SIZE
  constructor <;> omega

/-- What `InsertTrampoline` does around the two generators: when the first
`VirtualProtect` succeeds, the generators run in worlds `w2` and `w3` and the
final world is `w3` with the protection of the patch range set back. -/
theorem InsertTrampoline_cases (p : Header) (fuel : Nat) (w w' : World)
    (src tgt n orig : Nat) (ok : Bool)
    (h : InsertTrampoline p fuel w src tgt n orig = some (w', ok)) :
    (¬ Committed w src p.MAX_PROBE_SIZE ∧ w' = w ∧ ok = false)
    ∨ (Committed w src p.MAX_PROBE_SIZE ∧
        ∃ w2 s32 w3 sz,
          InsertTrampoline32 p fuel
            (record
              { w with
                prot := fun pg =>
                  if inPages src p.MAX_PROBE_SIZE pg then PAGE_EXECUTE_WRITECOPY else w.prot pg }
              (Event.insertTrampoline32 src tgt)) src tgt n orig = some (w2, s32)
          ∧ ((s32 ≠ 0 ∧ w3 = w2 ∧ sz = s32)
              ∨ (s32 = 0 ∧ InsertTrampoline64 p fuel
                  (record w2 (Event.insertTrampoline64 src tgt)) src tgt n orig = some (w3, sz)))
          ∧ Committed w3 src p.MAX_PROBE_SIZE
          ∧ ok = decide (sz ≠ 0)
          ∧ w'.mem = w3.mem ∧ w'.m_pages = w3.m_pages
          ∧ w'.state = w3.state
          ∧ w'.prot = (fun pg =>
              if inPages src p.MAX_PROBE_SIZE pg then w.prot (src / PAGE_SIZE) else w3.prot pg)
          ∧ w'.log = w3.log ++ (if sz = 0 then [] else
              [Event.flushInstructionCache src sz, Event.flushInstructionCache orig sz])) := by
  unfold InsertTrampoline at h
  cases hv : VirtualProtect w src p.MAX_PROBE_SIZE PAGE_EXECUTE_WRITECOPY with
  | none =>
    rw [hv] at h
    simp only [Option.some.injEq, Prod.mk.injEq] at h
    exact Or.inl ⟨VirtualProtect_none _ _ _ _ hv, h.1.symm, h.2.symm⟩
  | some r =>
    obtain ⟨w1, origProt⟩ := r
    rw [hv] at h
    obtain ⟨rfl, rfl, hc⟩ := VirtualProtect_some _ _ _ _ _ _ hv
    simp only at h
    right
    refine ⟨hc, ?_⟩
    have hfree : MEM_COMMIT ≠ MEM_FREE := by decide
    cases h32 : InsertTrampoline32 p fuel
        (record
          { w with
            prot := fun pg =>
              if inPages src p.MAX_PROBE_SIZE pg then PAGE_EXECUTE_WRITECOPY else w.prot pg }
          (Event.insertTrampoline32 src tgt)) src tgt n orig with
    | none => rw [h32] at h; simp at h
    | some r2 =>
      obtain ⟨w2, s32⟩ := r2
      rw [h32] at h
      simp only at h
      have hst2 := InsertTrampoline32_state p fuel _ w2 src tgt n orig s32 h32
      have hc2 : Committed w2 src p.MAX_PROBE_SIZE := by
        intro pg hpg
        rw [hst2 pg (by show w.state pg ≠ MEM_FREE; rw [hc pg hpg]; exact hfree)]
        exact hc pg hpg
      cases hgen : (if s32 = 0 then
          InsertTrampoline64 p fuel (record w2 (Event.insertTrampoline64 src tgt)) src tgt n orig
          else some (w2, s32)) with
      | none => rw [hgen] at h; simp at h
      | some r3 =>
        obtain ⟨w3, sz⟩ := r3
        rw [hgen] at h
        simp only at h
        have hc3 : Committed w3 src p.MAX_PROBE_SIZE := by
          by_cases hs0 : s32 = 0
          · rw [if_pos hs0] at hgen
            have hst3 := InsertTrampoline64_state p fuel _ w3 src tgt n orig sz hgen
            intro pg hpg
            rw [hst3 pg (by show w2.state pg ≠ MEM_FREE; rw [hc2 pg hpg]; exact hfree)]
            exact hc2 pg hpg
          · rw [if_neg hs0] at hgen
            simp only [Option.some.injEq, Prod.mk.injEq] at hgen
            rw [← hgen.1]; exact hc2
        rw [VirtualProtect_of_committed w3 src p.MAX_PROBE_SIZE _ hc3] at h
        simp only at h
        refine ⟨w2, s32, w3, sz, rfl, ?_, hc3, ?_⟩
        · by_cases hs0 : s32 = 0
          · rw [if_pos hs0] at hgen
            exact Or.inr ⟨hs0, hgen⟩
          · rw [if_neg hs0] at hgen
            simp only [Option.some.injEq, Prod.mk.injEq] at hgen
            exact Or.inl ⟨hs0, hgen.1.symm, hgen.2.symm⟩
        · by_cases hsz : sz = 0
          · rw [if_pos hsz] at h
            simp only [Option.some.injEq, Prod.mk.injEq] at h
            obtain ⟨rfl, rfl⟩ := h
            simp [hsz]
          · rw [if_neg hsz] at h
            simp only [Option.some.injEq, Prod.mk.injEq] at h
            obtain ⟨rfl, rfl⟩ := h
            simp [hsz, record]

/-- C2: after a successful `InsertTrampoline64`, with or without preserved
bytes, the patch site holds `FF 25 d`, the address
`L = src + 6 + signExtend32 d` is the first location obtained from the
provider, the 64-bit value stored at `L` is the replacement address, and the
slot of the preserved bytes, whose address is read from `*storedAddr`, does not
overlap the slot at `L`.  The process is sane, the patched code
`[src, src + len)` is committed memory apart from the trampoline buffers, the
preserved bytes with their back jump fit a slot, and the caller's variable,
when there is one, is committed memory outside the trampoline buffers and off
the pages of the patched code. -/
theorem InsertTrampoline64_jump_through_slot (p : Header) (fuel : Nat) (w w' : World)
    (src tgt n stored len sz : Nat)
    (hh : HeaderOK p) (hs : Sane p w) (hp : PatchSite w src len) (hc : Committed w src len)
    (h6 : SIZE_OF_INDJUMP ≤ len) (hn : n ≤ len)
    (hfit : stored ≠ 0 → n + SIZE_OF_RELJUMP ≤ p.MAX_PROBE_SIZE)
    (hv : stored ≠ 0 → OwnVariable w src len stored)
    (htgt : tgt < 18446744073709551616)
    (h : InsertTrampoline64 p fuel w src tgt n stored = some (w', sz)) (hsz : sz ≠ 0) :
    w'.mem src = 0xFF ∧ w'.mem (src + 1) = 0x25
      ∧ (∃ w1, GetLocation p fuel w src
          = some (w1, (src + 6 + signExtend32 (read32 w'.mem (src + 2))) % 18446744073709551616))
      ∧ read64 w'.mem ((src + 6 + signExtend32 (read32 w'.mem (src + 2))) % 18446744073709551616)
          = tgt
      ∧ (stored ≠ 0 →
          (src + 6 + signExtend32 (read32 w'.mem (src + 2))) % 18446744073709551616
              + p.MAX_PROBE_SIZE ≤ read64 w'.mem stored
          ∨ read64 w'.mem stored + p.MAX_PROBE_SIZE
              ≤ (src + 6 + signExtend32 (read32 w'.mem (src + 2))) % 18446744073709551616) := by
  obtain ⟨_, _, _, _, _, _, _, hok⟩ :=
    InsertTrampoline64_effect p fuel w w' src tgt n stored len sz hh hs hp hc h
  obtain ⟨_, hmem⟩ := hok hsz
  obtain ⟨e1, e2, ⟨location, _, hget, hd, hin, _, hapart, hdisp, hval, _⟩, _⟩ :=
    hmem h6 hn hfit hv htgt
  have hmax := hs.user_space
  have hsp := hp.in_space
  have h8 := hh.slot_width
  have hmd := hh.distance
  have hx := (IsInDistance_exact location src p.MAX_DISTANCE (by omega)).1 hd
  have hL : (src + 6 + signExtend32 (read32 w'.mem (src + 2))) % 18446744073709551616
      = location := by
    rw [hdisp]
    have := jump_target src location SIZE_OF_INDJUMP 0 (by omega) (by omega) (by decide)
      (by unfold SIZE_OF_INDJUMP; omega) (by unfold SIZE_OF_INDJUMP; omega)
    simpa [SIZE_OF_INDJUMP] using this
  rw [hL]
  exact ⟨e1, e2, hget, hval, hapart⟩

/-- Witness of `InsertTrampoline64_jump_through_slot`: a far install with
preserved bytes in the demo process. -/
theorem InsertTrampoline64_jump_through_slot_witness :
    read64 demoFar.1.mem
        ((65552 + 6 + signExtend32 (read32 demoFar.1.mem (65552 + 2))) % 18446744073709551616)
      = 140668768878592 :=
  (InsertTrampoline64_jump_through_slot tbbHeader 4 demoWorld demoFar.1 65552 140668768878592
    5 126976 32 demoFar.2 tbbHeader_ok demoWorld_sane demoWorld_site demoWorld_committed
    (by decide) (by decide) (fun _ => by decide) (fun _ => demoWorld_variable) (by decide)
    (some_getD_of_isSome
      (InsertTrampoline64 tbbHeader 4 demoWorld 65552 140668768878592 5 126976) (demoWorld, 0)
      (by decide))
    (by decide)).2.2.2.1

/-- Outside the application address range the distance test can pass for a
replacement that no 32-bit displacement reaches: with the replacement at
distance `2 ^ 63` from the patch site `0x10010`, `InsertTrampoline32` reports
success (size 5) and leaves `E9 d` at the patch site, but
`src + 5 + signExtend32 d` is the patch site itself and not the address
`2 ^ 63 + 0x10010`. -/
theorem InsertTrampoline32_misses_target_at_two_pow_63 :
    (InsertTrampoline32 tbbHeader 0 demoWorld 65552 9223372036854841360 5 0).map
        (fun r => (r.2, r.1.mem 65552,
          (65552 + 5 + signExtend32 (read32 r.1.mem (65552 + 1))) % 18446744073709551616))
      = some (5, 0xE9, 65552)
    ∧ (65552 : Nat) ≠ 9223372036854841360 := by
  decide

theorem demoWorldNoAlloc_sane : Sane tbbHeader demoWorldNoAlloc :=
  Sane_congr tbbHeader demoWorld _ rfl rfl rfl rfl demoWorld_sane

theorem demoWorldNoAlloc_site : PatchSite demoWorldNoAlloc 65552 32 :=
  PatchSite_congr demoWorld _ 65552 32 rfl rfl demoWorld_site

/-- C4: when `InsertTrampoline` reports failure, the bytes of the patch site
`[src, src + len)` and the protection of the page of `src` are what they were
before the call.  The process is sane and the patch site shares no page with a
trampoline buffer; it is committed memory as soon as `VirtualProtect` accepts its
first `MAX_PROBE_SIZE` bytes. -/
theorem InsertTrampoline_failure_leaves_patch_site (p : Header) (fuel : Nat) (w w' : World)
    (src tgt n orig len : Nat)
    (hh : HeaderOK p) (hs : Sane p w) (hp : PatchSite w src len)
    (hc : Committed w src p.MAX_PROBE_SIZE → Committed w src len)
    (h : InsertTrampoline p fuel w src tgt n orig = some (w', false)) :
    (∀ a, src ≤ a → a < src + len → w'.mem a = w.mem a)
      ∧ w'.prot (src / PAGE_SIZE) = w.prot (src / PAGE_SIZE) := by
  have hpos : 0 < p.MAX_PROBE_SIZE := by have := hh.slot_width; omega
  rcases InsertTrampoline_cases p fuel w w' src tgt n orig false h with
    ⟨_, rfl, _⟩ | ⟨hcm, w2, s32, w3, sz, h32, hgen, _, hok, hmem, _, _, hprot, _⟩
  · exact ⟨fun _ _ _ => rfl, rfl⟩
  · have hsz : sz = 0 := by
      by_contra hne
      simp [hne] at hok
    refine ⟨?_, ?_⟩
    · intro a ha1 ha2
      rw [hmem]
      have e32 := fun hsA hpA hcA =>
        InsertTrampoline32_effect p fuel _ w2 src tgt n orig len s32 hh hsA hpA hcA h32
      obtain ⟨s2, p2, c2, _, _, _, hm2, _⟩ := e32 (Sane_congr p w _ rfl rfl rfl rfl hs)
        (PatchSite_congr w _ src len rfl rfl hp) (Committed_congr w _ src len rfl (hc hcm))
      rcases hgen with ⟨hne, _, hsz'⟩ | ⟨hs0, h64⟩
      · exact absurd (hsz'.symm.trans hsz) hne
      · have e64 := fun hsA hpA hcA =>
          InsertTrampoline64_effect p fuel _ w3 src tgt n orig len sz hh hsA hpA hcA h64
        obtain ⟨_, _, _, _, _, _, hm3, _⟩ := e64 (Sane_congr p w2 _ rfl rfl rfl rfl s2)
          (PatchSite_congr w2 _ src len rfl rfl p2) (Committed_congr w2 _ src len rfl c2)
        rw [hm3 hsz a (Or.inr (inPages_of_mem src len a ha1 ha2))]
        show w2.mem a = _
        rw [hm2 hs0]
        rfl
    · rw [hprot]
      simp only
      rw [if_pos (inPages_first src _ hpos)]

/-- Witness of `InsertTrampoline_failure_leaves_patch_site`: a far install that
fails in the demo process because no trampoline memory can be allocated. -/
theorem InsertTrampoline_failure_leaves_patch_site_witness :
    (∀ a, 65552 ≤ a → a < 65552 + 32 → demoFailed.1.mem a = demoWorldNoAlloc.mem a)
      ∧ demoFailed.1.prot (65552 / PAGE_SIZE) = demoWorldNoAlloc.prot (65552 / PAGE_SIZE) :=
  InsertTrampoline_failure_leaves_patch_site tbbHeader 4 demoWorldNoAlloc demoFailed.1
    65552 140668768878592 5 126976 32 tbbHeader_ok demoWorldNoAlloc_sane demoWorldNoAlloc_site
    (fun h => h)
    (some_getD_of_isSome
      (InsertTrampoline tbbHeader 4 demoWorldNoAlloc 65552 140668768878592 5 126976)
      (demoWorld, true) (by decide))

theorem InsertTrampoline_prot (p : Header) (fuel : Nat) (w w' : World)
    (src tgt n orig : Nat) (ok : Bool) (hpos : 0 < p.MAX_PROBE_SIZE)
    (h : InsertTrampoline p fuel w src tgt n orig = some (w', ok)) :
    w'.prot (src / PAGE_SIZE) = w.prot (src / PAGE_SIZE) := by
  rcases InsertTrampoline_cases p fuel w w' src tgt n orig ok h with
    ⟨_, rfl, _⟩ | ⟨_, w2, s32, w3, sz, _, _, _, _, _, _, _, hprot, _⟩
  · rfl
  · rw [hprot]
    simp only
    rw [if_pos (inPages_first src _ hpos)]

/-! ### The entry points -/

theorem ReplaceFunctionA_eq (p : Header) (fuel : Nat) (w : World) (dllName : Option (List Nat))
    (funcName : List Nat) (newFunc n orig : Nat) :
    ReplaceFunctionA p fuel w dllName funcName newFunc n orig =
      if dllName = none ∨ dllName = some [] then some (w, FRR_TYPE.FRR_NODLL)
      else if lookupNeededA w (dllName.getD []) ∧ w.modulesA (dllName.getD []) = 0 then
        some ({ record w (Event.getModuleHandleA (dllName.getD [])) with cachedHMA := 0 },
              FRR_TYPE.FRR_NODLL)
      else if patchSiteA w dllName funcName = 0 then
        some (atPatchA w (dllName.getD []) funcName, FRR_TYPE.FRR_NOFUNC)
      else
        (InsertTrampoline p fuel (atPatchA w (dllName.getD []) funcName)
            (patchSiteA w dllName funcName) newFunc n orig).map
          (fun r => (r.1, if r.2 then FRR_TYPE.FRR_OK else FRR_TYPE.FRR_FAILED)) := by
  cases dllName with
  | none => simp [ReplaceFunctionA]
  | some name =>
    by_cases hn : name = []
    · simp [ReplaceFunctionA, hn]
    · have hl0 : lookupNeededA w name ↔
          (w.cachedHMA = 0 ∨ name.take MAX_PATH ≠ w.cachedNameA.take MAX_PATH) := Iff.rfl
      by_cases hl : lookupNeededA w name
      · have hl' := hl0.1 hl
        by_cases hm : w.modulesA name = 0
        · simp [ReplaceFunctionA, hn, hl, hl', hm]
        · by_cases hf : w.exports (w.modulesA name) funcName = 0
          · simp [ReplaceFunctionA, hn, hl, hl', hm, hf, patchSiteA, resolvedA, atPatchA, record]
          · simp only [ReplaceFunctionA, hn, hl, hl', hm, hf, patchSiteA, resolvedA, atPatchA,
              record, if_true, if_false, Option.getD_some, and_false, false_or, reduceCtorEq]
            cases InsertTrampoline p fuel _ _ newFunc n orig with
            | none => simp [hn]
            | some r => obtain ⟨w3, b⟩ := r; cases b <;> simp [hn]
      · have hl' : ¬ (w.cachedHMA = 0 ∨ name.take MAX_PATH ≠ w.cachedNameA.take MAX_PATH) :=
          fun h => hl (hl0.2 h)
        by_cases hf : w.exports w.cachedHMA funcName = 0
        · simp [ReplaceFunctionA, hn, hl, hl', hf, patchSiteA, resolvedA, atPatchA, record]
        · simp only [ReplaceFunctionA, hn, hl, hl', hf, patchSiteA, resolvedA, atPatchA,
            record, if_true, if_false, Option.getD_some, false_and, false_or, reduceCtorEq]
          cases InsertTrampoline p fuel _ _ newFunc n orig with
          | none => simp [hn]
          | some r => obtain ⟨w3, b⟩ := r; cases b <;> simp [hn]

theorem ReplaceFunctionW_eq (p : Header) (fuel : Nat) (w : World) (dllName : Option (List Nat))
    (funcName : List Nat) (newFunc n orig : Nat) :
    ReplaceFunctionW p fuel w dllName funcName newFunc n orig =
      if dllName = none ∨ dllName = some [] then some (w, FRR_TYPE.FRR_NODLL)
      else if lookupNeededW w (dllName.getD []) ∧ w.modulesW (dllName.getD []) = 0 then
        some ({ record w (Event.getModuleHandleW (dllName.getD [])) with cachedHMW := 0 },
              FRR_TYPE.FRR_NODLL)
      else if patchSiteW w dllName funcName = 0 then
        some (atPatchW w (dllName.getD []) funcName, FRR_TYPE.FRR_NOFUNC)
      else
        (InsertTrampoline p fuel (atPatchW w (dllName.getD []) funcName)
            (patchSiteW w dllName funcName) newFunc n orig).map
          (fun r => (r.1, if r.2 then FRR_TYPE.FRR_OK else FRR_TYPE.FRR_FAILED)) := by
  cases dllName with
  | none => simp [ReplaceFunctionW]
  | some name =>
    by_cases hn : name = []
    · simp [ReplaceFunctionW, hn]
    · have hl0 : lookupNeededW w name ↔
          (w.cachedHMW = 0 ∨ name.take MAX_PATH ≠ w.cachedNameW.take MAX_PATH) := Iff.rfl
      by_cases hl : lookupNeededW w name
      · have hl' := hl0.1 hl
        by_cases hm : w.modulesW name = 0
        · simp [ReplaceFunctionW, hn, hl, hl', hm]
        · by_cases hf : w.exports (w.modulesW name) funcName = 0
          · simp [ReplaceFunctionW, hn, hl, hl', hm, hf, patchSiteW, resolvedW, atPatchW, record]
          · simp only [ReplaceFunctionW, hn, hl, hl', hm, hf, patchSiteW, resolvedW, atPatchW,
              record, if_true, if_false, Option.getD_some, and_false, false_or, reduceCtorEq]
            cases InsertTrampoline p fuel _ _ newFunc n orig with
            | none => simp [hn]
            | some r => obtain ⟨w3, b⟩ := r; cases b <;> simp [hn]
      · have hl' : ¬ (w.cachedHMW = 0 ∨ name.take MAX_PATH ≠ w.cachedNameW.take MAX_PATH) :=
          fun h => hl (hl0.2 h)
        by_cases hf : w.exports w.cachedHMW funcName = 0
        · simp [ReplaceFunctionW, hn, hl, hl', hf, patchSiteW, resolvedW, atPatchW, record]
        · simp only [ReplaceFunctionW, hn, hl, hl', hf, patchSiteW, resolvedW, atPatchW,
            record, if_true, if_false, Option.getD_some, false_and, false_or, reduceCtorEq]
          cases InsertTrampoline p fuel _ _ newFunc n orig with
          | none => simp [hn]
          | some r => obtain ⟨w3, b⟩ := r; cases b <;> simp [hn]

theorem atPatchA_fields (w : World) (name funcName : List Nat) :
    (atPatchA w name funcName).prot = w.prot ∧ (atPatchA w name funcName).mem = w.mem := by
  unfold atPatchA record
  split_ifs <;> exact ⟨rfl, rfl⟩

theorem atPatchW_fields (w : World) (name funcName : List Nat) :
    (atPatchW w name funcName).prot = w.prot ∧ (atPatchW w name funcName).mem = w.mem := by
  unfold atPatchW record
  split_ifs <;> exact ⟨rfl, rfl⟩

/-- C5: after a call of `ReplaceFunctionA` or `ReplaceFunctionW`, whatever the
status, the page of the patch site has the protection it had before the call. -/
theorem ReplaceFunction_restores_protection (p : Header) (fuel : Nat) (w w' : World)
    (dllName : Option (List Nat)) (funcName : List Nat) (newFunc n orig : Nat) (st : FRR_TYPE)
    (hpos : 0 < p.MAX_PROBE_SIZE) :
    (ReplaceFunctionA p fuel w dllName funcName newFunc n orig = some (w', st) →
        w'.prot (patchSiteA w dllName funcName / PAGE_SIZE)
          = w.prot (patchSiteA w dllName funcName / PAGE_SIZE))
    ∧ (ReplaceFunctionW p fuel w dllName funcName newFunc n orig = some (w', st) →
        w'.prot (patchSiteW w dllName funcName / PAGE_SIZE)
          = w.prot (patchSiteW w dllName funcName / PAGE_SIZE)) := by
  constructor
  · intro h
    rw [ReplaceFunctionA_eq] at h
    split_ifs at h
    · simp only [Option.some.injEq, Prod.mk.injEq] at h
      rw [← h.1]
    · simp only [Option.some.injEq, Prod.mk.injEq] at h
      rw [← h.1]; rfl
    · simp only [Option.some.injEq, Prod.mk.injEq] at h
      rw [← h.1, (atPatchA_fields w _ funcName).1]
    · simp only [Option.map_eq_some', Prod.mk.injEq] at h
      obtain ⟨⟨w3, ok⟩, hi, rfl, _⟩ := h
      rw [InsertTrampoline_prot p fuel _ w3 _ newFunc n orig ok hpos hi,
        (atPatchA_fields w _ funcName).1]
  · intro h
    rw [ReplaceFunctionW_eq] at h
    split_ifs at h
    · simp only [Option.some.injEq, Prod.mk.injEq] at h
      rw [← h.1]
    · simp only [Option.some.injEq, Prod.mk.injEq] at h
      rw [← h.1]; rfl
    · simp only [Option.some.injEq, Prod.mk.injEq] at h
      rw [← h.1, (atPatchW_fields w _ funcName).1]
    · simp only [Option.map_eq_some', Prod.mk.injEq] at h
      obtain ⟨⟨w3, ok⟩, hi, rfl, _⟩ := h
      rw [InsertTrampoline_prot p fuel _ w3 _ newFunc n orig ok hpos hi,
        (atPatchW_fields w _ funcName).1]

/-- Witness of `ReplaceFunction_restores_protection`: the replacement of `m!f`
in the demo process. -/
theorem ReplaceFunction_restores_protection_witness :
    demoReplaced.1.prot (patchSiteA demoWorld (some [109]) [102] / PAGE_SIZE)
      = demoWorld.prot (patchSiteA demoWorld (some [109]) [102] / PAGE_SIZE) :=
  (ReplaceFunction_restores_protection tbbHeader 4 demoWorld demoReplaced.1 (some [109]) [102]
    98304 5 126976 demoReplaced.2 (by decide)).1
    (some_getD_of_isSome
      (ReplaceFunctionA tbbHeader 4 demoWorld (some [109]) [102] 98304 5 126976)
      (demoWorld, FRR_TYPE.FRR_NODLL) (by decide))

/-- C6: the status of `ReplaceFunctionA`, and likewise of `ReplaceFunctionW`,
follows the order of the specification: no module when the name is null or
empty (the world, with its record of lookups, is then unchanged) or when the
lookup that is due fails (the cached handle is then 0 and only the module
lookup is on record), else no function when the symbol lookup fails, else
failed or ok with the result of `InsertTrampoline`. -/
theorem ReplaceFunction_status_order (p : Header) (fuel : Nat) (w : World)
    (dllName : Option (List Nat)) (funcName : List Nat) (newFunc n orig : Nat) :
    ((ReplaceFunctionA p fuel w dllName funcName newFunc n orig).map Prod.snd
        = statusOrder (decide (dllName = none ∨ dllName = some []))
            (decide (lookupNeededA w (dllName.getD []) ∧ w.modulesA (dllName.getD []) = 0))
            (decide (patchSiteA w dllName funcName = 0))
            ((InsertTrampoline p fuel (atPatchA w (dllName.getD []) funcName)
                (patchSiteA w dllName funcName) newFunc n orig).map Prod.snd)
      ∧ (dllName = none ∨ dllName = some [] →
          ReplaceFunctionA p fuel w dllName funcName newFunc n orig
            = some (w, FRR_TYPE.FRR_NODLL))
      ∧ (¬ (dllName = none ∨ dllName = some []) →
          lookupNeededA w (dllName.getD []) → w.modulesA (dllName.getD []) = 0 →
          ∃ w', ReplaceFunctionA p fuel w dllName funcName newFunc n orig
              = some (w', FRR_TYPE.FRR_NODLL)
            ∧ w'.cachedHMA = 0
            ∧ w'.log = w.log ++ [Event.getModuleHandleA (dllName.getD [])]))
    ∧ ((ReplaceFunctionW p fuel w dllName funcName newFunc n orig).map Prod.snd
        = statusOrder (decide (dllName = none ∨ dllName = some []))
            (decide (lookupNeededW w (dllName.getD []) ∧ w.modulesW (dllName.getD []) = 0))
            (decide (patchSiteW w dllName funcName = 0))
            ((InsertTrampoline p fuel (atPatchW w (dllName.getD []) funcName)
                (patchSiteW w dllName funcName) newFunc n orig).map Prod.snd)
      ∧ (dllName = none ∨ dllName = some [] →
          ReplaceFunctionW p fuel w dllName funcName newFunc n orig
            = some (w, FRR_TYPE.FRR_NODLL))
      ∧ (¬ (dllName = none ∨ dllName = some []) →
          lookupNeededW w (dllName.getD []) → w.modulesW (dllName.getD []) = 0 →
          ∃ w', ReplaceFunctionW p fuel w dllName funcName newFunc n orig
              = some (w', FRR_TYPE.FRR_NODLL)
            ∧ w'.cachedHMW = 0
            ∧ w'.log = w.log ++ [Event.getModuleHandleW (dllName.getD [])])) := by
  refine ⟨⟨?_, ?_, ?_⟩, ⟨?_, ?_, ?_⟩⟩
  · rw [ReplaceFunctionA_eq]
    unfold statusOrder
    by_cases h1 : dllName = none ∨ dllName = some []
    · simp [h1]
    · by_cases h2 : lookupNeededA w (dllName.getD []) ∧ w.modulesA (dllName.getD []) = 0
      · simp [h1, h2]
      · by_cases h3 : patchSiteA w dllName funcName = 0
        · simp [h1, h2, h3]
        · simp only [h1, h2, h3, if_false, decide_False, Bool.false_eq_true]
          cases InsertTrampoline p fuel (atPatchA w (dllName.getD []) funcName)
              (patchSiteA w dllName funcName) newFunc n orig with
          | none => rfl
          | some r => obtain ⟨w3, b⟩ := r; cases b <;> rfl
  · intro h1
    rw [ReplaceFunctionA_eq, if_pos h1]
  · intro h1 h2 h3
    rw [ReplaceFunctionA_eq, if_neg h1, if_pos ⟨h2, h3⟩]
    exact ⟨_, rfl, rfl, rfl⟩
  · rw [ReplaceFunctionW_eq]
    unfold statusOrder
    by_cases h1 : dllName = none ∨ dllName = some []
    · simp [h1]
    · by_cases h2 : lookupNeededW w (dllName.getD []) ∧ w.modulesW (dllName.getD []) = 0
      · simp [h1, h2]
      · by_cases h3 : patchSiteW w dllName funcName = 0
        · simp [h1, h2, h3]
        · simp only [h1, h2, h3, if_false, decide_False, Bool.false_eq_true]
          cases InsertTrampoline p fuel (atPatchW w (dllName.getD []) funcName)
              (patchSiteW w dllName funcName) newFunc n orig with
          | none => rfl
          | some r => obtain ⟨w3, b⟩ := r; cases b <;> rfl
  · intro h1
    rw [ReplaceFunctionW_eq, if_pos h1]
  · intro h1 h2 h3
    rw [ReplaceFunctionW_eq, if_neg h1, if_pos ⟨h2, h3⟩]
    exact ⟨_, rfl, rfl, rfl⟩

/-- Witness of `ReplaceFunction_status_order`: a null module name, and the name
of a module that is not loaded, in the demo process. -/
theorem ReplaceFunction_status_order_witness :
    ReplaceFunctionA tbbHeader 4 demoWorld none [102] 98304 5 126976
        = some (demoWorld, FRR_TYPE.FRR_NODLL)
      ∧ ∃ w', ReplaceFunctionA tbbHeader 4 demoWorld (some [120]) [102] 98304 5 126976
            = some (w', FRR_TYPE.FRR_NODLL)
          ∧ w'.cachedHMA = 0
          ∧ w'.log = demoWorld.log ++ [Event.getModuleHandleA [120]] :=
  ⟨(ReplaceFunction_status_order tbbHeader 4 demoWorld none [102] 98304 5 126976).1.2.1
      (Or.inl rfl),
   (ReplaceFunction_status_order tbbHeader 4 demoWorld (some [120]) [102] 98304 5 126976).1.2.2
      (by decide) (Or.inl rfl) (by decide)⟩

/-- C9: at the addresses `2 ^ 63 + 4096` and `4096`, whose distance `2 ^ 63` does
not fit an `__int64`, `IsInDistance` answers true for the limit `2 ^ 31 - 33`
although the distance is not below the limit. -/
theorem IsInDistance_wraps_at_two_pow_63 :
    IsInDistance 9223372036854779904 4096 2147483615 = true
      ∧ ¬ (|(9223372036854779904 : Int) - 4096| < 2147483615) := by
  refine ⟨by decide, by norm_num⟩

/-- C10: `IsInDistance` is symmetric in its two addresses, and an address is
within every positive distance of itself. -/
theorem IsInDistance_symm_and_refl :
    (∀ (a b : Nat) (d : Int), IsInDistance a b d = IsInDistance b a d)
      ∧ (∀ (a : Nat) (d : Int), 0 < d → IsInDistance a a d = true) := by
  refine ⟨IsInDistance_comm, ?_⟩
  intro a d hd
  simp [IsInDistance, toInt64, hd]

/-- Witness of `IsInDistance_symm_and_refl` at concrete addresses. -/
theorem IsInDistance_symm_and_refl_witness :
    IsInDistance 4096 8192 2147483615 = IsInDistance 8192 4096 2147483615
      ∧ IsInDistance 4096 4096 1 = true :=
  ⟨IsInDistance_symm_and_refl.1 4096 8192 2147483615,
   IsInDistance_symm_and_refl.2 4096 1 (by decide)⟩

/-! ### Fields that the patching machinery leaves alone -/

theorem SameEnv.refl (w : World) : SameEnv w w :=
  ⟨rfl, rfl, rfl, rfl, rfl, rfl, rfl, rfl, rfl⟩

theorem SameEnv.trans {w w1 w2 : World} (h1 : SameEnv w w1) (h2 : SameEnv w1 w2) :
    SameEnv w w2 :=
  ⟨h2.lpMax.trans h1.lpMax, h2.granularity.trans h1.granularity, h2.exports.trans h1.exports,
    h2.modulesA.trans h1.modulesA, h2.modulesW.trans h1.modulesW,
    h2.cachedNameA.trans h1.cachedNameA, h2.cachedHMA.trans h1.cachedHMA,
    h2.cachedNameW.trans h1.cachedNameW, h2.cachedHMW.trans h1.cachedHMW⟩

theorem GetLocation_env (p : Header) (fuel : Nat) (w w1 : World) (addr s : Nat)
    (h : GetLocation p fuel w addr = some (w1, s)) :
    SameEnv w w1 ∧ w1.log = w.log ∧ w1.mem = w.mem := by
  obtain ⟨oi, hsv⟩ := GetLocation_some p fuel w w1 addr s h
  obtain ⟨h1, h3, h4, h5, h6, h7, h8, h9, h10, h11, h12⟩ :=
    served_frame p fuel w w1 addr s oi hsv
  exact ⟨⟨h4, h5, h6, h7, h8, h9, h10, h11, h12⟩, h3, h1⟩

theorem VirtualProtect_env (w w1 : World) (a sz pr old : Nat)
    (h : VirtualProtect w a sz pr = some (w1, old)) :
    SameEnv w w1 ∧ w1.log = w.log ∧ w1.mem = w.mem
      ∧ w1.m_pages = w.m_pages ∧ w1.state = w.state := by
  obtain ⟨rfl, _, _⟩ := VirtualProtect_some _ _ _ _ _ _ h
  exact ⟨⟨rfl, rfl, rfl, rfl, rfl, rfl, rfl, rfl, rfl⟩, rfl, rfl, rfl, rfl⟩

/-- The block `if ( storedAddr ){ ... }`: what it leaves alone, and the
location it was given when it ends well. -/
theorem storeOriginal_env (p : Header) (fuel : Nat) (w w1 : World)
    (src n stored : Nat) (flag : Bool)
    (h : storeOriginal p fuel w src n stored = some (w1, flag)) :
    SameEnv w w1 ∧ w1.log = w.log
      ∧ (flag = true →
          ∃ s wg, GetLocation p fuel w src = some (wg, s) ∧ w1.m_pages = wg.m_pages
            ∧ s ≠ 0) := by
  obtain ⟨wg, s, hg, hcase⟩ := storeOriginal_cases p fuel w w1 src n stored flag h
  obtain ⟨he, hl, _⟩ := GetLocation_env p fuel w wg src s hg
  rcases hcase with ⟨_, rfl, rfl⟩ | ⟨_, rfl, _, rfl⟩
      | ⟨hz, rfl, m0, m1, m2, _, _, _, _, rfl⟩
  · exact ⟨he, hl, fun hf => by simp at hf⟩
  · exact ⟨⟨he.lpMax, he.granularity, he.exports, he.modulesA, he.modulesW, he.cachedNameA,
      he.cachedHMA, he.cachedNameW, he.cachedHMW⟩, hl, fun hf => by simp at hf⟩
  · exact ⟨⟨he.lpMax, he.granularity, he.exports, he.modulesA, he.modulesW, he.cachedNameA,
      he.cachedHMA, he.cachedNameW, he.cachedHMW⟩, hl, fun _ => ⟨s, wg, hg, rfl, hz⟩⟩

theorem preserve_stage_env (p : Header) (fuel : Nat) (w w1 : World)
    (src n stored : Nat) (flag : Bool)
    (h : (if stored ≠ 0 then storeOriginal p fuel w src n stored else some (w, true))
          = some (w1, flag)) :
    SameEnv w w1 ∧ w1.log = w.log
      ∧ (stored = 0 → w1 = w ∧ flag = true)
      ∧ (flag = true → stored ≠ 0 →
          ∃ s wg, GetLocation p fuel w src = some (wg, s) ∧ w1.m_pages = wg.m_pages
            ∧ s ≠ 0) := by
  by_cases hst : stored ≠ 0
  · rw [if_pos hst] at h
    obtain ⟨a1, a2, a4⟩ := storeOriginal_env p fuel w w1 src n stored flag h
    exact ⟨a1, a2, fun h0 => absurd h0 hst, fun hf _ => a4 hf⟩
  · rw [if_neg hst] at h
    simp only [Option.some.injEq, Prod.mk.injEq] at h
    obtain ⟨rfl, rfl⟩ := h
    exact ⟨SameEnv.refl _, rfl, fun _ => ⟨rfl, rfl⟩, fun _ h0 => absurd h0 hst⟩

/-- The two ways `InsertTrampoline32` ends: with 0, or with `SIZE_OF_RELJUMP`
after the optional block and the writes to the patch site. -/
theorem InsertTrampoline32_shape (p : Header) (fuel : Nat) (w w' : World)
    (src tgt n stored sz : Nat)
    (h : InsertTrampoline32 p fuel w src tgt n stored = some (w', sz)) :
    SameEnv w w' ∧ w'.log = w.log
      ∧ (sz = 0 ∨ sz = SIZE_OF_RELJUMP)
      ∧ (sz ≠ 0 → IsInDistance src tgt p.MAX_DISTANCE = true
          ∧ ∃ w1, (if stored ≠ 0 then storeOriginal p fuel w src n stored else some (w, true))
                = some (w1, true)
            ∧ w' = { w1 with
                mem :=
                  writeBytes (writeBytes (store w1.mem (src % 18446744073709551616) 0xE9)
                    (src + 1) (le32 (subPtr (subPtr tgt src) SIZE_OF_RELJUMP % 4294967296)))
                    (src + SIZE_OF_RELJUMP) (List.replicate (n - SIZE_OF_RELJUMP) 0x90) }) := by
  unfold InsertTrampoline32 at h
  simp only at h
  by_cases hd : IsInDistance src tgt p.MAX_DISTANCE = false
  · rw [if_pos hd] at h
    simp only [Option.some.injEq, Prod.mk.injEq] at h
    obtain ⟨rfl, rfl⟩ := h
    exact ⟨SameEnv.refl _, rfl, Or.inl rfl, fun h0 => absurd rfl h0⟩
  · rw [if_neg hd] at h
    cases hr : (if stored ≠ 0 then storeOriginal p fuel w src n stored else some (w, true)) with
    | none => rw [hr] at h; simp at h
    | some r =>
      obtain ⟨w1, flag⟩ := r
      rw [hr] at h
      obtain ⟨a1, a2, _, _⟩ := preserve_stage_env p fuel w w1 src n stored flag hr
      cases flag with
      | false =>
        simp only [Option.some.injEq, Prod.mk.injEq] at h
        obtain ⟨rfl, rfl⟩ := h
        exact ⟨a1, a2, Or.inl rfl, fun h0 => absurd rfl h0⟩
      | true =>
        simp only [Option.some.injEq, Prod.mk.injEq] at h
        obtain ⟨rfl, rfl⟩ := h
        exact ⟨⟨a1.lpMax, a1.granularity, a1.exports, a1.modulesA, a1.modulesW, a1.cachedNameA,
          a1.cachedHMA, a1.cachedNameW, a1.cachedHMW⟩, a2, Or.inr rfl,
          fun _ => ⟨by simpa using hd, w1, rfl, rfl⟩⟩

/-- The two ways `InsertTrampoline64` ends: with 0, or with `SIZE_OF_INDJUMP`
after the location was obtained and filled, the optional block, and the writes
to the patch site. -/
theorem InsertTrampoline64_shape (p : Header) (fuel : Nat) (w w' : World)
    (src tgt n stored sz : Nat)
    (h : InsertTrampoline64 p fuel w src tgt n stored = some (w', sz)) :
    SameEnv w w' ∧ w'.log = w.log
      ∧ (sz = 0 ∨ sz = SIZE_OF_INDJUMP)
      ∧ (sz ≠ 0 → ∃ wg location w3, GetLocation p fuel w src = some (wg, location)
            ∧ location ≠ 0
            ∧ (if stored ≠ 0 then
                storeOriginal p fuel { wg with mem := writeBytes wg.mem location (le64 tgt) }
                  src n stored
               else some ({ wg with mem := writeBytes wg.mem location (le64 tgt) }, true))
                = some (w3, true)
            ∧ w' = { w3 with
                mem :=
                  writeBytes (writeBytes (store (store w3.mem (src % 18446744073709551616) 0xFF)
                    ((src + 1) % 18446744073709551616) 0x25) (src + 2)
                    (le32 (subPtr (subPtr location src) SIZE_OF_INDJUMP % 4294967296)))
                    (src + SIZE_OF_INDJUMP) (List.replicate (n - SIZE_OF_INDJUMP) 0x90) }) := by
  unfold InsertTrampoline64 at h
  simp only at h
  cases hg : GetLocation p fuel w src with
  | none => rw [hg] at h; simp at h
  | some r =>
    obtain ⟨wg, location⟩ := r
    rw [hg] at h
    simp only at h
    obtain ⟨he, hl, _⟩ := GetLocation_env p fuel w wg src location hg
    by_cases hz : location = 0
    · rw [if_pos hz] at h
      simp only [Option.some.injEq, Prod.mk.injEq] at h
      obtain ⟨rfl, rfl⟩ := h
      exact ⟨he, hl, Or.inl rfl, fun h0 => absurd rfl h0⟩
    · rw [if_neg hz] at h
      cases hr : (if stored ≠ 0 then
          storeOriginal p fuel { wg with mem := writeBytes wg.mem location (le64 tgt) }
            src n stored
          else some ({ wg with mem := writeBytes wg.mem location (le64 tgt) }, true)) with
      | none => rw [hr] at h; simp at h
      | some r =>
        obtain ⟨w3, flag⟩ := r
        rw [hr] at h
        obtain ⟨a1, a2, _, _⟩ := preserve_stage_env p fuel _ w3 src n stored flag hr
        have he3 : SameEnv w w3 :=
          ⟨a1.lpMax.trans he.lpMax, a1.granularity.trans he.granularity,
            a1.exports.trans he.exports, a1.modulesA.trans he.modulesA,
            a1.modulesW.trans he.modulesW, a1.cachedNameA.trans he.cachedNameA,
            a1.cachedHMA.trans he.cachedHMA, a1.cachedNameW.trans he.cachedNameW,
            a1.cachedHMW.trans he.cachedHMW⟩
        have hl3 : w3.log = w.log := a2.trans hl
        cases flag with
        | false =>
          simp only [Option.some.injEq, Prod.mk.injEq] at h
          obtain ⟨rfl, rfl⟩ := h
          exact ⟨he3, hl3, Or.inl rfl, fun h0 => absurd rfl h0⟩
        | true =>
          simp only [Option.some.injEq, Prod.mk.injEq] at h
          obtain ⟨rfl, rfl⟩ := h
          exact ⟨⟨he3.lpMax, he3.granularity, he3.exports, he3.modulesA, he3.modulesW,
            he3.cachedNameA, he3.cachedHMA, he3.cachedNameW, he3.cachedHMW⟩, hl3, Or.inr rfl,
            fun _ => ⟨wg, location, w3, rfl, hz, hr, rfl⟩⟩

/-! ### The near jump -/

/-- C1: after a successful `InsertTrampoline32`, with or without preserved
bytes and whatever `opcodesNumber` is, the patch site holds `E9 d` with
`src + 5 + signExtend32 d = tgt`.  The patched bytes and the replacement are
application addresses, which lie below `2 ^ 63` (there `IsInDistance` is
exact), and `MAX_DISTANCE` leaves room for the 5 bytes of the jump in a signed
32-bit displacement. -/
theorem InsertTrampoline32_reaches_target (p : Header) (fuel : Nat) (w w' : World)
    (src tgt n stored sz : Nat)
    (hh : HeaderOK p)
    (hmax : w.lpMaximumApplicationAddress < 9223372036854775807)
    (hsrc : src + max n SIZE_OF_RELJUMP ≤ w.lpMaximumApplicationAddress + 1)
    (htgt : tgt ≤ w.lpMaximumApplicationAddress)
    (h : InsertTrampoline32 p fuel w src tgt n stored = some (w', sz)) (hsz : sz ≠ 0) :
    w'.mem src = 0xE9
      ∧ (src + 5 + signExtend32 (read32 w'.mem (src + 1))) % 18446744073709551616 = tgt := by
  obtain ⟨_, _, _, hsucc⟩ := InsertTrampoline32_shape p fuel w w' src tgt n stored sz h
  obtain ⟨hd, w1, _, rfl⟩ := hsucc hsz
  have h5 : src + 5 ≤ w.lpMaximumApplicationAddress + 1 := by
    unfold SIZE_OF_RELJUMP at hsrc; omega
  have hn : src + n ≤ w.lpMaximumApplicationAddress + 1 := by omega
  obtain ⟨_, i2, i3, _⟩ := near_image w1.mem src n
    (subPtr (subPtr tgt src) SIZE_OF_RELJUMP % 4294967296) (by omega) (by omega)
    (Nat.mod_lt _ (by decide))
  have hmd := hh.distance
  have hx := (IsInDistance_exact src tgt p.MAX_DISTANCE (by omega)).1 hd
  refine ⟨i2, ?_⟩
  show (src + 5 + signExtend32 (read32 (writeBytes _ _ _) (src + 1))) % _ = tgt
  rw [i3]
  have := jump_target src tgt SIZE_OF_RELJUMP 0 (by omega) (by omega) (by decide)
    (by unfold SIZE_OF_RELJUMP; omega) (by unfold SIZE_OF_RELJUMP; omega)
  simpa [SIZE_OF_RELJUMP] using this

/-- Witness of `InsertTrampoline32_reaches_target`: the near install with
preserved bytes in the demo process, replacement at `0x18000`. -/
theorem InsertTrampoline32_reaches_target_witness :
    demoNear.1.mem 65552 = 0xE9
      ∧ (65552 + 5 + signExtend32 (read32 demoNear.1.mem (65552 + 1))) % 18446744073709551616
          = 98304 :=
  InsertTrampoline32_reaches_target tbbHeader 4 demoWorld demoNear.1 65552 98304 5 126976
    demoNear.2 tbbHeader_ok (by decide) (by decide) (by decide)
    (some_getD_of_isSome
      (InsertTrampoline32 tbbHeader 4 demoWorld 65552 98304 5 126976) (demoWorld, 0)
      (by decide))
    (by decide)

theorem record_env (w : World) (e : Event) : SameEnv w (record w e) :=
  ⟨rfl, rfl, rfl, rfl, rfl, rfl, rfl, rfl, rfl⟩

theorem InsertTrampoline_env (p : Header) (fuel : Nat) (w w' : World)
    (src tgt n orig : Nat) (ok : Bool)
    (h : InsertTrampoline p fuel w src tgt n orig = some (w', ok)) : SameEnv w w' := by
  unfold InsertTrampoline at h
  cases hv : VirtualProtect w src p.MAX_PROBE_SIZE PAGE_EXECUTE_WRITECOPY with
  | none =>
    rw [hv] at h
    simp only [Option.some.injEq, Prod.mk.injEq] at h
    rw [← h.1]
    exact SameEnv.refl w
  | some r =>
    obtain ⟨w1, origProt⟩ := r
    rw [hv] at h
    have e1 := (VirtualProtect_env _ _ _ _ _ _ hv).1
    simp only at h
    cases h32 : InsertTrampoline32 p fuel (record w1 (Event.insertTrampoline32 src tgt))
        src tgt n orig with
    | none => rw [h32] at h; simp at h
    | some r2 =>
      obtain ⟨w2, s32⟩ := r2
      rw [h32] at h
      simp only at h
      have e2 := (InsertTrampoline32_shape p fuel _ w2 src tgt n orig s32 h32).1
      cases hgen : (if s32 = 0 then
          InsertTrampoline64 p fuel (record w2 (Event.insertTrampoline64 src tgt)) src tgt n orig
          else some (w2, s32)) with
      | none => rw [hgen] at h; simp at h
      | some r3 =>
        obtain ⟨w3, sz⟩ := r3
        rw [hgen] at h
        simp only at h
        have e3 : SameEnv w2 w3 := by
          by_cases hs0 : s32 = 0
          · rw [if_pos hs0] at hgen
            exact (record_env w2 _).trans
              (InsertTrampoline64_shape p fuel _ w3 src tgt n orig sz hgen).1
          · rw [if_neg hs0] at hgen
            simp only [Option.some.injEq, Prod.mk.injEq] at hgen
            rw [← hgen.1]
            exact SameEnv.refl w2
        have e03 : SameEnv w w3 := ((e1.trans (record_env w1 _)).trans e2).trans e3
        have e4 : SameEnv w
            (match VirtualProtect w3 src p.MAX_PROBE_SIZE origProt with
              | some (w', _) => w'
              | none => w3) := by
          cases hv3 : VirtualProtect w3 src p.MAX_PROBE_SIZE origProt with
          | none => exact e03
          | some r4 =>
            obtain ⟨w4, old⟩ := r4
            exact e03.trans (VirtualProtect_env _ _ _ _ _ _ hv3).1
        by_cases hsz : sz = 0
        · rw [if_pos hsz] at h
          simp only [Option.some.injEq, Prod.mk.injEq] at h
          rw [← h.1]
          exact e4
        · rw [if_neg hsz] at h
          simp only [Option.some.injEq, Prod.mk.injEq] at h
          rw [← h.1]
          exact (e4.trans (record_env _ _)).trans (record_env _ _)

/-- The record of calls that `InsertTrampoline` leaves: the call of the near
generator, the call of the far generator when the near one returned 0, and two
cache flushes when a generator returned a size. -/
theorem InsertTrampoline_log (p : Header) (fuel : Nat) (w w' : World)
    (src tgt n orig : Nat) (ok : Bool)
    (h : InsertTrampoline p fuel w src tgt n orig = some (w', ok)) :
    (¬ Committed w src p.MAX_PROBE_SIZE ∧ w' = w ∧ ok = false)
    ∨ (Committed w src p.MAX_PROBE_SIZE ∧
        ∃ w2 s32 w3 sz,
          InsertTrampoline32 p fuel
            (record
              { w with
                prot := fun pg =>
                  if inPages src p.MAX_PROBE_SIZE pg then PAGE_EXECUTE_WRITECOPY else w.prot pg }
              (Event.insertTrampoline32 src tgt)) src tgt n orig = some (w2, s32)
          ∧ ((s32 ≠ 0 ∧ w3 = w2 ∧ sz = s32)
              ∨ (s32 = 0 ∧ InsertTrampoline64 p fuel
                  (record w2 (Event.insertTrampoline64 src tgt)) src tgt n orig = some (w3, sz)))
          ∧ ok = decide (sz ≠ 0)
          ∧ (sz = 0 ∨ sz = SIZE_OF_RELJUMP ∨ sz = SIZE_OF_INDJUMP)
          ∧ w'.mem = w3.mem ∧ w'.m_pages = w3.m_pages
          ∧ w'.log = w.log ++ [Event.insertTrampoline32 src tgt]
              ++ (if s32 = 0 then [Event.insertTrampoline64 src tgt] else [])
              ++ (if sz = 0 then [] else
                    [Event.flushInstructionCache src sz, Event.flushInstructionCache orig sz])) := by
  rcases InsertTrampoline_cases p fuel w w' src tgt n orig ok h with h0 |
    ⟨hc, w2, s32, w3, sz, h32, hgen, _, hok, hm, hpg, _, _, hl⟩
  · exact Or.inl h0
  · right
    refine ⟨hc, w2, s32, w3, sz, h32, hgen, hok, ?_, hm, hpg, ?_⟩
    · obtain ⟨_, _, hsz32, _⟩ := InsertTrampoline32_shape p fuel _ w2 src tgt n orig s32 h32
      rcases hgen with ⟨h1, _, h3⟩ | ⟨_, h64⟩
      · rcases hsz32 with h4 | h4
        · exact absurd h4 h1
        · exact Or.inr (Or.inl (h3.trans h4))
      · obtain ⟨_, _, hsz64, _⟩ := InsertTrampoline64_shape p fuel _ w3 src tgt n orig sz h64
        rcases hsz64 with h4 | h4
        · exact Or.inl h4
        · exact Or.inr (Or.inr h4)
    · have hl2 : w2.log = w.log ++ [Event.insertTrampoline32 src tgt] :=
        (InsertTrampoline32_shape p fuel _ w2 src tgt n orig s32 h32).2.1
      rw [hl]
      rcases hgen with ⟨h1, h2, _⟩ | ⟨h1, h64⟩
      · rw [h2, hl2, if_neg h1, List.append_nil]
      · have hl3 : w3.log = w2.log ++ [Event.insertTrampoline64 src tgt] :=
          (InsertTrampoline64_shape p fuel _ w3 src tgt n orig sz h64).2.1
        rw [hl3, hl2, if_pos h1]

/-! ### The module cache -/

theorem moduleLookups_append (l1 l2 : List Event) :
    moduleLookups (l1 ++ l2) = moduleLookups l1 + moduleLookups l2 := by
  unfold moduleLookups
  exact List.countP_append _ l1 l2

/-- `InsertTrampoline` looks no module up. -/
theorem InsertTrampoline_lookups (p : Header) (fuel : Nat) (w w' : World)
    (src tgt n orig : Nat) (ok : Bool)
    (h : InsertTrampoline p fuel w src tgt n orig = some (w', ok)) :
    moduleLookups w'.log = moduleLookups w.log := by
  rcases InsertTrampoline_log p fuel w w' src tgt n orig ok h with ⟨_, h0, _⟩ |
    ⟨_, w2, s32, w3, sz, _, _, _, _, _, _, hl⟩
  · rw [h0]
  · rw [hl]
    simp only [moduleLookups_append]
    have e1 : moduleLookups [Event.insertTrampoline32 src tgt] = 0 := rfl
    have e2 : moduleLookups
        (if s32 = 0 then [Event.insertTrampoline64 src tgt] else []) = 0 := by
      split_ifs <;> rfl
    have e3 : moduleLookups (if sz = 0 then [] else
        [Event.flushInstructionCache src sz, Event.flushInstructionCache orig sz]) = 0 := by
      split_ifs <;> rfl
    rw [e1, e2, e3]
    rfl

/-- The world in which `ReplaceFunctionA` goes on after the module is
resolved: the cache answers for the name, and at most one lookup was made. -/
theorem atPatchA_cache (w : World) (name funcName : List Nat)
    (h : ¬ (lookupNeededA w name ∧ w.modulesA name = 0)) :
    ¬ lookupNeededA (atPatchA w name funcName) name
      ∧ (atPatchA w name funcName).modulesA = w.modulesA
      ∧ moduleLookups (atPatchA w name funcName).log
          = moduleLookups w.log + (if lookupNeededA w name then 1 else 0) := by
  unfold atPatchA
  by_cases hl : lookupNeededA w name
  · have hm : w.modulesA name ≠ 0 := fun hm => h ⟨hl, hm⟩
    rw [if_pos hl, if_pos hl]
    refine ⟨?_, rfl, ?_⟩
    · unfold lookupNeededA record
      simp only [List.take_take, min_self, ne_eq, not_true_eq_false, or_false]
      exact hm
    · simp only [record, moduleLookups_append]
      rfl
  · rw [if_neg hl, if_neg hl]
    refine ⟨hl, rfl, ?_⟩
    simp only [record, moduleLookups_append]
    rfl

theorem atPatchW_cache (w : World) (name funcName : List Nat)
    (h : ¬ (lookupNeededW w name ∧ w.modulesW name = 0)) :
    ¬ lookupNeededW (atPatchW w name funcName) name
      ∧ (atPatchW w name funcName).modulesW = w.modulesW
      ∧ moduleLookups (atPatchW w name funcName).log
          = moduleLookups w.log + (if lookupNeededW w name then 1 else 0) := by
  unfold atPatchW
  by_cases hl : lookupNeededW w name
  · have hm : w.modulesW name ≠ 0 := fun hm => h ⟨hl, hm⟩
    rw [if_pos hl, if_pos hl]
    refine ⟨?_, rfl, ?_⟩
    · unfold lookupNeededW record
      simp only [List.take_take, min_self, ne_eq, not_true_eq_false, or_false]
      exact hm
    · simp only [record, moduleLookups_append]
      rfl
  · rw [if_neg hl, if_neg hl]
    refine ⟨hl, rfl, ?_⟩
    simp only [record, moduleLookups_append]
    rfl

/-- One call of `ReplaceFunctionA`, seen from the module cache. -/
theorem ReplaceFunctionA_lookups (p : Header) (fuel : Nat) (w w1 : World)
    (dllName : Option (List Nat)) (funcName : List Nat) (newFunc n orig : Nat) (st : FRR_TYPE)
    (h : ReplaceFunctionA p fuel w dllName funcName newFunc n orig = some (w1, st)) :
    (dllName = none ∨ dllName = some [] → w1 = w)
      ∧ (¬ (dllName = none ∨ dllName = some []) →
          lookupNeededA w (dllName.getD []) ∧ w.modulesA (dllName.getD []) = 0 →
          st = FRR_TYPE.FRR_NODLL ∧ w1.cachedHMA = 0 ∧ w1.modulesA = w.modulesA
            ∧ moduleLookups w1.log = moduleLookups w.log + 1)
      ∧ (¬ (dllName = none ∨ dllName = some []) →
          ¬ (lookupNeededA w (dllName.getD []) ∧ w.modulesA (dllName.getD []) = 0) →
          st ≠ FRR_TYPE.FRR_NODLL ∧ ¬ lookupNeededA w1 (dllName.getD [])
            ∧ w1.modulesA = w.modulesA
            ∧ moduleLookups w1.log
                = moduleLookups w.log + (if lookupNeededA w (dllName.getD []) then 1 else 0)) := by
  rw [ReplaceFunctionA_eq] at h
  refine ⟨?_, ?_, ?_⟩
  · intro h1
    rw [if_pos h1] at h
    simp only [Option.some.injEq, Prod.mk.injEq] at h
    exact h.1.symm
  · intro h1 h2
    rw [if_neg h1, if_pos h2] at h
    simp only [Option.some.injEq, Prod.mk.injEq] at h
    obtain ⟨rfl, rfl⟩ := h
    refine ⟨rfl, rfl, rfl, ?_⟩
    simp only [record, moduleLookups_append]
    rfl
  · intro h1 h2
    rw [if_neg h1, if_neg h2] at h
    obtain ⟨c1, c2, c3⟩ := atPatchA_cache w (dllName.getD []) funcName h2
    by_cases h3 : patchSiteA w dllName funcName = 0
    · rw [if_pos h3] at h
      simp only [Option.some.injEq, Prod.mk.injEq] at h
      obtain ⟨rfl, rfl⟩ := h
      exact ⟨by decide, c1, c2, c3⟩
    · rw [if_neg h3] at h
      simp only [Option.map_eq_some', Prod.mk.injEq] at h
      obtain ⟨⟨w3, ok⟩, hi, rfl, hst⟩ := h
      have he := InsertTrampoline_env p fuel _ w3 _ newFunc n orig ok hi
      have hl := InsertTrampoline_lookups p fuel _ w3 _ newFunc n orig ok hi
      refine ⟨?_, ?_, he.modulesA.trans c2, hl.trans c3⟩
      · rw [← hst]
        cases ok <;> simp
      · unfold lookupNeededA at c1 ⊢
        rw [he.cachedHMA, he.cachedNameA]
        exact c1
/-- One call of `ReplaceFunctionW`, seen from the module cache. -/
theorem ReplaceFunctionW_lookups (p : Header) (fuel : Nat) (w w1 : World)
    (dllName : Option (List Nat)) (funcName : List Nat) (newFunc n orig : Nat) (st : FRR_TYPE)
    (h : ReplaceFunctionW p fuel w dllName funcName newFunc n orig = some (w1, st)) :
    (dllName = none ∨ dllName = some [] → w1 = w)
      ∧ (¬ (dllName = none ∨ dllName = some []) →
          lookupNeededW w (dllName.getD []) ∧ w.modulesW (dllName.getD []) = 0 →
          st = FRR_TYPE.FRR_NODLL ∧ w1.cachedHMW = 0 ∧ w1.modulesW = w.modulesW
            ∧ moduleLookups w1.log = moduleLookups w.log + 1)
      ∧ (¬ (dllName = none ∨ dllName = some []) →
          ¬ (lookupNeededW w (dllName.getD []) ∧ w.modulesW (dllName.getD []) = 0) →
          st ≠ FRR_TYPE.FRR_NODLL ∧ ¬ lookupNeededW w1 (dllName.getD [])
            ∧ w1.modulesW = w.modulesW
            ∧ moduleLookups w1.log
                = moduleLookups w.log + (if lookupNeededW w (dllName.getD []) then 1 else 0)) := by
  rw [ReplaceFunctionW_eq] at h
  refine ⟨?_, ?_, ?_⟩
  · intro h1
    rw [if_pos h1] at h
    simp only [Option.some.injEq, Prod.mk.injEq] at h
    exact h.1.symm
  · intro h1 h2
    rw [if_neg h1, if_pos h2] at h
    simp only [Option.some.injEq, Prod.mk.injEq] at h
    obtain ⟨rfl, rfl⟩ := h
    refine ⟨rfl, rfl, rfl, ?_⟩
    simp only [record, moduleLookups_append]
    rfl
  · intro h1 h2
    rw [if_neg h1, if_neg h2] at h
    obtain ⟨c1, c2, c3⟩ := atPatchW_cache w (dllName.getD []) funcName h2
    by_cases h3 : patchSiteW w dllName funcName = 0
    · rw [if_pos h3] at h
      simp only [Option.some.injEq, Prod.mk.injEq] at h
      obtain ⟨rfl, rfl⟩ := h
      exact ⟨by decide, c1, c2, c3⟩
    · rw [if_neg h3] at h
      simp only [Option.map_eq_some', Prod.mk.injEq] at h
      obtain ⟨⟨w3, ok⟩, hi, rfl, hst⟩ := h
      have he := InsertTrampoline_env p fuel _ w3 _ newFunc n orig ok hi
      have hl := InsertTrampoline_lookups p fuel _ w3 _ newFunc n orig ok hi
      refine ⟨?_, ?_, he.modulesW.trans c2, hl.trans c3⟩
      · rw [← hst]
        cases ok <;> simp
      · unfold lookupNeededW at c1 ⊢
        rw [he.cachedHMW, he.cachedNameW]
        exact c1

/-- C11, amended: of two consecutive calls of `ReplaceFunctionA` (likewise
`ReplaceFunctionW`) with the same module name, the second makes no module
lookup when the first did not return `FRR_NODLL`, and the two calls together
make at most one; with a null or empty name neither call makes a lookup; when
the first call returns `FRR_NODLL` for a name that is not empty, each of the two
calls makes one lookup. -/
theorem ReplaceFunction_second_lookup (p : Header) (fuel fuel2 : Nat) (w w1 w2 : World)
    (dllName : Option (List Nat)) (f1 f2 : List Nat) (nf1 n1 o1 nf2 n2 o2 : Nat)
    (st1 st2 : FRR_TYPE) :
    (ReplaceFunctionA p fuel w dllName f1 nf1 n1 o1 = some (w1, st1) →
      ReplaceFunctionA p fuel2 w1 dllName f2 nf2 n2 o2 = some (w2, st2) →
        (st1 ≠ FRR_TYPE.FRR_NODLL →
          moduleLookups w2.log = moduleLookups w1.log
            ∧ moduleLookups w2.log ≤ moduleLookups w.log + 1)
        ∧ (dllName = none ∨ dllName = some [] → moduleLookups w2.log = moduleLookups w.log)
        ∧ (st1 = FRR_TYPE.FRR_NODLL → ¬ (dllName = none ∨ dllName = some []) →
            moduleLookups w1.log = moduleLookups w.log + 1
              ∧ moduleLookups w2.log = moduleLookups w.log + 2))
    ∧ (ReplaceFunctionW p fuel w dllName f1 nf1 n1 o1 = some (w1, st1) →
      ReplaceFunctionW p fuel2 w1 dllName f2 nf2 n2 o2 = some (w2, st2) →
        (st1 ≠ FRR_TYPE.FRR_NODLL →
          moduleLookups w2.log = moduleLookups w1.log
            ∧ moduleLookups w2.log ≤ moduleLookups w.log + 1)
        ∧ (dllName = none ∨ dllName = some [] → moduleLookups w2.log = moduleLookups w.log)
        ∧ (st1 = FRR_TYPE.FRR_NODLL → ¬ (dllName = none ∨ dllName = some []) →
            moduleLookups w1.log = moduleLookups w.log + 1
              ∧ moduleLookups w2.log = moduleLookups w.log + 2)) := by
  constructor
  · intro h1 h2
    obtain ⟨a1, a2, a3⟩ := ReplaceFunctionA_lookups p fuel w w1 dllName f1 nf1 n1 o1 st1 h1
    obtain ⟨b1, b2, b3⟩ := ReplaceFunctionA_lookups p fuel2 w1 w2 dllName f2 nf2 n2 o2 st2 h2
    by_cases hnull : dllName = none ∨ dllName = some []
    · have e1 := a1 hnull
      have e2 := b1 hnull
      rw [ReplaceFunctionA_eq, if_pos hnull] at h1
      simp only [Option.some.injEq, Prod.mk.injEq] at h1
      refine ⟨fun h0 => absurd h1.2.symm h0, fun _ => by rw [e2, e1], fun _ h0 => absurd hnull h0⟩
    · by_cases hfail : lookupNeededA w (dllName.getD []) ∧ w.modulesA (dllName.getD []) = 0
      · obtain ⟨c1, c2, c3, c4⟩ := a2 hnull hfail
        have hfail2 : lookupNeededA w1 (dllName.getD []) ∧ w1.modulesA (dllName.getD []) = 0 :=
          ⟨Or.inl c2, by rw [c3]; exact hfail.2⟩
        obtain ⟨_, _, _, d4⟩ := b2 hnull hfail2
        exact ⟨fun h0 => absurd c1 h0, fun h0 => absurd h0 hnull, fun _ _ => ⟨c4, by omega⟩⟩
      · obtain ⟨c1, c2, c3, c4⟩ := a3 hnull hfail
        obtain ⟨_, _, _, d4⟩ := b3 hnull (fun h0 => c2 h0.1)
        rw [if_neg c2] at d4
        refine ⟨fun _ => ⟨d4, ?_⟩, fun h0 => absurd h0 hnull, fun h0 => absurd h0 c1⟩
        split_ifs at c4 <;> omega
  · intro h1 h2
    obtain ⟨a1, a2, a3⟩ := ReplaceFunctionW_lookups p fuel w w1 dllName f1 nf1 n1 o1 st1 h1
    obtain ⟨b1, b2, b3⟩ := ReplaceFunctionW_lookups p fuel2 w1 w2 dllName f2 nf2 n2 o2 st2 h2
    by_cases hnull : dllName = none ∨ dllName = some []
    · have e1 := a1 hnull
      have e2 := b1 hnull
      rw [ReplaceFunctionW_eq, if_pos hnull] at h1
      simp only [Option.some.injEq, Prod.mk.injEq] at h1
      refine ⟨fun h0 => absurd h1.2.symm h0, fun _ => by rw [e2, e1], fun _ h0 => absurd hnull h0⟩
    · by_cases hfail : lookupNeededW w (dllName.getD []) ∧ w.modulesW (dllName.getD []) = 0
      · obtain ⟨c1, c2, c3, c4⟩ := a2 hnull hfail
        have hfail2 : lookupNeededW w1 (dllName.getD []) ∧ w1.modulesW (dllName.getD []) = 0 :=
          ⟨Or.inl c2, by rw [c3]; exact hfail.2⟩
        obtain ⟨_, _, _, d4⟩ := b2 hnull hfail2
        exact ⟨fun h0 => absurd c1 h0, fun h0 => absurd h0 hnull, fun _ _ => ⟨c4, by omega⟩⟩
      · obtain ⟨c1, c2, c3, c4⟩ := a3 hnull hfail
        obtain ⟨_, _, _, d4⟩ := b3 hnull (fun h0 => c2 h0.1)
        rw [if_neg c2] at d4
        refine ⟨fun _ => ⟨d4, ?_⟩, fun h0 => absurd h0 hnull, fun h0 => absurd h0 c1⟩
        split_ifs at c4 <;> omega

/-- Witness of `ReplaceFunction_second_lookup`: after the replacement of `m!f`
in the demo process, a second call for the module `m` makes no lookup. -/
theorem ReplaceFunction_second_lookup_witness :
    moduleLookups demoReplacedAgain.1.log = moduleLookups demoReplaced.1.log
      ∧ moduleLookups demoReplacedAgain.1.log ≤ moduleLookups demoWorld.log + 1 :=
  ((ReplaceFunction_second_lookup tbbHeader 4 4 demoWorld demoReplaced.1 demoReplacedAgain.1
    (some [109]) [102] [103] 98304 5 126976 98304 5 126984 demoReplaced.2 demoReplacedAgain.2).1
    (some_getD_of_isSome
      (ReplaceFunctionA tbbHeader 4 demoWorld (some [109]) [102] 98304 5 126976)
      (demoWorld, FRR_TYPE.FRR_NODLL) (by decide))
    (some_getD_of_isSome
      (ReplaceFunctionA tbbHeader 4 demoReplaced.1 (some [109]) [103] 98304 5 126984)
      (demoWorld, FRR_TYPE.FRR_NODLL) (by decide))).1 (by decide)

/-- Counterexample to C11 as stated: two consecutive calls of
`ReplaceFunctionA` for the module name `"x"`, which is not loaded in the demo
process, both return `FRR_NODLL` and leave two calls of `GetModuleHandleA` on
record. -/
theorem ReplaceFunctionA_looks_up_twice :
    ((ReplaceFunctionA tbbHeader 0 demoWorld (some [120]) [102] 98304 5 126976).bind
        (fun r => ReplaceFunctionA tbbHeader 0 r.1 (some [120]) [102] 98304 5 126976)).map
      (fun r => (r.2, r.1.log))
      = some (FRR_TYPE.FRR_NODLL, [Event.getModuleHandleA [120], Event.getModuleHandleA [120]]) := by
  decide

/-! ### A full registry -/

theorem GetLocation_full (p : Header) (fuel : Nat) (w : World) (addr : Nat)
    (hfull : w.m_pages.length = p.MAX_NUM_BUFFERS)
    (hnone : GetLocation.scan p addr w.m_pages = none) :
    GetLocation p fuel w addr = some (w, 0) := by
  simp [GetLocation, GetLocation.served, hnone, CreateBuffer, hfull]

theorem GetLocation_length (p : Header) (fuel : Nat) (w w1 : World) (addr s : Nat)
    (hlen : w.m_pages.length ≤ p.MAX_NUM_BUFFERS)
    (h : GetLocation p fuel w addr = some (w1, s)) :
    w1.m_pages.length ≤ p.MAX_NUM_BUFFERS := by
  obtain ⟨oi, hsv⟩ := GetLocation_some p fuel w w1 addr s h
  rcases served_cases p fuel w addr _ hsv with ⟨_, h0⟩ | ⟨l1, b, l2, hl, _, _, hb⟩
      | ⟨newAddr, _, hne, _, _, hz, hb⟩
  · simp only [Prod.mk.injEq] at h0
    rw [h0.1]; exact hlen
  · simp only [Prod.mk.injEq] at hb
    rw [hb.1]
    rw [hl] at hlen
    simpa using hlen
  · simp only [Prod.mk.injEq] at hb
    rw [hb.1]
    simp only [List.length_append, List.length_singleton]
    omega

theorem InsertTrampoline_full (p : Header) (fuel : Nat) (w : World) (src tgt n orig : Nat)
    (hfull : w.m_pages.length = p.MAX_NUM_BUFFERS)
    (hnone : GetLocation.scan p src w.m_pages = none)
    (hneed : IsInDistance src tgt p.MAX_DISTANCE = false ∨ orig ≠ 0) :
    ∃ w', InsertTrampoline p fuel w src tgt n orig = some (w', false)
      ∧ w'.m_pages = w.m_pages := by
  have hg : ∀ w1 : World, w1.m_pages = w.m_pages → GetLocation p fuel w1 src = some (w1, 0) :=
    fun w1 h1 => GetLocation_full p fuel w1 src (by rw [h1]; exact hfull) (by rw [h1]; exact hnone)
  have h32 : ∀ w1 : World, w1.m_pages = w.m_pages →
      InsertTrampoline32 p fuel w1 src tgt n orig = some (w1, 0) := by
    intro w1 h1
    unfold InsertTrampoline32
    rcases hneed with hfar | horig
    · simp [hfar]
    · by_cases hd : IsInDistance src tgt p.MAX_DISTANCE = false
      · simp [hd]
      · simp [hd, horig, storeOriginal, hg w1 h1]
  have h64 : ∀ w1 : World, w1.m_pages = w.m_pages →
      InsertTrampoline64 p fuel w1 src tgt n orig = some (w1, 0) := by
    intro w1 h1
    simp [InsertTrampoline64, hg w1 h1]
  unfold InsertTrampoline
  cases hv : VirtualProtect w src p.MAX_PROBE_SIZE PAGE_EXECUTE_WRITECOPY with
  | none => exact ⟨w, rfl, rfl⟩
  | some r =>
    obtain ⟨w1, origProt⟩ := r
    have hp1 : w1.m_pages = w.m_pages := (VirtualProtect_env _ _ _ _ _ _ hv).2.2.2.1
    simp only
    rw [h32 _ (by exact hp1)]
    simp only [if_true]
    rw [h64 _ (by exact hp1)]
    simp only [if_true]
    cases hv3 : VirtualProtect
        (record (record w1 (Event.insertTrampoline32 src tgt)) (Event.insertTrampoline64 src tgt))
        src p.MAX_PROBE_SIZE origProt with
    | none => exact ⟨_, rfl, hp1⟩
    | some r4 =>
      obtain ⟨w4, old⟩ := r4
      exact ⟨_, rfl, ((VirtualProtect_env _ _ _ _ _ _ hv3).2.2.2.1).trans hp1⟩

theorem atPatchA_pages (w : World) (name funcName : List Nat) :
    (atPatchA w name funcName).m_pages = w.m_pages := by
  unfold atPatchA record
  split_ifs <;> rfl

theorem atPatchW_pages (w : World) (name funcName : List Nat) :
    (atPatchW w name funcName).m_pages = w.m_pages := by
  unfold atPatchW record
  split_ifs <;> rfl

/-- C12: with `MAX_NUM_BUFFERS` buffers registered and no registered buffer
serving `addr`, `GetLocation(addr)` returns 0 and leaves the provider as it
was; a patch at `addr` that needs a location (the replacement is out of the
distance of a near jump, or the original bytes are to be preserved) makes
`InsertTrampoline` return false and `ReplaceFunctionA`/`ReplaceFunctionW`
return `FRR_FAILED`; and no call of `GetLocation` takes the number of buffers
above `MAX_NUM_BUFFERS`. -/
theorem registry_full_fails (p : Header) (fuel : Nat) (w : World) (addr : Nat)
    (hfull : w.m_pages.length = p.MAX_NUM_BUFFERS)
    (hnone : GetLocation.scan p addr w.m_pages = none) :
    GetLocation p fuel w addr = some (w, 0)
      ∧ (∀ tgt n orig, IsInDistance addr tgt p.MAX_DISTANCE = false ∨ orig ≠ 0 →
          ∃ w', InsertTrampoline p fuel w addr tgt n orig = some (w', false)
            ∧ w'.m_pages = w.m_pages)
      ∧ (∀ dllName funcName newFunc n orig,
          ¬ (dllName = none ∨ dllName = some []) →
          ¬ (lookupNeededA w (dllName.getD []) ∧ w.modulesA (dllName.getD []) = 0) →
          patchSiteA w dllName funcName = addr → addr ≠ 0 →
          IsInDistance addr newFunc p.MAX_DISTANCE = false ∨ orig ≠ 0 →
          ∃ w', ReplaceFunctionA p fuel w dllName funcName newFunc n orig
            = some (w', FRR_TYPE.FRR_FAILED))
      ∧ (∀ dllName funcName newFunc n orig,
          ¬ (dllName = none ∨ dllName = some []) →
          ¬ (lookupNeededW w (dllName.getD []) ∧ w.modulesW (dllName.getD []) = 0) →
          patchSiteW w dllName funcName = addr → addr ≠ 0 →
          IsInDistance addr newFunc p.MAX_DISTANCE = false ∨ orig ≠ 0 →
          ∃ w', ReplaceFunctionW p fuel w dllName funcName newFunc n orig
            = some (w', FRR_TYPE.FRR_FAILED))
      ∧ (∀ (fuel0 : Nat) (w0 w1 : World) (a s : Nat),
          w0.m_pages.length ≤ p.MAX_NUM_BUFFERS →
          GetLocation p fuel0 w0 a = some (w1, s) →
          w1.m_pages.length ≤ p.MAX_NUM_BUFFERS) := by
  refine ⟨GetLocation_full p fuel w addr hfull hnone,
    fun tgt n orig hneed => InsertTrampoline_full p fuel w addr tgt n orig hfull hnone hneed,
    ?_, ?_, fun fuel0 w0 w1 a s hlen h => GetLocation_length p fuel0 w0 w1 a s hlen h⟩
  · intro dllName funcName newFunc n orig h1 h2 h3 h4 hneed
    rw [ReplaceFunctionA_eq, if_neg h1, if_neg h2, if_neg (by rw [h3]; exact h4), h3]
    obtain ⟨w', hi, _⟩ := InsertTrampoline_full p fuel (atPatchA w (dllName.getD []) funcName)
      addr newFunc n orig (by rw [atPatchA_pages]; exact hfull)
      (by rw [atPatchA_pages]; exact hnone) hneed
    rw [hi]
    exact ⟨w', rfl⟩
  · intro dllName funcName newFunc n orig h1 h2 h3 h4 hneed
    rw [ReplaceFunctionW_eq, if_neg h1, if_neg h2, if_neg (by rw [h3]; exact h4), h3]
    obtain ⟨w', hi, _⟩ := InsertTrampoline_full p fuel (atPatchW w (dllName.getD []) funcName)
      addr newFunc n orig (by rw [atPatchW_pages]; exact hfull)
      (by rw [atPatchW_pages]; exact hnone) hneed
    rw [hi]
    exact ⟨w', rfl⟩

set_option maxRecDepth 100000 in
theorem demoWorldFull_length : demoWorldFull.m_pages.length = tbbHeader.MAX_NUM_BUFFERS := by
  decide

set_option maxRecDepth 100000 in
theorem demoWorldFull_scan : GetLocation.scan tbbHeader 65552 demoWorldFull.m_pages = none :=
  Option.isNone_iff_eq_none.mp (by decide)

/-- Witness of `registry_full_fails`: the demo process with 256 exhausted
buffers; a replacement of `m!f` with preserved bytes returns `FRR_FAILED`. -/
theorem registry_full_fails_witness :
    GetLocation tbbHeader 0 demoWorldFull 65552 = some (demoWorldFull, 0)
      ∧ ∃ w', ReplaceFunctionA tbbHeader 0 demoWorldFull (some [109]) [102] 98304 5 126976
          = some (w', FRR_TYPE.FRR_FAILED) :=
  ⟨(registry_full_fails tbbHeader 0 demoWorldFull 65552 demoWorldFull_length
      demoWorldFull_scan).1,
   (registry_full_fails tbbHeader 0 demoWorldFull 65552 demoWorldFull_length
      demoWorldFull_scan).2.2.1 (some [109]) [102] 98304 5 126976
      (by decide) (by decide) (by decide) (by decide) (Or.inr (by decide))⟩

/-! ### The fallback to the far generator -/

theorem farCalls_append (l1 l2 : List Event) :
    farCalls (l1 ++ l2) = farCalls l1 + farCalls l2 := by
  unfold farCalls
  exact List.countP_append _ l1 l2

/-- C13, amended: `InsertTrampoline` calls `InsertTrampoline64` at most once,
and exactly when its first `VirtualProtect` succeeded and `InsertTrampoline32`
returned 0, whatever made it return 0.  The far generator is called when the
displacement does not pass `IsInDistance`; it is not called when the
displacement passes and no bytes are to be preserved. -/
theorem InsertTrampoline_far_call (p : Header) (fuel : Nat) (w w' : World)
    (src tgt n orig : Nat) (ok : Bool)
    (h : InsertTrampoline p fuel w src tgt n orig = some (w', ok)) :
    (farCalls w'.log = farCalls w.log + 1
        ↔ Committed w src p.MAX_PROBE_SIZE ∧
          ∃ w2, InsertTrampoline32 p fuel
            (record
              { w with
                prot := fun pg =>
                  if inPages src p.MAX_PROBE_SIZE pg then PAGE_EXECUTE_WRITECOPY else w.prot pg }
              (Event.insertTrampoline32 src tgt)) src tgt n orig = some (w2, 0))
      ∧ (farCalls w'.log ≠ farCalls w.log + 1 → farCalls w'.log = farCalls w.log)
      ∧ (Committed w src p.MAX_PROBE_SIZE → IsInDistance src tgt p.MAX_DISTANCE = false →
          farCalls w'.log = farCalls w.log + 1)
      ∧ (IsInDistance src tgt p.MAX_DISTANCE = true → orig = 0 →
          farCalls w'.log = farCalls w.log) := by
  rcases InsertTrampoline_log p fuel w w' src tgt n orig ok h with ⟨hnc, h0, _⟩ |
    ⟨hc, w2, s32, w3, sz, h32, hgen, _, _, _, _, hl⟩
  · subst h0
    refine ⟨⟨fun h1 => by omega, fun h1 => absurd h1.1 hnc⟩, fun _ => rfl,
      fun h1 => absurd h1 hnc, fun _ _ => rfl⟩
  · have e1 : farCalls [Event.insertTrampoline32 src tgt] = 0 := rfl
    have e3 : farCalls (if sz = 0 then [] else
        [Event.flushInstructionCache src sz, Event.flushInstructionCache orig sz]) = 0 := by
      split_ifs <;> rfl
    have hcount : farCalls w'.log = farCalls w.log + (if s32 = 0 then 1 else 0) := by
      rw [hl]
      simp only [farCalls_append, e1, e3]
      split_ifs <;> rfl
    have hnear : IsInDistance src tgt p.MAX_DISTANCE = true → orig = 0 → s32 ≠ 0 := by
      intro hd ho h0
      rw [h0] at h32
      simp [InsertTrampoline32, hd, ho, SIZE_OF_RELJUMP] at h32
    have hfar : IsInDistance src tgt p.MAX_DISTANCE = false → s32 = 0 := by
      intro hd
      simp [InsertTrampoline32, hd] at h32
      exact h32.2.symm
    refine ⟨⟨?_, ?_⟩, ?_, ?_, ?_⟩
    · intro h1
      have hs0 : s32 = 0 := by
        by_contra hne
        rw [if_neg hne] at hcount
        omega
      rw [hs0] at h32
      exact ⟨hc, w2, h32⟩
    · rintro ⟨_, w2', h32'⟩
      rw [h32] at h32'
      simp only [Option.some.injEq, Prod.mk.injEq] at h32'
      rw [hcount, if_pos h32'.2]
    · intro h1
      by_cases hs0 : s32 = 0
      · rw [hcount, if_pos hs0] at h1
        exact absurd rfl h1
      · rw [hcount, if_neg hs0]
        rfl
    · intro _ hd
      rw [hcount, if_pos (hfar hd)]
    · intro hd ho
      rw [hcount, if_neg (hnear hd ho)]
      rfl

/-- Witness of `InsertTrampoline_far_call`: an install in the demo process
whose replacement is out of the distance of a near jump. -/
theorem InsertTrampoline_far_call_witness :
    farCalls demoFailed.1.log = farCalls demoWorldNoAlloc.log + 1 :=
  (InsertTrampoline_far_call tbbHeader 4 demoWorldNoAlloc demoFailed.1 65552 140668768878592 5
    126976 demoFailed.2
    (some_getD_of_isSome
      (InsertTrampoline tbbHeader 4 demoWorldNoAlloc 65552 140668768878592 5 126976)
      (demoWorld, true) (by decide))).2.2.1
    (Committed_congr demoWorld demoWorldNoAlloc 65552 32 rfl demoWorld_committed) (by decide)

/-- Counterexample to C13 as stated: in the demo process without trampoline
memory, the replacement at `0x18000` passes `IsInDistance` for the patch site
`0x10010`, `InsertTrampoline32` returns 0 because no location for the preserved
bytes is obtained, and `InsertTrampoline64` is called. -/
theorem InsertTrampoline64_called_within_distance :
    IsInDistance 65552 98304 tbbHeader.MAX_DISTANCE = true
      ∧ (InsertTrampoline tbbHeader 4 demoWorldNoAlloc 65552 98304 5 126976).map
          (fun r => (r.2, r.1.log))
        = some (false,
            [Event.insertTrampoline32 65552 98304, Event.insertTrampoline64 65552 98304]) := by
  decide

/-! ### The scan of the registered buffers -/

/-- The scan of `GetLocation` finds a buffer exactly when some registered
buffer has room and is within reach, and every buffer before it is within
reach. -/
theorem scan_isSome_iff (p : Header) (addr : Nat) :
    ∀ l : List MemoryBuffer,
      (∃ r, GetLocation.scan p addr l = some r)
        ↔ ∃ l1 b l2, l = l1 ++ b :: l2 ∧ servesAt p addr l1 b := by
  intro l
  induction l with
  | nil =>
    constructor
    · rintro ⟨r, hr⟩
      simp [GetLocation.scan] at hr
    · rintro ⟨l1, b, l2, hl, _⟩
      simp at hl
  | cons a t ih =>
    constructor
    · rintro ⟨r, hr⟩
      unfold GetLocation.scan at hr
      by_cases hd : IsInDistance a.m_next addr p.MAX_DISTANCE = true
      · rw [if_pos hd] at hr
        by_cases hroom : a.m_next < (a.m_base + a.m_size) % 18446744073709551616
        · exact ⟨[], a, t, rfl, by simp, hd, hroom⟩
        · rw [if_neg hroom] at hr
          cases ht : GetLocation.scan p addr t with
          | none => rw [ht] at hr; simp at hr
          | some r' =>
            obtain ⟨l1, b, l2, hl, h1, h2, h3⟩ := ih.1 ⟨r', ht⟩
            refine ⟨a :: l1, b, l2, by rw [hl]; rfl, ?_, h2, h3⟩
            intro c hc
            rcases List.mem_cons.1 hc with rfl | hc'
            · exact hd
            · exact h1 c hc'
      · rw [if_neg hd] at hr
        simp at hr
    · rintro ⟨l1, b, l2, hl, h1, h2, h3⟩
      unfold GetLocation.scan
      cases l1 with
      | nil =>
        simp only [List.nil_append, List.cons.injEq] at hl
        obtain ⟨rfl, rfl⟩ := hl
        have h3' : a.m_next < (a.m_base + a.m_size) % 18446744073709551616 := h3
        rw [if_pos h2, if_pos h3']
        exact ⟨_, rfl⟩
      | cons c l1' =>
        simp only [List.cons_append, List.cons.injEq] at hl
        obtain ⟨rfl, rfl⟩ := hl
        rw [if_pos (h1 a (List.mem_cons_self _ _))]
        by_cases hroom : a.m_next < (a.m_base + a.m_size) % 18446744073709551616
        · rw [if_pos hroom]
          exact ⟨_, rfl⟩
        · rw [if_neg hroom]
          obtain ⟨r', hr'⟩ := ih.2 ⟨l1', b, l2, rfl,
            fun c hc => h1 c (List.mem_cons_of_mem _ hc), h2, h3⟩
          rw [hr']
          exact ⟨_, rfl⟩

/-- When the scan finds no buffer, `GetLocation` ends as `CreateBuffer` does:
with 0 and the process as it was, or with a location of the buffer that was
just registered. -/
theorem served_created (p : Header) (fuel : Nat) (w : World) (addr : Nat)
    (r : World × Nat × Option Nat) (hn : GetLocation.scan p addr w.m_pages = none)
    (h : GetLocation.served p fuel w addr = some r) :
    r = (w, 0, none)
      ∨ (r.2.2 = some w.m_pages.length ∧ r.1.m_pages.length = w.m_pages.length + 1) := by
  unfold GetLocation.served at h
  rw [hn] at h
  simp only at h
  unfold CreateBuffer at h
  by_cases hfull : w.m_pages.length = p.MAX_NUM_BUFFERS
  · rw [if_pos hfull] at h
    exact Or.inl (Option.some.inj h).symm
  · rw [if_neg hfull] at h
    cases hq : VirtualQuery w addr with
    | none =>
      rw [hq] at h
      exact Or.inl (Option.some.inj h).symm
    | some mi =>
      rw [hq] at h
      simp only at h
      cases hc : CreateBuffer.search p w addr fuel mi with
      | none => rw [hc] at h; simp at h
      | some rc =>
        rw [hc] at h
        rcases search_cases p w addr fuel mi rc hc with hrc | ⟨newAddr, _, _, hz, hrc⟩
        · subst hrc
          exact Or.inl (Option.some.inj h).symm
        · subst hrc
          right
          simp only at h
          rw [← Option.some.inj h]
          refine ⟨rfl, ?_⟩
          have e1 := advance_append p w.m_pages
            (MemoryBuffer.create (VirtualAlloc w newAddr w.m_allocSize PAGE_READWRITE).2
              w.m_allocSize) []
          show (advance p w.m_pages.length (w.m_pages ++ _)).length = _
          rw [e1]
          simp

/-- C14, amended: `GetLocation(addr)` hands out a location of a registered
buffer, creating none, when some registered buffer has room and a cursor within
`MAX_DISTANCE` of `addr` and every buffer registered before it has its cursor
within `MAX_DISTANCE` of `addr`; when no registered buffer is so, it goes on to
`CreateBuffer` and either fails or hands out the first location of a buffer it
has just registered. -/
theorem GetLocation_creates_buffer (p : Header) (fuel : Nat) (w : World) (addr : Nat) :
    ((∃ l1 b l2, w.m_pages = l1 ++ b :: l2 ∧ servesAt p addr l1 b) →
        ∃ w' s i, GetLocation.served p fuel w addr = some (w', s, some i)
          ∧ i < w.m_pages.length ∧ s = nextOf i w.m_pages
          ∧ w'.m_pages.length = w.m_pages.length)
      ∧ ((¬ ∃ l1 b l2, w.m_pages = l1 ++ b :: l2 ∧ servesAt p addr l1 b) →
          GetLocation.scan p addr w.m_pages = none
          ∧ ∀ w' s oi, GetLocation.served p fuel w addr = some (w', s, oi) →
              (s = 0 ∧ oi = none ∧ w' = w)
              ∨ (oi = some w.m_pages.length
                  ∧ w'.m_pages.length = w.m_pages.length + 1)) := by
  constructor
  · intro hex
    obtain ⟨r, hr⟩ := (scan_isSome_iff p addr w.m_pages).2 hex
    obtain ⟨l1, b, l2, h1, h2, h3, h4, _, _⟩ := scan_some p addr _ _ hr
    refine ⟨{ w with m_pages := r.2.2 }, r.2.1, r.1, ?_, ?_, ?_, ?_⟩
    · unfold GetLocation.served
      rw [hr]
    · rw [h2, h1]
      simp
    · rw [h2, h3, h1, nextOf_append]
    · show r.2.2.length = _
      rw [h4, h1]
      simp
  · intro hno
    have hnone : GetLocation.scan p addr w.m_pages = none := by
      cases hsc : GetLocation.scan p addr w.m_pages with
      | none => rfl
      | some r => exact absurd ((scan_isSome_iff p addr w.m_pages).1 ⟨r, hsc⟩) hno
    refine ⟨hnone, ?_⟩
    intro w' s oi hsv
    rcases served_created p fuel w addr _ hnone hsv with h0 | ⟨h1, h2⟩
    · simp only [Prod.mk.injEq] at h0
      exact Or.inl ⟨h0.2.1, h0.2.2, h0.1⟩
    · exact Or.inr ⟨h1, h2⟩

/-- Witness of `GetLocation_creates_buffer`: in the demo process with one
buffer at `0x30000` that has room, `GetLocation(0x10010)` hands out a location
of that buffer. -/
theorem GetLocation_creates_buffer_witness :
    ∃ w' s i, GetLocation.served tbbHeader 4 demoWorldOne 65552 = some (w', s, some i)
      ∧ i < demoWorldOne.m_pages.length ∧ s = nextOf i demoWorldOne.m_pages
      ∧ w'.m_pages.length = demoWorldOne.m_pages.length :=
  (GetLocation_creates_buffer tbbHeader 4 demoWorldOne 65552).1
    ⟨[], { m_base := 196608, m_next := 196640, m_size := 65536 }, [], rfl,
      by simp, by decide, by decide⟩

/-- Counterexample to C14 as stated: in `demoWorldTwo` buffer 1 has room and
its cursor `0x30020` is within `MAX_DISTANCE` of `0x10010`, yet
`GetLocation(0x10010)` registers a third buffer and hands out its first
location `0x1F00000`: the scan stops at buffer 0, whose cursor is out of reach.
The same is seen in three calls on the empty provider of the demo process. -/
theorem GetLocation_creates_despite_room :
    demoWorldTwo.m_pages.map
        (fun b => (b.m_base, decide (hasRoom b),
          IsInDistance b.m_next 65552 tbbHeader.MAX_DISTANCE))
      = [(140668769009664, true, false), (196608, true, true)]
    ∧ (GetLocation.served tbbHeader 4 demoWorldTwo 65552).map
        (fun r => (r.2.1, r.2.2, r.1.m_pages.length)) = some (327680, some 2, 3)
    ∧ GetLocation.trace tbbHeader 4 demoWorld [140668768878608, 65552, 65552]
        = some [(0, 140668769009664), (1, 196608), (2, 327680)] := by
  decide

/-! ### The buffers over a sequence of calls -/

/-- C15: a buffer as its constructor leaves it, and every registered buffer
after any sequence of `GetLocation` calls on a provider whose buffers are well
formed (the empty provider among them), satisfies
`m_base ≤ m_next ≤ m_base + m_size` with `m_next - m_base` a multiple of
`MAX_PROBE_SIZE`; no buffer leaves the registry and no cursor decreases.  The
slot width divides the allocation granularity, which is the size of a buffer. -/
theorem buffers_stay_well_formed (p : Header) (fuel : Nat) (addrs : List Nat) :
    ∀ (w w' : World),
      p.MAX_PROBE_SIZE ∣ w.m_allocSize →
      w.lpMaximumApplicationAddress + 1 < 18446744073709551616 →
      ProviderOK p w →
      GetLocation.calls p fuel w addrs = some w' →
      (∀ base size, (MemoryBuffer.create base size).m_base ≤ (MemoryBuffer.create base size).m_next
          ∧ (MemoryBuffer.create base size).m_next
              ≤ (MemoryBuffer.create base size).m_base + (MemoryBuffer.create base size).m_size
          ∧ p.MAX_PROBE_SIZE
              ∣ (MemoryBuffer.create base size).m_next - (MemoryBuffer.create base size).m_base)
        ∧ (∀ b ∈ w'.m_pages, b.m_base ≤ b.m_next ∧ b.m_next ≤ b.m_base + b.m_size
            ∧ p.MAX_PROBE_SIZE ∣ b.m_next - b.m_base)
        ∧ w.m_pages.length ≤ w'.m_pages.length
        ∧ (∀ k, k < w.m_pages.length → nextOf k w.m_pages ≤ nextOf k w'.m_pages) := by
  induction addrs with
  | nil =>
    intro w w' _ _ hok h
    simp only [GetLocation.calls, Option.some.injEq] at h
    subst h
    exact ⟨fun base size => ⟨le_refl _, Nat.le_add_right _ _, by simp [MemoryBuffer.create]⟩,
      fun b hb => ⟨(hok b hb).base_le, (hok b hb).next_le, (hok b hb).next_dvd⟩,
      le_refl _, fun _ _ => le_refl _⟩
  | cons addr rest ih =>
    intro w w' hdvd hmax hok h
    unfold GetLocation.calls at h
    cases hg : GetLocation p fuel w addr with
    | none => rw [hg] at h; simp at h
    | some r =>
      obtain ⟨w1, s⟩ := r
      rw [hg] at h
      simp only at h
      obtain ⟨oi, hsv⟩ := GetLocation_some p fuel w w1 addr s hg
      obtain ⟨hok1, hgr, hlp, hlen, hmono, _⟩ := served_step p fuel w w1 addr s oi hdvd hmax hok hsv
      obtain ⟨c1, c2, c3, c4⟩ := ih w1 w'
        (by rw [m_allocSize_congr w w1 hgr]; exact hdvd) (by rw [hlp]; exact hmax) hok1 h
      exact ⟨c1, c2, le_trans hlen c3,
        fun k hk => le_trans (hmono k hk) (c4 k (lt_of_lt_of_le hk hlen))⟩

/-- Witness of `buffers_stay_well_formed`: three calls on the empty provider
of the demo process. -/
theorem buffers_stay_well_formed_witness :
    (∀ b ∈ demoAfterCalls.m_pages, b.m_base ≤ b.m_next ∧ b.m_next ≤ b.m_base + b.m_size
        ∧ tbbHeader.MAX_PROBE_SIZE ∣ b.m_next - b.m_base)
      ∧ demoWorld.m_pages.length ≤ demoAfterCalls.m_pages.length :=
  ⟨(buffers_stay_well_formed tbbHeader 4 [65552, 140668768878608, 65552] demoWorld
      demoAfterCalls (by decide) (by decide) (fun b hb => by simp [demoWorld] at hb)
      (some_getD_of_isSome
        (GetLocation.calls tbbHeader 4 demoWorld [65552, 140668768878608, 65552]) demoWorld
        (by decide))).2.1,
   (buffers_stay_well_formed tbbHeader 4 [65552, 140668768878608, 65552] demoWorld
      demoAfterCalls (by decide) (by decide) (fun b hb => by simp [demoWorld] at hb)
      (some_getD_of_isSome
        (GetLocation.calls tbbHeader 4 demoWorld [65552, 140668768878608, 65552]) demoWorld
        (by decide))).2.2.1⟩

/-! ### The bytes that a generator changes -/

/-- C16, amended: in a successful install with byte preservation, by either
generator, where `opcodesNumber + 5 ≤ MAX_PROBE_SIZE`, the location `s` read
from `*storedAddr` is a slot of a registered buffer, and every byte that the
install changes lies in the first `max opcodesNumber jumpSize` bytes of the
patch site, in the 8 bytes of the caller's variable, in the 8 bytes at the
first location of the far generator (a slot that does not overlap the slot at
`s`), or in `[s, s + opcodesNumber + 5)`, hence in the slot
`[s, s + MAX_PROBE_SIZE)`.  The process is sane, the patched code
`[src, src + len)` is committed memory apart from the trampoline buffers, and
the caller's variable is committed memory outside the trampoline buffers and
off the pages of the patched code. -/
theorem preserved_bytes_extent (p : Header) (fuel : Nat) (w w' : World)
    (src tgt n stored len sz : Nat)
    (hh : HeaderOK p) (hs : Sane p w) (hp : PatchSite w src len) (hc : Committed w src len)
    (h6 : SIZE_OF_INDJUMP ≤ len) (hn : n ≤ len) (hst : stored ≠ 0)
    (hv : OwnVariable w src len stored)
    (hfit : n + SIZE_OF_RELJUMP ≤ p.MAX_PROBE_SIZE)
    (htgt : tgt < 18446744073709551616) (hsz : sz ≠ 0) :
    (InsertTrampoline32 p fuel w src tgt n stored = some (w', sz) →
        (∃ b ∈ w'.m_pages, b.m_base ≤ read64 w'.mem stored
            ∧ p.MAX_PROBE_SIZE ∣ read64 w'.mem stored - b.m_base
            ∧ read64 w'.mem stored + p.MAX_PROBE_SIZE ≤ b.m_base + b.m_size)
        ∧ (∀ a, a < src ∨ (src + 5 ≤ a ∧ src + n ≤ a) →
            a < stored ∨ stored + 8 ≤ a →
            a < read64 w'.mem stored ∨ read64 w'.mem stored + n + 5 ≤ a →
            w'.mem a = w.mem a)
        ∧ (∀ a, a < src ∨ (src + 5 ≤ a ∧ src + n ≤ a) →
            a < stored ∨ stored + 8 ≤ a →
            a < read64 w'.mem stored ∨ read64 w'.mem stored + p.MAX_PROBE_SIZE ≤ a →
            w'.mem a = w.mem a))
    ∧ (InsertTrampoline64 p fuel w src tgt n stored = some (w', sz) →
        ∃ location, (∃ w1, GetLocation p fuel w src = some (w1, location))
          ∧ (location + p.MAX_PROBE_SIZE ≤ read64 w'.mem stored
              ∨ read64 w'.mem stored + p.MAX_PROBE_SIZE ≤ location)
          ∧ (∃ b ∈ w'.m_pages, b.m_base ≤ read64 w'.mem stored
              ∧ p.MAX_PROBE_SIZE ∣ read64 w'.mem stored - b.m_base
              ∧ read64 w'.mem stored + p.MAX_PROBE_SIZE ≤ b.m_base + b.m_size)
          ∧ (∀ a, a < src ∨ (src + 6 ≤ a ∧ src + n ≤ a) →
              a < location ∨ location + 8 ≤ a →
              a < stored ∨ stored + 8 ≤ a →
              a < read64 w'.mem stored ∨ read64 w'.mem stored + n + 5 ≤ a →
              w'.mem a = w.mem a)
          ∧ (∀ a, a < src ∨ (src + 6 ≤ a ∧ src + n ≤ a) →
              a < location ∨ location + 8 ≤ a →
              a < stored ∨ stored + 8 ≤ a →
              a < read64 w'.mem stored ∨ read64 w'.mem stored + p.MAX_PROBE_SIZE ≤ a →
              w'.mem a = w.mem a)) := by
  have h6' : 6 ≤ len := h6
  have hfit' : n + 5 ≤ p.MAX_PROBE_SIZE := hfit
  constructor
  · intro h
    obtain ⟨_, _, _, _, _, _, _, hok⟩ :=
      InsertTrampoline32_effect p fuel w w' src tgt n stored len sz hh hs hp hc h
    obtain ⟨_, _, hdet⟩ := hok hsz
    obtain ⟨_, _, _, _, _, d6, d7⟩ :=
      hdet (by show 5 ≤ len; omega) hn (fun _ => hfit) (fun _ => hv)
    obtain ⟨⟨b, hb, b1, _, b3, b4⟩, _⟩ := d6 hst
    refine ⟨⟨b, hb, b1, b3, b4⟩, fun a ha hvar hsl => d7 a ha (fun _ => ⟨hvar, hsl⟩), ?_⟩
    intro a ha hvar hsl
    exact d7 a ha (fun _ => ⟨hvar, by omega⟩)
  · intro h
    obtain ⟨_, _, _, _, _, _, _, hok⟩ :=
      InsertTrampoline64_effect p fuel w w' src tgt n stored len sz hh hs hp hc h
    obtain ⟨_, hdet⟩ := hok hsz
    obtain ⟨_, _, ⟨location, _, hget, _, _, _, hapart, _, _, d7⟩, _, _, _, d6⟩ :=
      hdet h6 hn (fun _ => hfit) (fun _ => hv) htgt
    obtain ⟨⟨b, hb, b1, _, b3, b4⟩, _⟩ := d6 hst
    refine ⟨location, hget, hapart hst, ⟨b, hb, b1, b3, b4⟩,
      fun a ha hl hvar hsl => d7 a ha hl (fun _ => ⟨hvar, hsl⟩), ?_⟩
    intro a ha hl hvar hsl
    exact d7 a ha hl (fun _ => ⟨hvar, by omega⟩)

/-- Witness of `preserved_bytes_extent`: the near install with 5 preserved
bytes in the demo process. -/
theorem preserved_bytes_extent_witness :
    (∃ b ∈ demoNear.1.m_pages, b.m_base ≤ read64 demoNear.1.mem 126976
        ∧ tbbHeader.MAX_PROBE_SIZE ∣ read64 demoNear.1.mem 126976 - b.m_base
        ∧ read64 demoNear.1.mem 126976 + tbbHeader.MAX_PROBE_SIZE ≤ b.m_base + b.m_size)
      ∧ (∀ a, a < 65552 ∨ (65552 + 5 ≤ a ∧ 65552 + 5 ≤ a) →
          a < 126976 ∨ 126976 + 8 ≤ a →
          a < read64 demoNear.1.mem 126976
            ∨ read64 demoNear.1.mem 126976 + tbbHeader.MAX_PROBE_SIZE ≤ a →
          demoNear.1.mem a = demoWorld.mem a) := by
  have h := (preserved_bytes_extent tbbHeader 4 demoWorld demoNear.1 65552 98304 5 126976 32
    demoNear.2 tbbHeader_ok demoWorld_sane demoWorld_site demoWorld_committed (by decide)
    (by decide) (by decide) demoWorld_variable (by decide) (by decide) (by decide)).1
    (some_getD_of_isSome (InsertTrampoline32 tbbHeader 4 demoWorld 65552 98304 5 126976)
      (demoWorld, 0) (by decide))
  exact ⟨h.1, h.2.2⟩

/-- Counterexample to C16 as stated: a near install in the demo process with
`opcodesNumber = 28` and slots of 32 bytes leaves its location `0x30000` in
`*storedAddr` and changes the byte at `0x30020`, the first byte of the next
slot, from 107 to 255 (the last byte of the displacement of the back jump). -/
theorem preserved_bytes_spill_into_next_slot :
    (InsertTrampoline32 tbbHeader 4 demoWorld 65552 98304 28 126976).map
        (fun r => (r.2, read64 r.1.mem 126976, r.1.mem (196608 + 32)))
      = some (5, 196608, 255)
    ∧ demoWorld.mem (196608 + 32) = 107 ∧ tbbHeader.MAX_PROBE_SIZE = 32 := by
  decide

/-- C17: a generator returns 0 or the size of its jump, 5 for
`InsertTrampoline32` and 6 for `InsertTrampoline64`; when it returns the size,
every byte of the patch site at an offset from the size of the jump up to
`opcodesNumber` is `0x90`.  The patch range `[src, src + opcodesNumber)` does
not wrap around the address space. -/
theorem generators_pad_with_nops (p : Header) (fuel : Nat) (w w' : World)
    (src tgt n stored sz : Nat) (hsrc : src + n ≤ 18446744073709551616) :
    (InsertTrampoline32 p fuel w src tgt n stored = some (w', sz) →
        (sz = 0 ∨ sz = SIZE_OF_RELJUMP)
        ∧ (sz ≠ 0 → ∀ i, SIZE_OF_RELJUMP ≤ i → i < n → w'.mem (src + i) = 0x90))
    ∧ (InsertTrampoline64 p fuel w src tgt n stored = some (w', sz) →
        (sz = 0 ∨ sz = SIZE_OF_INDJUMP)
        ∧ (sz ≠ 0 → ∀ i, SIZE_OF_INDJUMP ≤ i → i < n → w'.mem (src + i) = 0x90)) := by
  constructor
  · intro h
    obtain ⟨_, _, hsize, hsucc⟩ := InsertTrampoline32_shape p fuel w w' src tgt n stored sz h
    refine ⟨hsize, ?_⟩
    intro hsz i hi1 hi2
    obtain ⟨_, w1, _, rfl⟩ := hsucc hsz
    have hi1' : 5 ≤ i := hi1
    exact (near_image w1.mem src n (subPtr (subPtr tgt src) SIZE_OF_RELJUMP % 4294967296)
      (by omega) hsrc (Nat.mod_lt _ (by decide))).2.2.2 i hi1 hi2
  · intro h
    obtain ⟨_, _, hsize, hsucc⟩ := InsertTrampoline64_shape p fuel w w' src tgt n stored sz h
    refine ⟨hsize, ?_⟩
    intro hsz i hi1 hi2
    obtain ⟨_, location, w3, _, _, _, rfl⟩ := hsucc hsz
    have hi1' : 6 ≤ i := hi1
    exact (far_image w3.mem src n (subPtr (subPtr location src) SIZE_OF_INDJUMP % 4294967296)
      (by omega) hsrc (Nat.mod_lt _ (by decide))).2.2.2.2 i hi1 hi2

/-- Witness of `generators_pad_with_nops`: a near install over 8 bytes in the
demo process leaves `0x90` at the offsets 5, 6 and 7. -/
theorem generators_pad_with_nops_witness :
    (demoNearPadded.2 = 0 ∨ demoNearPadded.2 = SIZE_OF_RELJUMP)
      ∧ demoNearPadded.1.mem (65552 + 5) = 0x90 ∧ demoNearPadded.1.mem (65552 + 6) = 0x90
      ∧ demoNearPadded.1.mem (65552 + 7) = 0x90 := by
  have h := (generators_pad_with_nops tbbHeader 4 demoWorld demoNearPadded.1 65552 98304 8 126976
    demoNearPadded.2 (by decide)).1
    (some_getD_of_isSome (InsertTrampoline32 tbbHeader 4 demoWorld 65552 98304 8 126976)
      (demoWorld, 0) (by decide))
  exact ⟨h.1, h.2 (by decide) 5 (by decide) (by decide), h.2 (by decide) 6 (by decide)
    (by decide), h.2 (by decide) 7 (by decide) (by decide)⟩

/-! ### The cache flushes -/

theorem flushes_append (l1 l2 : List Event) : flushes (l1 ++ l2) = flushes l1 ++ flushes l2 := by
  induction l1 with
  | nil => rfl
  | cons e l ih =>
    cases e <;> simp [flushes, ih]

/-- The cache flushes of `InsertTrampoline`: none when it fails; when it
succeeds two, of the size that the generator returned, the first at the patch
site and the second at the address `origFunc` of the caller's variable. -/
theorem InsertTrampoline_flushes (p : Header) (fuel : Nat) (w w' : World)
    (src tgt n orig : Nat) (ok : Bool)
    (h : InsertTrampoline p fuel w src tgt n orig = some (w', ok)) :
    ∃ sz, (sz = 0 ∨ sz = SIZE_OF_RELJUMP ∨ sz = SIZE_OF_INDJUMP) ∧ ok = decide (sz ≠ 0)
      ∧ flushes w'.log = flushes w.log ++ (if sz = 0 then [] else [(src, sz), (orig, sz)]) := by
  rcases InsertTrampoline_log p fuel w w' src tgt n orig ok h with ⟨_, h0, hok⟩ |
    ⟨_, w2, s32, w3, sz, _, _, hok, hsize, _, _, hl⟩
  · subst h0
    exact ⟨0, Or.inl rfl, by simp [hok], by simp⟩
  · refine ⟨sz, hsize, hok, ?_⟩
    rw [hl]
    simp only [flushes_append]
    have e1 : flushes [Event.insertTrampoline32 src tgt] = [] := rfl
    have e2 : flushes (if s32 = 0 then [Event.insertTrampoline64 src tgt] else []) = [] := by
      split_ifs <;> rfl
    rw [e1, e2]
    split_ifs <;> simp [flushes]

/-- C18: a successful `InsertTrampoline` with preserved bytes in the demo
process (patch site `0x10010`, replacement `0x18000`, `origFunc = 0x1F000`)
leaves the location `0x30000` in `*origFunc` and records two flushes of 5
bytes, at `0x10010` and at `0x1F000`: the second flush starts at the address of
the caller's variable, not at the location of the preserved bytes. -/
theorem second_flush_at_pointer_variable :
    (InsertTrampoline tbbHeader 4 demoWorld 65552 98304 5 126976).map
        (fun r => (r.2, read64 r.1.mem 126976, flushes r.1.log))
      = some (true, 196608, [(65552, 5), (126976, 5)])
    ∧ (126976 : Nat) ≠ 196608 := by
  decide

/-! ### One call of `GetLocation` and the registry -/

/-- C19: on a provider whose buffers are well formed with a base that is not
null, a call of `GetLocation` that returns 0 leaves the process, and with it
every buffer, as it was; a call that returns a location `s` other than 0 either
moves the cursor of one registered buffer from `s` to `s + MAX_PROBE_SIZE` and
leaves every other buffer and the base and size of this one as they were, or
keeps all registered buffers as they were and registers one buffer with base
`s` and cursor `s + MAX_PROBE_SIZE`.  The bases stay other than null.  The
slot width divides the allocation granularity. -/
theorem GetLocation_moves_one_cursor (p : Header) (fuel : Nat) (w w' : World) (addr s : Nat)
    (hdvd : p.MAX_PROBE_SIZE ∣ w.m_allocSize)
    (hmax : w.lpMaximumApplicationAddress + 1 < 18446744073709551616)
    (hok : ProviderOK p w) (hbase : ∀ b ∈ w.m_pages, b.m_base ≠ 0)
    (h : GetLocation p fuel w addr = some (w', s)) :
    (s = 0 → w' = w)
      ∧ (s ≠ 0 →
          (∃ l1 b l2, w.m_pages = l1 ++ b :: l2 ∧ s = b.m_next
              ∧ w'.m_pages = l1 ++ { b with m_next := b.m_next + p.MAX_PROBE_SIZE } :: l2)
          ∨ (∃ size, w'.m_pages = w.m_pages
              ++ [{ m_base := s, m_next := s + p.MAX_PROBE_SIZE, m_size := size }]))
      ∧ (∀ b ∈ w'.m_pages, b.m_base ≠ 0) := by
  obtain ⟨oi, hsv⟩ := GetLocation_some p fuel w w' addr s h
  rcases served_cases p fuel w addr _ hsv with ⟨_, h0⟩ | ⟨l1, b, l2, hl, _, hroom, hb⟩
      | ⟨newAddr, _, _, _, _, hz, hb⟩
  · simp only [Prod.mk.injEq] at h0
    obtain ⟨rfl, rfl, _⟩ := h0
    exact ⟨fun _ => rfl, fun h1 => absurd rfl h1, hbase⟩
  · simp only [Prod.mk.injEq] at hb
    obtain ⟨rfl, rfl, _⟩ := hb
    have hbm : b ∈ w.m_pages := by rw [hl]; simp
    have hb0 := hbase b hbm
    have hble := (hok b hbm).base_le
    obtain ⟨_, hnw, _⟩ := BufferOK_advance p b (hok b hbm) hroom
    refine ⟨fun h1 => by omega, fun _ => Or.inl ⟨l1, b, l2, hl, rfl, ?_⟩, ?_⟩
    · show l1 ++ _ :: l2 = _
      rw [hnw]
    · intro c hc
      have hc' : c ∈ l1 ++ { b with m_next := (b.m_next + p.MAX_PROBE_SIZE)
          % 18446744073709551616 } :: l2 := hc
      rw [List.mem_append, List.mem_cons] at hc'
      rcases hc' with h1 | h1 | h1
      · exact hbase c (by rw [hl]; simp [h1])
      · rw [h1]; exact hb0
      · exact hbase c (by rw [hl]; simp [h1])
  · simp only [Prod.mk.injEq] at hb
    obtain ⟨rfl, rfl, _⟩ := hb
    obtain ⟨_, hnw, _⟩ := BufferOK_fresh p w newAddr hdvd hmax hz
    refine ⟨fun h1 => absurd h1 hz, fun _ => Or.inr ⟨w.m_allocSize, ?_⟩, ?_⟩
    · show w.m_pages ++ _ = _
      rw [hnw]
    · intro c hc
      have hc' : c ∈ w.m_pages ++
          [{ m_base := (VirtualAlloc w newAddr w.m_allocSize PAGE_READWRITE).2
             m_next := ((VirtualAlloc w newAddr w.m_allocSize PAGE_READWRITE).2
                        + p.MAX_PROBE_SIZE) % 18446744073709551616
             m_size := w.m_allocSize }] := hc
      rw [List.mem_append, List.mem_singleton] at hc'
      rcases hc' with h1 | h1
      · exact hbase c h1
      · rw [h1]; exact hz

/-- Witness of `GetLocation_moves_one_cursor`: the first `GetLocation` call
in the demo process registers a buffer. -/
theorem GetLocation_moves_one_cursor_witness :
    (∃ l1 b l2, demoWorld.m_pages = l1 ++ b :: l2 ∧ demoSlot.2 = b.m_next
        ∧ demoSlot.1.m_pages
          = l1 ++ { b with m_next := b.m_next + tbbHeader.MAX_PROBE_SIZE } :: l2)
      ∨ (∃ size, demoSlot.1.m_pages = demoWorld.m_pages
          ++ [{ m_base := demoSlot.2, m_next := demoSlot.2 + tbbHeader.MAX_PROBE_SIZE,
                m_size := size }]) :=
  (GetLocation_moves_one_cursor tbbHeader 4 demoWorld demoSlot.1 65552 demoSlot.2
    (by decide) (by decide) (fun b hb => by simp [demoWorld] at hb)
    (fun b hb => by simp [demoWorld] at hb)
    (some_getD_of_isSome (GetLocation tbbHeader 4 demoWorld 65552) (demoWorld, 0)
      (by decide))).2.1 (by decide)

/-! ### The bytes of the patched function -/

/-- What the hypothesis on the caller's variable excludes: in a near install in
the demo process whose `storedAddr` is the patch site itself, the location
`0x30000` is stored over the first 8 bytes of the function before they are
copied, so the slot holds `00 00 03 00 00` instead of the bytes
`41 42 43 44 45` of the function, and the bytes of the function at the offsets
5, 6 and 7 are zero after the call. -/
theorem install_through_aliased_variable :
    (InsertTrampoline32 tbbHeader 4 demoWorld 65552 98304 5 65552).map
        (fun r => (r.2, readBytes r.1.mem 196608 5, readBytes r.1.mem (65552 + 5) 3))
      = some (5, [0, 0, 3, 0, 0], [0, 0, 0])
    ∧ readBytes demoWorld.mem 65552 8 = [41, 42, 43, 44, 45, 46, 47, 48] := by
  decide

end FunctionReplacement
